import Mathlib

/-!
# Initialization scheduling and global groups of the C++ script compiler

A shallow embedding of the parts of `script_opt/CPPCompile.h` and
`script_opt/CPP/GlobalInfo.h` that decide in which order run-time
initializers are generated, together with the properties proved about them.

Objects of the front-end (`const Obj*`) are identified by their address, a
natural number.  Maps of the C++ code are association lists kept in the order
in which their keys were first inserted.
-/

namespace Zeek

/-! ## The init scheduler (`CPPCompile`) -/

/-- Address identity of a front-end object, the `const Obj*` of the C++ code. -/
abbrev Obj := Nat

/-- The two members `obj_inits` and `obj_deps` of `CPPCompile`
(CPPCompile.h, lines 774-779): the initializer statements of every object that
has an init node, and the objects every object depends on.  The C++ members
are `std::unordered_map`s, which promise no order of traversal; the order of a
list here is the order in which the entries are met, and `AddInit` below puts
a new node after the existing ones, the first-registered order of spec 4.3. -/
structure InitState where
  obj_inits : List (Obj × List String)
  obj_deps : List (Obj × List Obj)
deriving DecidableEq, Repr

/-- The scheduler state of a fresh compilation: no node, no dependency. -/
def InitState.empty : InitState := ⟨[], []⟩

/-- The objects that have an init node, in the order of the nodes. -/
def InitNodes (st : InitState) : List Obj := st.obj_inits.map Prod.fst

/-- The statement list recorded for `o` (empty when `o` has no node). -/
def lookupInits (o : Obj) : List (Obj × List String) → List String
  | [] => []
  | (k, v) :: rest => if k = o then v else lookupInits o rest

/-- The statement list recorded for `o` in `st`. -/
def initsOf (st : InitState) (o : Obj) : List String := lookupInits o st.obj_inits

/-- The dependency set recorded for `o`: every object listed under key `o`. -/
def depsOf (st : InitState) (o : Obj) : List Obj :=
  st.obj_deps.flatMap (fun e => if e.1 = o then e.2 else [])

/-- Appends `s` to the statements of `o`, creating the node at the end of the
node list when `o` has none. -/
def appendInit (o : Obj) (s : String) : List (Obj × List String) → List (Obj × List String)
  | [] => [(o, [s])]
  | (k, v) :: rest => if k = o then (k, v ++ [s]) :: rest else (k, v) :: appendInit o s rest

/-- Makes sure `o` has a node, with an empty statement list when it is new. -/
def ensureNode (o : Obj) : List (Obj × List String) → List (Obj × List String)
  | [] => [(o, [])]
  | (k, v) :: rest => if k = o then (k, v) :: rest else (k, v) :: ensureNode o rest

/-- Adds `b` to the dependency set of `a`, creating the set when `a` has none. -/
def insertDep (a b : Obj) : List (Obj × List Obj) → List (Obj × List Obj)
  | [] => [(a, [b])]
  | (k, ds) :: rest =>
    if k = a then (k, if b ∈ ds then ds else ds ++ [b]) :: rest
    else (k, ds) :: insertDep a b rest

/-- Modelled from the spec: `CPPCompile::AddInit(const Obj*, const std::string&)`,
declared in CPPCompile.h line 560 and defined outside the sources at hand.
Spec 4.3: "appends statement to obj's node (creates the node on first use);
preserves call order". -/
def AddInit (o : Obj) (init : String) (st : InitState) : InitState :=
  { st with obj_inits := appendInit o init st.obj_inits }

/-- Modelled from the spec: `CPPCompile::AddInit(const Obj*)`, declared in
CPPCompile.h line 568 and defined outside the sources at hand.  Spec 4.3:
"ensures a node exists with an empty statement list". -/
def AddInitEmpty (o : Obj) (st : InitState) : InitState :=
  { st with obj_inits := ensureNode o st.obj_inits }

/-- Modelled from the spec: `CPPCompile::NoteInitDependency(const Obj*, const Obj*)`,
declared in CPPCompile.h line 579 and defined outside the sources at hand.
Spec 4.3: "records that a's generated code must run after b's". -/
def NoteInitDependency (o1 o2 : Obj) (st : InitState) : InitState :=
  { st with obj_deps := insertDep o1 o2 st.obj_deps }

/-- The three-argument `AddInit` of CPPCompile.h, lines 555-557:
`AddInit(o, lhs + " = " + rhs + ";")`. -/
def AddInit3 (o : Obj) (lhs rhs : String) (st : InitState) : InitState :=
  AddInit o (lhs ++ " = " ++ rhs ++ ";") st

/-- A call made on the scheduler while code is being generated. -/
inductive InitCall where
  | addInit (o : Obj) (init : String)
  | addInitEmpty (o : Obj)
  | noteInitDependency (o1 o2 : Obj)
deriving DecidableEq, Repr

/-- Performs one call. -/
def InitCall.apply (st : InitState) : InitCall → InitState
  | .addInit o s => AddInit o s st
  | .addInitEmpty o => AddInitEmpty o st
  | .noteInitDependency a b => NoteInitDependency a b st

/-- The state reached from `st` by a sequence of calls, in call order. -/
def runCalls (st : InitState) (calls : List InitCall) : InitState :=
  calls.foldl InitCall.apply st

/-- The state built by a sequence of calls in a fresh compilation. -/
def buildState (calls : List InitCall) : InitState := runCalls InitState.empty calls

/-- Modelled from the spec: `CPPCompile::CheckInitConsistency`, declared in
CPPCompile.h line 596 and defined outside the sources at hand.  Spec 4.3:
"fails fatally if any node referenced as a dependency source or target is
absent from to_do".  The fatal failure is `none`; on success the state and
`to_do` are handed back as the call left them. -/
def CheckInitConsistency (st : InitState) (to_do : List Obj) :
    Option (InitState × List Obj) :=
  if st.obj_deps.all (fun e => e.2.all (fun d => decide (e.1 ∈ to_do) && decide (d ∈ to_do)))
  then some (st, to_do) else none

/-- Every dependency of `o` has been emitted. -/
def readyToInit (st : InitState) (done : List Obj) (o : Obj) : Bool :=
  (depsOf st o).all (fun d => decide (d ∈ done))

/-- What `GenDependentInits` has done so far: the objects still to do, the
objects marked done (in the order of their emission) and the statements
emitted. -/
structure GenState where
  to_do : List Obj
  done : List Obj
  emitted : List String
deriving DecidableEq, Repr

/-- The object to emit next: the first object of `to_do`, in first-registered
order, all of whose dependencies are done.  Members of `to_do` that were never
registered come after the registered ones. -/
def selectReady (st : InitState) (g : GenState) : Option Obj :=
  (InitNodes st ++ g.to_do).find? (fun o => decide (o ∈ g.to_do) && readyToInit st g.done o)

/-- One round on the selected object `o`: emits its statements, marks it done
and removes it from `to_do`. -/
def emitInits (st : InitState) (g : GenState) (o : Obj) : GenState :=
  { to_do := g.to_do.filter (fun x => x != o),
    done := g.done ++ [o],
    emitted := g.emitted ++ initsOf st o }

/-- The emission loop; `fuel` bounds the number of rounds and is the size of
`to_do` at the start, every round taking one object out of `to_do`. -/
def genLoop (st : InitState) : Nat → GenState → Option GenState
  | 0, g => if g.to_do = [] then some g else none
  | fuel + 1, g =>
    if g.to_do = [] then some g
    else match selectReady st g with
      | none => none
      | some o => genLoop st fuel (emitInits st g o)

/-- Modelled from the spec: `CPPCompile::GenDependentInits`, declared in
CPPCompile.h line 600 and defined outside the sources at hand.  Spec 4.3:
"repeatedly selects a node all of whose dependencies have already been
emitted, emits its statements, marks it done, removes it from to_do.  Ties
break in first-registered order.  Reports a fatal error if a cycle prevents
to_do from draining to empty."  The fatal error is `none`. -/
def GenDependentInits (st : InitState) (to_do : List Obj) : Option GenState :=
  genLoop st to_do.length { to_do := to_do, done := [], emitted := [] }

/-- The object `a` depends on `b`. -/
def DependsOn (st : InitState) (a b : Obj) : Prop := b ∈ depsOf st a

instance (st : InitState) (a b : Obj) : Decidable (DependsOn st a b) :=
  inferInstanceAs (Decidable (b ∈ depsOf st a))

/-- The dependency relation has no cycle. -/
def Acyclic (st : InitState) : Prop := ∀ o, ¬ Relation.TransGen (DependsOn st) o o

/-- In the list `l`, `b` occurs and `a` occurs after it. -/
def Precedes (l : List Obj) (b a : Obj) : Prop :=
  ∃ l1 l2 l3, l = l1 ++ b :: (l2 ++ a :: l3)

/-- The object `x` is the source or the target of a recorded dependency. -/
def Referenced (st : InitState) (x : Obj) : Prop :=
  (∃ b, DependsOn st x b) ∨ (∃ a, DependsOn st a x)

/-- The statements passed for `o` by the calls `AddInit(o, s)` of a sequence,
in call order. -/
def statementsFor (o : Obj) (calls : List InitCall) : List String :=
  calls.filterMap (fun c =>
    match c with
    | .addInit o2 s => if o2 = o then some s else none
    | _ => none)

/-- What holds between the rounds of the emission loop started on `T0`. -/
structure GenInv (st : InitState) (T0 : List Obj) (g : GenState) : Prop where
  cover : ∀ o, o ∈ T0 ↔ o ∈ g.to_do ∨ o ∈ g.done
  apart : ∀ o ∈ g.done, o ∉ g.to_do
  nodup : g.done.Nodup
  emitted_eq : g.emitted = g.done.flatMap (initsOf st)
  deps_first : ∀ a ∈ g.done, ∀ b, DependsOn st a b → Precedes g.done b a

/-- The dependency relation has no cycle through a member of `to_do`. -/
def AcyclicOn (st : InitState) (to_do : List Obj) : Prop :=
  ∀ o ∈ to_do, ¬ Relation.TransGen (DependsOn st) o o

/-- A table constant `1` built from a record constant `2`, registered before
it, and an object `3` that is registered without statements. -/
def exampleCalls : List InitCall :=
  [.addInit 1 "t = make_table(r);", .addInit 2 "r = make_record();",
   .noteInitDependency 1 2, .addInit 1 "t->fill();", .addInitEmpty 3,
   .noteInitDependency 2 3]

/-- An object `7` that is registered by `AddInit(o)` only, and on which the
object `8` depends. -/
def emptyNodeCalls : List InitCall :=
  [.addInit 8 "eight(seven);", .noteInitDependency 8 7, .addInitEmpty 7]

/-- Modelled from the spec: the `TypeTag` enumeration, declared in Type.h, which
is not among the sources.  Spec 3 lists the flavours of a type; the code
embedded here tells `TYPE_RECORD` from every other tag only, and
`TYPE_OTHER n` stands for the n-th of the other tags. -/
inductive TypeTag where
  | TYPE_RECORD
  | TYPE_OTHER (n : Nat)
deriving DecidableEq, Repr

/-- A script type, the `Type` of the C++ code: an `Obj` (its address) with a
tag. -/
structure ZType where
  addr : Obj
  tag : TypeTag
deriving DecidableEq, Repr

/-- The accessor `Type::Tag()`. -/
def ZType.Tag (t : ZType) : TypeTag := t.tag

/-- `CPPCompile::NoteNonRecordInitDependency` (CPPCompile.h, lines 585-589):

    if ( t && t->Tag() != TYPE_RECORD )
        NoteInitDependency(o, TypeRep(t));

The `TypePtr` argument is `none` when null.  `TypeRep` (line 453) forwards to
`ProfileFuncs::TypeRep`, which is not among the sources, and is a parameter. -/
def NoteNonRecordInitDependency (TypeRep : ZType → ZType) (o : Obj) (t : Option ZType)
    (st : InitState) : InitState :=
  match t with
  | none => st
  | some ty =>
    if ty.Tag ≠ TypeTag.TYPE_RECORD then NoteInitDependency o (TypeRep ty).addr st else st

/-- A type representative map that sends every type to the type at address
`100` with the same tag. -/
def exampleTypeRep (t : ZType) : ZType := { addr := 100, tag := t.tag }

/-! ## Globals and groups of globals (`GlobalInfo.h`) -/

/-- Address of a `CPP_GlobalsInfo`, the `const CPP_GlobalsInfo*` a global keeps. -/
abbrev GlobalsPtr := Nat

/-- The class `CPP_GlobalInfo` (GlobalInfo.h, lines 70-117).  `init_cohort` is an
`int` that starts at 0 and that constructors only increase (lines 110-113), so
it is a natural number here; `gls` is `none` for the null pointer;
`initializer` is what the pure virtual `Initializer()` of the object returns. -/
structure CPP_GlobalInfo where
  name : String
  type : String
  init_cohort : Nat
  gls : Option GlobalsPtr
  offset : Int
  initializer : String
deriving DecidableEq, Repr

namespace CPP_GlobalInfo

/-- The constructor for stand-alone globals (lines 75-77), for an object whose
`Initializer()` returns `initializer`. -/
def standAlone (_name _type : String) (initializer : String) : CPP_GlobalInfo :=
  { name := _name, type := _type, init_cohort := 0, gls := none, offset := -1,
    initializer := initializer }

/-- The constructor for a global that will be part of a group (line 82), for
an object whose constructor raises the cohort to `cohort` and whose
`Initializer()` returns `initializer`. -/
def grouped (cohort : Nat) (initializer : String) : CPP_GlobalInfo :=
  { name := "", type := "", init_cohort := cohort, gls := none, offset := -1,
    initializer := initializer }

/-- `int Offset() const { return offset; }` -/
def Offset (g : CPP_GlobalInfo) : Int := g.offset

/-- `void SetOffset(const CPP_GlobalsInfo* _gls, int _offset)` (lines 87-91). -/
def SetOffset (g : CPP_GlobalInfo) (_gls : Option GlobalsPtr) (_offset : Int) :
    CPP_GlobalInfo :=
  { g with gls := _gls, offset := _offset }

/-- `std::string Name() const { return gls ? gls->Name(offset) : name; }`
(line 95).  `CPP_GlobalsInfo::Name(int)` is declared at line 38 and defined
outside the sources; `GlobalsName p i` stands for `p->Name(i)`. -/
def Name (GlobalsName : GlobalsPtr → Int → String) (g : CPP_GlobalInfo) : String :=
  match g.gls with
  | some p => GlobalsName p g.offset
  | none => g.name

/-- `int InitCohort() const { return init_cohort; }` -/
def InitCohort (g : CPP_GlobalInfo) : Nat := g.init_cohort

/-- The virtual `Initializer()`. -/
def Initializer (g : CPP_GlobalInfo) : String := g.initializer

end CPP_GlobalInfo

/-- The class `CPP_GlobalsInfo` (GlobalInfo.h, lines 23-67); `addr` is the
address of the object, its `this`. -/
structure CPP_GlobalsInfo where
  addr : GlobalsPtr
  size : Int
  instances : List (List CPP_GlobalInfo)
  tag : String
  base_name : String
  CPP_type : String
deriving DecidableEq, Repr

/-- Appends `m` to the bucket with index `k`, adding empty buckets up to `k`
when there are too few. -/
def pushToBucket (m : CPP_GlobalInfo) :
    Nat → List (List CPP_GlobalInfo) → List (List CPP_GlobalInfo)
  | 0, [] => [[m]]
  | 0, b :: rest => (b ++ [m]) :: rest
  | k + 1, [] => [] :: pushToBucket m k []
  | k + 1, b :: rest => b :: pushToBucket m k rest

namespace CPP_GlobalsInfo

/-- The constructor (lines 26-31) of the group at address `addr`. -/
def create (addr : GlobalsPtr) (_tag type : String) : CPP_GlobalsInfo :=
  { addr := addr, size := 0, instances := [], tag := _tag,
    base_name := "CPP__" ++ _tag ++ "__", CPP_type := _tag ++ type }

/-- `int Size() const { return size; }` -/
def Size (gls : CPP_GlobalsInfo) : Int := gls.size

/-- `int MaxCohort() const { return static_cast<int>(instances.size()) - 1; }` -/
def MaxCohort (gls : CPP_GlobalsInfo) : Int := (gls.instances.length : Int) - 1

/-- Modelled from the spec: `CPP_GlobalsInfo::AddInstance`, declared in
GlobalInfo.h line 47 and defined outside the sources at hand.  Spec 4.2: "A
group assigns sequential offsets starting at 0; AddInstance places a member
into the cohort-indexed bucket corresponding to that member's declared
init_cohort".  The result is the group and the member as the call leaves
them. -/
def AddInstance (gls : CPP_GlobalsInfo) (g : CPP_GlobalInfo) :
    CPP_GlobalsInfo × CPP_GlobalInfo :=
  let g2 := g.SetOffset (some gls.addr) gls.size
  ({ gls with size := gls.size + 1,
              instances := pushToBucket g2 g2.InitCohort gls.instances }, g2)

/-- The group and the members after `AddInstance` was called on every element
of `ms`, in order. -/
def addInstances (gls : CPP_GlobalsInfo) : List CPP_GlobalInfo →
    CPP_GlobalsInfo × List CPP_GlobalInfo
  | [] => (gls, [])
  | g :: rest =>
    let r := addInstances (gls.AddInstance g).1 rest
    (r.1, (gls.AddInstance g).2 :: r.2)

/-- The members a group holds, bucket after bucket. -/
def members (gls : CPP_GlobalsInfo) : List CPP_GlobalInfo := gls.instances.flatten

/-- Modelled from the spec: `CPP_GlobalsInfo::GenerateInitializers`, declared
in GlobalInfo.h line 51 and defined outside the sources at hand.  Spec 4.2:
"walks buckets from lowest cohort to highest, emitting each member's
Initializer() contract output in registration order within a bucket".  The
result is the list of the emitted initializers. -/
def GenerateInitializers (gls : CPP_GlobalsInfo) : List String :=
  gls.instances.flatMap (fun bucket => bucket.map CPP_GlobalInfo.Initializer)

end CPP_GlobalsInfo

/-- The order of emission: by cohort, then by offset. -/
def CohortOrder (a b : CPP_GlobalInfo) : Prop :=
  a.InitCohort < b.InitCohort ∨ (a.InitCohort = b.InitCohort ∧ a.Offset < b.Offset)

/-- Four members of cohorts 1, 0, 2 and 0, in the order they are added. -/
def exampleMembers : List CPP_GlobalInfo :=
  [CPP_GlobalInfo.grouped 1 "vec", CPP_GlobalInfo.grouped 0 "int",
   CPP_GlobalInfo.grouped 2 "tbl", CPP_GlobalInfo.grouped 0 "str"]

/-- A fresh group of types at address `9`. -/
def exampleGroup : CPP_GlobalsInfo := CPP_GlobalsInfo.create 9 "types" "Type"

/-- A naming of the members of the groups: `<address>[<index>]`. -/
def exampleGlobalsName (p : GlobalsPtr) (i : Int) : String :=
  toString p ++ "[" ++ toString i ++ "]"

/-! ## Cohorts of globals and of compound types (`GlobalInfo.h`) -/

/-- The constructor `CPP_GlobalInfo() { }` (GlobalInfo.h, line 82) for a global
that will be part of a group: every member keeps its default initializer
(lines 107-116); `initializer` is what `Initializer()` of the object returns. -/
def CPP_GlobalInfo.inGroup (initializer : String) : CPP_GlobalInfo :=
  { name := "", type := "", init_cohort := 0, gls := none, offset := -1,
    initializer := initializer }

/-- Modelled from the spec: the init cohort a compound type info is given by
its constructor (declared in GlobalInfo.h, lines 357-415, and defined outside
the sources at hand).  Spec 4.2: "a type that embeds another type must live in
a cohort no earlier than one greater than its dependency's cohort".  `embedded`
holds, for every type the compound type embeds, the info of that type, or
`none` when the type is one still being processed and has no info yet: a self-
or mutually-referring type (spec 3: "Types recurse"; CPPCompile.h, lines
788-790, `processed_types`). -/
def compoundCohort (embedded : List (Option CPP_GlobalInfo)) : Nat :=
  embedded.foldl
    (fun c e =>
      match e with
      | some gi => max c (gi.InitCohort + 1)
      | none => c) 0

/-- Modelled from the spec: `TypeTypeInfo::TypeTypeInfo`, which embeds the type
`tt` (GlobalInfo.h, lines 354-363). -/
def TypeTypeInfo (tt : Option CPP_GlobalInfo) (initializer : String) : CPP_GlobalInfo :=
  CPP_GlobalInfo.grouped (compoundCohort [tt]) initializer

/-- Modelled from the spec: `VectorTypeInfo::VectorTypeInfo`, which embeds the
type `yield` (GlobalInfo.h, lines 365-374). -/
def VectorTypeInfo (yield : Option CPP_GlobalInfo) (initializer : String) : CPP_GlobalInfo :=
  CPP_GlobalInfo.grouped (compoundCohort [yield]) initializer

/-- Modelled from the spec: `ListTypeInfo::ListTypeInfo`, which embeds the types
`types` (GlobalInfo.h, lines 376-385). -/
def ListTypeInfo (types : List (Option CPP_GlobalInfo)) (initializer : String) :
    CPP_GlobalInfo :=
  CPP_GlobalInfo.grouped (compoundCohort types) initializer

/-- Modelled from the spec: `TableTypeInfo::TableTypeInfo`, which embeds the
list type `indices` and, unless the table is a set, the type `yield`
(GlobalInfo.h, lines 387-397); `yield` is `[]` for a set. -/
def TableTypeInfo (indices : Option CPP_GlobalInfo) (yield : List (Option CPP_GlobalInfo))
    (initializer : String) : CPP_GlobalInfo :=
  CPP_GlobalInfo.grouped (compoundCohort (indices :: yield)) initializer

/-- Modelled from the spec: `FuncTypeInfo::FuncTypeInfo`, which embeds the type
`params` and, when the function yields a value, the type `yield`
(GlobalInfo.h, lines 399-410); `yield` is `[]` otherwise. -/
def FuncTypeInfo (params : Option CPP_GlobalInfo) (yield : List (Option CPP_GlobalInfo))
    (initializer : String) : CPP_GlobalInfo :=
  CPP_GlobalInfo.grouped (compoundCohort (params :: yield)) initializer

/-- Modelled from the spec: `RecordTypeInfo::RecordTypeInfo`, which embeds the
types `field_types` of its fields (GlobalInfo.h, lines 412-423). -/
def RecordTypeInfo (field_types : List (Option CPP_GlobalInfo)) (initializer : String) :
    CPP_GlobalInfo :=
  CPP_GlobalInfo.grouped (compoundCohort field_types) initializer

/-- The info of a record type whose only field has the type of the record
itself: while the record is being processed it has no info yet. -/
def selfRecordInfo : CPP_GlobalInfo := RecordTypeInfo [none] "CPP_RecordType(self)"

/-- The info of a base type, of cohort 0. -/
def exampleBaseInfo : CPP_GlobalInfo := CPP_GlobalInfo.inGroup "CPP_BaseType(count)"

/-- `CPP_GlobalsInfo::Name(int)` (GlobalInfo.h, line 38), declared and defined
outside the sources at hand: `GlobalsName p i` stands for the result of
`Name(i)` on the group at address `p`. -/
def CPP_GlobalsInfo.Name (GlobalsName : GlobalsPtr → Int → String) (gls : CPP_GlobalsInfo)
    (index : Int) : String :=
  GlobalsName gls.addr index

/-- `std::string NextName() const { return Name(Size()); }` (GlobalInfo.h, line 39). -/
def CPP_GlobalsInfo.NextName (GlobalsName : GlobalsPtr → Int → String)
    (gls : CPP_GlobalsInfo) : String :=
  gls.Name GlobalsName gls.Size

/-- The compound members of a types group, each with the infos of the types
it embeds. -/
abbrev EmbeddingTable := List (CPP_GlobalInfo × List CPP_GlobalInfo)

/-- Every compound member is in a cohort at least one greater than that of
every type it embeds. -/
def CohortsAboveEmbedded (g : EmbeddingTable) : Prop :=
  ∀ p ∈ g, ∀ e ∈ p.2, e.InitCohort + 1 ≤ p.1.InitCohort

/-- The types group of a record type whose field has the type of the record:
the record embeds itself. -/
def selfRecordGroup : EmbeddingTable := [(selfRecordInfo, [selfRecordInfo])]

/-! ## Run-time initialization code (`CPP/Inits.cc`) -/

/-- An argument of a `printf` call: a string for `%s`, a number for `%llu`. -/
inductive PrintfArg where
  | str (s : String)
  | llu (n : Nat)
deriving DecidableEq, Repr

/-- One output call of the code generator: the emitter methods of `CPPCompile`
(CPPCompile.h, lines 622-685) write to the generated file, `printf` to the
standard output.  A call is kept with its format and its arguments. -/
inductive OutCall where
  | NL
  | StartBlock
  | EndBlock (needs_semi : Bool)
  | Emit (fmt : String) (args : List String)
  | printf (fmt : String) (args : List PrintfArg)
deriving DecidableEq, Repr

/-- A `TypeDecl` of the front-end: the type and the attributes of a record
field (their addresses) and the name of the field. -/
structure TypeDecl where
  type : Nat
  attrs : Nat
  id : String
deriving DecidableEq, Repr

/-- The helpers of the code generator that `Inits.cc` calls and that are not
among the sources: the overloads of `Fmt`, `TypeOffset`, `AttributesOffset`,
`std::hash<double>` and `merge_p_hashes`.  The type `Time` is that of the value
`util::current_time()` returns. -/
structure InitsEnv (Time : Type) where
  FmtRT : Nat → String
  FmtInt : Int → String
  FmtHash : Nat → String
  TypeOffset : Nat → Int
  AttributesOffset : Nat → Int
  hash_double : Time → Nat
  merge_p_hashes : Nat → Nat → Nat

/-- The line `InitializeFieldMappings` emits for one element of `field_decls`
(Inits.cc, lines 112-117). -/
def fieldMappingEntry {Time : Type} (env : InitsEnv Time) (mapping : Nat × TypeDecl) :
    OutCall :=
  let rt_arg := env.FmtRT mapping.1
  let td := mapping.2
  let type_arg := env.FmtInt (env.TypeOffset td.type)
  let attrs_arg := env.FmtInt (env.AttributesOffset td.attrs)
  .Emit "CPP_FieldMapping(%s, \"%s\", %s, %s)," [rt_arg, td.id, type_arg, attrs_arg]

/-- `CPPCompile::InitializeFieldMappings` (Inits.cc, lines 104-121). -/
def InitializeFieldMappings {Time : Type} (env : InitsEnv Time)
    (field_decls : List (Nat × TypeDecl)) : List OutCall :=
  [.Emit "std::vector<CPP_FieldMapping> CPP__field_mappings__ = " [], .StartBlock] ++
    field_decls.map (fieldMappingEntry env) ++ [.EndBlock true]

/-- The line `InitializeEnumMappings` emits for one element of `enum_names`
(Inits.cc, line 130). -/
def enumMappingEntry {Time : Type} (env : InitsEnv Time) (mapping : Nat × String) : OutCall :=
  .Emit "CPP_EnumMapping(%s, \"%s\")," [env.FmtRT mapping.1, mapping.2]

/-- `CPPCompile::InitializeEnumMappings` (Inits.cc, lines 123-133). -/
def InitializeEnumMappings {Time : Type} (env : InitsEnv Time)
    (enum_names : List (Nat × String)) : List OutCall :=
  [.Emit "std::vector<CPP_EnumMapping> CPP__enum_mappings__ = " [], .StartBlock] ++
    enum_names.map (enumMappingEntry env) ++ [.EndBlock true]

/-- `CPPCompile::GenLoad` (Inits.cc, lines 257-277).  `t` is the value
`util::current_time()` returns; the result is the output and the new value of
the member `total_hash`. -/
def GenLoad {Time : Type} (env : InitsEnv Time) (t : Time) (total_hash : Nat)
    (module_names : List String) : List OutCall × Nat :=
  let th := env.hash_double t
  let total_hash := env.merge_p_hashes total_hash th
  ([.Emit "register_scripts__CPP(%s, standalone_init__CPP);" [env.FmtHash total_hash]] ++
    (module_names.filter (fun m => m != "GLOBAL")).map
      (fun m => OutCall.printf "module %s;\n" [.str m]) ++
    (if module_names.length > 0 then [OutCall.printf "module GLOBAL;\n\n" []] else []) ++
    [.printf "global init_CPP_%llu = load_CPP(%llu);\n" [.llu total_hash, .llu total_hash]],
   total_hash)

/-- `CPPCompile::GenInitHook` (Inits.cc, lines 159-178); `standalone` is the
member of that name. -/
def GenInitHook {Time : Type} (env : InitsEnv Time) (standalone : Bool) (t : Time)
    (total_hash : Nat) (module_names : List String) : List OutCall × Nat :=
  let load := if standalone then GenLoad env t total_hash module_names else ([], total_hash)
  ([.NL, .Emit "int hook_in_init()" [], .StartBlock,
    .Emit "CPP_init_funcs.push_back(init__CPP);" []] ++ load.1 ++
   [.Emit "return 0;" [], .EndBlock false, .NL,
    .Emit "static int dummy = hook_in_init();\n" []],
   load.2)

/-- An instance of the helpers, with the time in whole seconds: the hash of a
time is its number of seconds and hashes are merged the way Boost combines
them, in 64 bits. -/
def exampleInitsEnv : InitsEnv Nat :=
  { FmtRT := fun n => toString n,
    FmtInt := fun n => toString n,
    FmtHash := fun n => toString n ++ "ULL",
    TypeOffset := fun n => n,
    AttributesOffset := fun n => -1 - n,
    hash_double := fun t => t,
    merge_p_hashes := fun h1 h2 =>
      (h1 ^^^ (h2 + 0x9e3779b9 + h1 * 64 + h1 / 4)) % 2 ^ 64 }

/-! ## Mappings for extensible records and enums (`CPPCompile.h`, lines 389-399 and 800-832) -/

/-- A map from types to maps from indices to mapping slots, the type of
`record_field_mappings` and `enum_val_mappings`:
`std::unordered_map<const T*, std::unordered_map<int, int>>`.  A slot is an
`int` that starts at 0 and is only incremented, a natural number here. -/
abbrev SlotMap := List (Nat × List (Int × Nat))

/-- The slot of index `i` in an inner map. -/
def lookupInner (i : Int) : List (Int × Nat) → Option Nat
  | [] => none
  | (k, s) :: rest => if k = i then some s else lookupInner i rest

/-- The slot of the pair `(t, i)`. -/
def lookupSlot (t : Nat) (i : Int) : SlotMap → Option Nat
  | [] => none
  | (k, inner) :: rest => if k = t then lookupInner i inner else lookupSlot t i rest

/-- Records `slot` for the pair `(t, i)`, which has none yet; the inner map of
`t` is created when `t` has none. -/
def insertSlot (t : Nat) (i : Int) (slot : Nat) : SlotMap → SlotMap
  | [] => [(t, [(i, slot)])]
  | (k, inner) :: rest =>
    if k = t then (k, inner ++ [(i, slot)]) :: rest else (k, inner) :: insertSlot t i slot rest

/-- The total number of entries in the inner maps. -/
def countEntries (m : SlotMap) : Nat := (m.map (fun e => e.2.length)).sum

/-- A map of slots with its counter and the list that has one element per
slot: `record_field_mappings`, `num_rf_mappings`, `field_decls`, respectively
`enum_val_mappings`, `num_ev_mappings`, `enum_names`. -/
structure SlotTable (δ : Type) where
  mappings : SlotMap
  num_mappings : Nat
  decls : List (Nat × δ)

/-- Modelled from the spec: the mapping of one pair, the part `GenField` and
`GenEnum` (declared in CPPCompile.h, lines 398-399, and defined outside the
sources at hand) have in common.  Spec 4.5: "Assigns a new, unique
mapping_slot the first time a given (type, index) pair is seen; idempotent
afterward (same pair returns the same slot)"; a new slot is the value of the
counter, which is incremented, and `decl` is appended for it. -/
def SlotTable.assign {δ : Type} (tb : SlotTable δ) (t : Nat) (i : Int) (decl : δ) :
    Nat × SlotTable δ :=
  match lookupSlot t i tb.mappings with
  | some slot => (slot, tb)
  | none =>
    (tb.num_mappings,
     { mappings := insertSlot t i tb.num_mappings tb.mappings,
       num_mappings := tb.num_mappings + 1,
       decls := tb.decls ++ [(t, decl)] })

/-- The members of `CPPCompile` for the mappings (CPPCompile.h, lines 800-832). -/
structure LayoutMaps where
  record_field_mappings : SlotMap
  num_rf_mappings : Nat
  field_decls : List (Nat × TypeDecl)
  enum_val_mappings : SlotMap
  num_ev_mappings : Nat
  enum_names : List (Nat × String)

/-- The members at the start of a compilation. -/
def LayoutMaps.empty : LayoutMaps :=
  { record_field_mappings := [], num_rf_mappings := 0, field_decls := [],
    enum_val_mappings := [], num_ev_mappings := 0, enum_names := [] }

/-- The three members for record fields. -/
def LayoutMaps.fields (st : LayoutMaps) : SlotTable TypeDecl :=
  ⟨st.record_field_mappings, st.num_rf_mappings, st.field_decls⟩

/-- The three members for enum values. -/
def LayoutMaps.enums (st : LayoutMaps) : SlotTable String :=
  ⟨st.enum_val_mappings, st.num_ev_mappings, st.enum_names⟩

/-- What the front-end tells about extensible types: whether the access to a
field of a record lies in an extension of the record, the `TypeDecl` of a
field, whether an enum has been extended, and the name of an enum value. -/
structure LayoutEnv where
  fieldExtended : Nat → Int → Bool
  FieldDecl : Nat → Int → TypeDecl
  enumExtended : Nat → Bool
  EnumName : Nat → Int → String

/-- How the generated code reaches a field or an enum value: directly, by its
index at compile time, or through a slot of the mapping array. -/
inductive Access where
  | direct (index : Int)
  | mapped (slot : Nat)
deriving DecidableEq, Repr

/-- Modelled from the spec: `CPPCompile::GenField`, declared in CPPCompile.h
line 398 and defined outside the sources at hand.  Lines 389-397: the access
is direct unless it is "to an extended element"; spec 4.5, `MapField`,
otherwise. -/
def GenField (env : LayoutEnv) (rt : Nat) (field : Int) (st : LayoutMaps) :
    Access × LayoutMaps :=
  if env.fieldExtended rt field then
    let r := st.fields.assign rt field (env.FieldDecl rt field)
    (.mapped r.1,
     { st with record_field_mappings := r.2.mappings, num_rf_mappings := r.2.num_mappings,
               field_decls := r.2.decls })
  else (.direct field, st)

/-- Modelled from the spec: `CPPCompile::GenEnum`, declared in CPPCompile.h
line 399 and defined outside the sources at hand.  Lines 389-397: the access
is direct unless the type has been extended; spec 4.5, `MapEnumValue`,
otherwise. -/
def GenEnum (env : LayoutEnv) (et : Nat) (v : Int) (st : LayoutMaps) :
    Access × LayoutMaps :=
  if env.enumExtended et then
    let r := st.enums.assign et v (env.EnumName et v)
    (.mapped r.1,
     { st with enum_val_mappings := r.2.mappings, num_ev_mappings := r.2.num_mappings,
               enum_names := r.2.decls })
  else (.direct v, st)

/-- A request for an access: to a field of a record or to an enum value. -/
inductive LayoutRequest where
  | field (rt : Nat) (field : Int)
  | enumVal (et : Nat) (v : Int)
deriving DecidableEq, Repr

/-- Serves one request. -/
def LayoutRequest.serve (env : LayoutEnv) (st : LayoutMaps) : LayoutRequest →
    Access × LayoutMaps
  | .field rt f => GenField env rt f st
  | .enumVal et v => GenEnum env et v st

/-- Serves a sequence of requests, in order: the accesses and the members
afterwards. -/
def serveAll (env : LayoutEnv) (st : LayoutMaps) : List LayoutRequest →
    List Access × LayoutMaps
  | [] => ([], st)
  | r :: rest =>
    let a := r.serve env st
    let as := serveAll env a.2 rest
    (a.1 :: as.1, as.2)

/-- A front-end in which every record has two original fields and every enum
with an odd address has been extended. -/
def exampleLayoutEnv : LayoutEnv :=
  { fieldExtended := fun _ f => decide (2 ≤ f),
    FieldDecl := fun rt f => ⟨rt + 10, rt + 20, "f" ++ toString f⟩,
    enumExtended := fun et => decide (et % 2 = 1),
    EnumName := fun _ v => "E" ++ toString v }

/-- Accesses to fields 2 and 3 of record 7, to field 2 of record 8, to an
original field, to field 2 of record 7 again, and to values of the enum 5. -/
def exampleRequests : List LayoutRequest :=
  [.field 7 2, .field 7 3, .enumVal 5 0, .field 8 2, .field 7 0, .field 7 2,
   .enumVal 5 4, .enumVal 5 0]

/-- What holds of a table of slots between requests; `declOf t i` is the
element kept for the pair `(t, i)`. -/
structure SlotTable.WF {δ : Type} (declOf : Nat → Int → δ) (tb : SlotTable δ) : Prop where
  bound : ∀ t i s, lookupSlot t i tb.mappings = some s → s < tb.num_mappings
  inj : ∀ t i t2 i2 s, lookupSlot t i tb.mappings = some s →
    lookupSlot t2 i2 tb.mappings = some s → t = t2 ∧ i = i2
  surj : ∀ s, s < tb.num_mappings → ∃ t i, lookupSlot t i tb.mappings = some s
  count : countEntries tb.mappings = tb.num_mappings
  len : tb.decls.length = tb.num_mappings
  decl_at : ∀ t i s, lookupSlot t i tb.mappings = some s →
    tb.decls[s]? = some (t, declOf t i)

/-- What holds of the members for the mappings between requests. -/
def LayoutMaps.WF (env : LayoutEnv) (st : LayoutMaps) : Prop :=
  st.fields.WF env.FieldDecl ∧ st.enums.WF env.EnumName

/-- The members for the mappings after a sequence of requests served from the
start of a compilation. -/
def mapsAfter (env : LayoutEnv) (reqs : List LayoutRequest) : LayoutMaps :=
  (serveAll env LayoutMaps.empty reqs).2

/-- The accesses a sequence of requests served from the start of a compilation
is given, in order. -/
def accessesOf (env : LayoutEnv) (reqs : List LayoutRequest) : List Access :=
  (serveAll env LayoutMaps.empty reqs).1

/-! ## Constants (`CPPCompile.h`, lines 214-229 and 755-772) -/

/-- A constant of the front-end, a `Val`: its address, whether its type is a
native one (`IsNativeType`, CPPCompile.h lines 409-413) and its structural
string representation. -/
structure Val where
  addr : Obj
  native : Bool
  desc : String
deriving DecidableEq, Repr

/-- The members of `CPPCompile` for constants (CPPCompile.h, lines 758-772),
`const_vals`, `constants` and `constants_to_vals`, and the state of the init
scheduler. -/
structure ConstState where
  const_vals : List (Obj × String)
  constants : List (String × String)
  constants_to_vals : List (String × Obj)
  inits : InitState
deriving DecidableEq, Repr

/-- The members at the start of a compilation unit. -/
def ConstState.empty : ConstState :=
  { const_vals := [], constants := [], constants_to_vals := [], inits := InitState.empty }

/-- The value of key `k` in a map with keys of type `κ`. -/
def lookupKey {κ β : Type} [DecidableEq κ] (k : κ) : List (κ × β) → Option β
  | [] => none
  | (k2, b) :: rest => if k2 = k then some b else lookupKey k rest

/-- The map with `k` bound to `b`. -/
def setKey {κ β : Type} [DecidableEq κ] (k : κ) (b : β) : List (κ × β) → List (κ × β)
  | [] => [(k, b)]
  | (k2, b2) :: rest => if k2 = k then (k2, b) :: rest else (k2, b2) :: setKey k b rest

/-- Modelled from the spec: `CPPCompile::AddConstant(const ValPtr&)`, declared
in CPPCompile.h line 229 and defined outside the sources at hand.  Lines
223-227: it "returns true if a C++ variable needed to be created to construct
the constant at run-time initialization, false if can be instantiated directly
as a C++ constant"; the maps hold non-native constants only (lines 758-766).
Spec 4.1: "Returns an existing identity on exact match; otherwise allocates a
new one ... and records it for future lookups"; a constant that reuses the
global of an earlier one depends on it (lines 768-772).  `constName n` is the
name of the global number `n`. -/
def AddConstant (constName : Nat → String) (v : Val) (st : ConstState) : Bool × ConstState :=
  if v.native then (false, st)
  else
    match lookupKey v.desc st.constants with
    | some name =>
      (true,
       { st with
         const_vals := setKey v.addr name st.const_vals,
         inits :=
           match lookupKey v.desc st.constants_to_vals with
           | some orig => if orig = v.addr then st.inits else NoteInitDependency v.addr orig st.inits
           | none => st.inits })
    | none =>
      (true,
       { st with
         const_vals := setKey v.addr (constName st.constants.length) st.const_vals,
         constants := st.constants ++ [(v.desc, constName st.constants.length)],
         constants_to_vals := st.constants_to_vals ++ [(v.desc, v.addr)] })

/-- Modelled from the spec: `CPPCompile::BuildConstant(const Obj*, const
ValPtr&)`, declared in CPPCompile.h line 221 and defined outside the sources at
hand.  Lines 214-218: it "returns an instantiation of a constant - either as a
native C++ constant, or as a C++ variable ... that is needed by the given
parent object (which acquires an initialization dependency, if a C++ variable
is needed)".  `GenVal v` is the native C++ constant for `v`. -/
def BuildConstant (constName : Nat → String) (GenVal : Val → String) (parent : Obj) (vp : Val)
    (st : ConstState) : String × ConstState :=
  let r := AddConstant constName vp st
  if r.1 then
    ((lookupKey vp.addr r.2.const_vals).getD "",
     { r.2 with inits := NoteInitDependency parent vp.addr r.2.inits })
  else (GenVal vp, r.2)

/-- The members after a sequence of `BuildConstant` calls, each with its
parent object, made in the state `st`. -/
def runConsts (constName : Nat → String) (GenVal : Val → String) (st : ConstState)
    (calls : List (Obj × Val)) : ConstState :=
  calls.foldl (fun st c => (BuildConstant constName GenVal c.1 c.2 st).2) st

/-- The members after a sequence of `BuildConstant` calls made from the start
of a compilation unit. -/
def constsAfter (constName : Nat → String) (GenVal : Val → String)
    (calls : List (Obj × Val)) : ConstState :=
  runConsts constName GenVal ConstState.empty calls

/-- The names of the globals for constants: `CPP__const__<n>`. -/
def exampleConstName (n : Nat) : String := "CPP__const__" ++ toString n

/-- The native C++ constant for a value, here its representation. -/
def exampleGenVal (v : Val) : String := v.desc

/-- The count constant `5` at two places of a script: two objects of a native
type with the same representation. -/
def fiveCalls : List (Obj × Val) :=
  [(100, { addr := 1, native := true, desc := "5 count" }),
   (101, { addr := 2, native := true, desc := "5 count" })]

/-- The string constant "abc" at two places of a script, with a pattern
constant between them. -/
def abcCalls : List (Obj × Val) :=
  [(100, { addr := 1, native := false, desc := "abcstring" }),
   (100, { addr := 3, native := false, desc := "/x/ pattern" }),
   (101, { addr := 2, native := false, desc := "abcstring" })]

/-! ## The incremental hash cache (spec 4.4) -/

/-- The persisted hash entries: pairs of a content hash and the identity
assigned to it, in the order they were appended. -/
abbrev HashStore := List (Nat × String)

/-- Something that gets an output identity: a function body, a global or a
type, with its semantic content and the initializer code its allocation
emits. -/
structure CompileItem where
  content : String
  init : List String
deriving DecidableEq, Repr

/-- The state of the cache during a run: the store loaded at the start, the
entries of the identities allocated in this run, to be appended at its end,
the identity each item was given, in order, and the initializer code emitted. -/
structure CacheRun where
  store : HashStore
  fresh : List (Nat × String)
  identities : List String
  emitted : List String
deriving DecidableEq, Repr

/-- Modelled from the spec: `Lookup(hash) -> optional identity` of spec 4.4;
the hash manager (`CPPHashManager`, CPPCompile.h line 693) is not among the
sources. -/
def HashLookup (store : HashStore) (hash : Nat) : Option String := lookupKey hash store

/-- Modelled from the spec: the handling of one item, spec 4.4.  The content
hash is computed and the cache queried; "a hit short-circuits both
Output-Identity allocation AND Init-Node creation: the existing identity is
reused as-is and no new initializer code is emitted for it.  A miss proceeds
with normal interning/registration", once per content in a unit (spec 4.1).
`p_hash` is the content hash and `newIdentity n` the identity allocated after
`n` others in the run. -/
def compileItem (p_hash : String → Nat) (newIdentity : Nat → String) (st : CacheRun)
    (item : CompileItem) : CacheRun :=
  match HashLookup st.store (p_hash item.content) with
  | some id => { st with identities := st.identities ++ [id] }
  | none =>
    match lookupKey (p_hash item.content) st.fresh with
    | some id => { st with identities := st.identities ++ [id] }
    | none =>
      { st with
        fresh := st.fresh ++ [(p_hash item.content, newIdentity st.fresh.length)],
        identities := st.identities ++ [newIdentity st.fresh.length],
        emitted := st.emitted ++ item.init }

/-- Modelled from the spec: one compilation run over `items` with the store
`store` loaded at its start, spec 4.4. -/
def compileRun (p_hash : String → Nat) (newIdentity : Nat → String) (store : HashStore)
    (items : List CompileItem) : CacheRun :=
  items.foldl (compileItem p_hash newIdentity)
    { store := store, fresh := [], identities := [], emitted := [] }

/-- Modelled from the spec: the store persisted at the end of a run, spec 4.4:
"at end-of-run, appends the new (hash, identity) pair for future runs". -/
def CacheRun.persisted (st : CacheRun) : HashStore := st.store ++ st.fresh

/-- A content hash for the examples: the length of the content. -/
def exampleHash (content : String) : Nat := content.length

/-- The identities of the examples: `id<n>`. -/
def exampleIdentity (n : Nat) : String := "id" ++ toString n

/-- Two function bodies and a type, one body occurring twice. -/
def exampleItems : List CompileItem :=
  [⟨"body of f", ["init f;"]⟩, ⟨"type T1", ["init T1;"]⟩, ⟨"body of f", ["init f;"]⟩,
   ⟨"body of gg", ["init g;"]⟩]

/-! ## ZAM instructions (`ZOP.cc`) -/

/-- The operand layouts of a ZAM instruction: the enumerators of `ZAMOpType`
(ZOP.h, not among the sources) that the switches of ZOP.cc go through. -/
inductive ZAMOpType where
  | OP_X | OP_V | OP_VV | OP_VVV | OP_VVVV | OP_VVVC | OP_C | OP_VC | OP_VVC | OP_E | OP_VE
  | OP_V_I1 | OP_VV_FRAME | OP_VC_ID | OP_VV_I2 | OP_VVC_I2 | OP_VVV_I3 | OP_VVV_I2_I3
  | OP_VVVV_I3 | OP_VVVV_I4 | OP_VVVV_I3_I4 | OP_VVVC_I2 | OP_VVVC_I3 | OP_VVVC_I2_I3
deriving DecidableEq, Repr

/-- How an instruction treats its first operand: the enumerators of
`ZAMOp1Flavor` (ZOP.h, not among the sources) that ZOP.cc names. -/
inductive ZAMOp1Flavor where
  | OP1_READ
  | OP1_WRITE
  | OP1_READ_WRITE
  | OP1_INTERNAL
deriving DecidableEq, Repr

/-- The members of `ZInst` that ZOP.cc reads in `NumFrameSlots`, `UsesSlot`,
`VName` and `Dump`: the opcode `op` (its position in the enumeration `ZOp`),
the operand layout and the four `int` operands. -/
structure ZInst where
  op : Nat
  op_type : ZAMOpType
  v1 : Int
  v2 : Int
  v3 : Int
  v4 : Int
deriving DecidableEq, Repr

/-- `ZInst::NumFrameSlots` (ZOP.cc, lines 38-68). -/
def ZInst.NumFrameSlots (inst : ZInst) : Int :=
  match inst.op_type with
  | .OP_X => 0
  | .OP_V => 1
  | .OP_VV => 2
  | .OP_VVV => 3
  | .OP_VVVV => 4
  | .OP_VVVC => 3
  | .OP_C => 0
  | .OP_VC => 1
  | .OP_VVC => 2
  | .OP_E => 0
  | .OP_VE => 1
  | .OP_V_I1 => 0
  | .OP_VV_FRAME => 1
  | .OP_VC_ID => 1
  | .OP_VV_I2 => 1
  | .OP_VVC_I2 => 1
  | .OP_VVV_I3 => 2
  | .OP_VVV_I2_I3 => 1
  | .OP_VVVV_I3 => 3
  | .OP_VVVV_I4 => 3
  | .OP_VVVV_I3_I4 => 2
  | .OP_VVVC_I2 => 2
  | .OP_VVVC_I3 => 2
  | .OP_VVVC_I2_I3 => 1

/-- `ZInst::UsesSlot` (ZOP.cc, lines 76-117).  The table `op1_flavor` is filled
from `ZAM-Op1FlavorsDefs.h`, which is not among the sources, and is a
parameter. -/
def ZInst.UsesSlot (op1_flavor : Nat → ZAMOp1Flavor) (inst : ZInst) (slot : Int) : Bool :=
  let fl := op1_flavor inst.op
  let v1_relevant := fl == .OP1_READ || fl == .OP1_READ_WRITE
  let v1_match := v1_relevant && inst.v1 == slot
  match inst.op_type with
  | .OP_X | .OP_C | .OP_E => false
  | .OP_V | .OP_VC | .OP_VE | .OP_V_I1 | .OP_VV_FRAME | .OP_VC_ID | .OP_VV_I2 | .OP_VVC_I2
  | .OP_VVV_I2_I3 | .OP_VVVC_I2_I3 => v1_match
  | .OP_VV | .OP_VVC | .OP_VVV_I3 | .OP_VVVV_I3_I4 | .OP_VVVC_I2 | .OP_VVVC_I3 =>
    v1_match || inst.v2 == slot
  | .OP_VVV | .OP_VVVC | .OP_VVVV_I3 | .OP_VVVV_I4 =>
    v1_match || inst.v2 == slot || inst.v3 == slot
  | .OP_VVVV => v1_match || inst.v2 == slot || inst.v3 == slot || inst.v4 == slot

/-- The operand `VName` selects for `n` (ZOP.cc, line 124):
`n == 1 ? v1 : (n == 2 ? v2 : (n == 3 ? v3 : v4))`. -/
def ZInst.slotAt (inst : ZInst) (n : Int) : Int :=
  if n = 1 then inst.v1 else if n = 2 then inst.v2 else if n = 3 then inst.v3 else inst.v4

/-- The value of an `int` converted to `size_t`, 64 bits wide: the conversion
the comparison `slot >= frame_ids.size()` and the subscript `frame_ids[slot]`
apply to `slot`. -/
def toSizeT (x : Int) : Nat := (x % 2 ^ 64).toNat

/-- A `frame_map`, the vector of the identifiers of the frame slots; an
identifier is kept as the name `Name()` returns. -/
abbrev frame_map := List String

/-- What `VName` returns: the null pointer or a fresh copy of a string.  The
third case stands for the subscript `frame_ids[slot]` falling outside the
vector, which C++ leaves undefined. -/
inductive VNameResult where
  | nullptr
  | copy_string (s : String)
  | out_of_bounds
deriving DecidableEq, Repr

/-- `ZInst::VName` (ZOP.cc, lines 119-133). -/
def ZInst.VName (inst : ZInst) (max_n n : Int) (frame_ids : frame_map) : VNameResult :=
  if n > max_n then .nullptr
  else
    let slot := inst.slotAt n
    if slot = 0 then .copy_string "<reg0>"
    else if toSizeT slot ≥ frame_ids.length then
      .copy_string ("extra-slot " ++ toString slot)
    else
      match frame_ids[toSizeT slot]? with
      | some name => .copy_string (toString slot ++ " (" ++ name ++ ")")
      | none => .out_of_bounds

/-- An argument of a `printf` call of `Dump`: an operand name `VName` made (for
`%s`), an operand printed as a number (for `%d`), or another string (for
`%s`). -/
inductive DumpArg where
  | name (id : VNameResult)
  | int (v : Int)
  | str (s : String)
deriving DecidableEq, Repr

/-- A `printf` call of `Dump`: the format and the arguments. -/
structure PrintfCall where
  fmt : String
  args : List DumpArg
deriving DecidableEq, Repr

/-- The strings `Dump` prints besides the operands, made by code that is not
among the sources: `ZOP_name(op)` (its cases come from `ZAM-OpsNamesDefs.h`),
`ConstDump()` (which describes the constant of the instruction),
`obj_desc(e)` and `obj_desc(c.any_val)`. -/
structure DumpEnv where
  ZOP_name : Nat → String
  ConstDump : ZInst → String
  obj_desc_e : ZInst → String
  obj_desc_any_val : ZInst → String

/-- `ZInst::Dump` (ZOP.cc, lines 135-245): the `printf` calls in order.  The
call guarded by `t && 0` is never made. -/
def ZInst.Dump (env : DumpEnv) (inst : ZInst) (frame_ids : frame_map) : List PrintfCall :=
  let n := inst.NumFrameSlots
  let id1 := DumpArg.name (inst.VName n 1 frame_ids)
  let id2 := DumpArg.name (inst.VName n 2 frame_ids)
  let id3 := DumpArg.name (inst.VName n 3 frame_ids)
  let id4 := DumpArg.name (inst.VName n 4 frame_ids)
  let ConstDump := DumpArg.str (env.ConstDump inst)
  [⟨"%s ", [.str (env.ZOP_name inst.op)]⟩] ++
  (match inst.op_type with
   | .OP_X => []
   | .OP_V => [⟨"%s", [id1]⟩]
   | .OP_VV => [⟨"%s, %s", [id1, id2]⟩]
   | .OP_VVV => [⟨"%s, %s, %s", [id1, id2, id3]⟩]
   | .OP_VVVV => [⟨"%s, %s, %s, %s", [id1, id2, id3, id4]⟩]
   | .OP_VVVC => [⟨"%s, %s, %s, %s", [id1, id2, id3, ConstDump]⟩]
   | .OP_C => [⟨"%s", [ConstDump]⟩]
   | .OP_VC => [⟨"%s, %s", [id1, ConstDump]⟩]
   | .OP_VVC => [⟨"%s, %s, %s", [id1, id2, ConstDump]⟩]
   | .OP_E => [⟨"%s", [.str (env.obj_desc_e inst)]⟩]
   | .OP_VE => [⟨"%s, %s", [id1, .str (env.obj_desc_e inst)]⟩]
   | .OP_V_I1 => [⟨"%d", [.int inst.v1]⟩]
   | .OP_VV_FRAME => [⟨"%s, interpreter frame[%d]", [id1, .int inst.v2]⟩]
   | .OP_VC_ID => [⟨"%s, ID %s", [id1, .str (env.obj_desc_any_val inst)]⟩]
   | .OP_VV_I2 => [⟨"%s, %d", [id1, .int inst.v2]⟩]
   | .OP_VVC_I2 => [⟨"%s, %d, %s", [id1, .int inst.v2, ConstDump]⟩]
   | .OP_VVV_I3 => [⟨"%s, %s, %d", [id1, id2, .int inst.v3]⟩]
   | .OP_VVV_I2_I3 => [⟨"%s, %d, %d", [id1, .int inst.v2, .int inst.v3]⟩]
   | .OP_VVVV_I3 | .OP_VVVV_I4 => [⟨"%s, %s, %s, %d", [id1, id2, id3, .int inst.v4]⟩]
   | .OP_VVVV_I3_I4 => [⟨"%s, %s, %d, %d", [id1, id2, .int inst.v3, .int inst.v4]⟩]
   | .OP_VVVC_I2 | .OP_VVVC_I3 => [⟨"%s, %s, %d, %s", [id1, id2, .int inst.v3, ConstDump]⟩]
   | .OP_VVVC_I2_I3 => [⟨"%s, %d, %d, %s", [id1, .int inst.v2, .int inst.v3, ConstDump]⟩]) ++
  [⟨"\n", []⟩]

/-- A table of flavors in which every opcode reads its first operand. -/
def readingFlavors (_ : Nat) : ZAMOp1Flavor := .OP1_READ

/-- An instruction of layout `OP_V_I1` whose first operand is the integer 5. -/
def exampleIntInst : ZInst :=
  { op := 0, op_type := .OP_V_I1, v1 := 5, v2 := 0, v3 := 0, v4 := 0 }

/-- An instruction of layout `OP_VVV_I3`: two frame slots and an integer. -/
def exampleInst : ZInst :=
  { op := 1, op_type := .OP_VVV_I3, v1 := 1, v2 := -2, v3 := 7, v4 := 0 }

/-- A frame of three slots. -/
def exampleFrame : frame_map := ["reg", "x", "y"]

/-- Stand-ins for the strings `Dump` takes from elsewhere. -/
def exampleDumpEnv : DumpEnv :=
  { ZOP_name := fun op => "op" ++ toString op,
    ConstDump := fun _ => "const",
    obj_desc_e := fun _ => "expr",
    obj_desc_any_val := fun _ => "id" }

/-- The values of the C++ type `int`, 32 bits wide. -/
def isInt (x : Int) : Prop := -2 ^ 31 ≤ x ∧ x < 2 ^ 31

instance (x : Int) : Decidable (isInt x) := inferInstanceAs (Decidable (_ ∧ _))

/-- The four operands of the instruction are values of the type `int`. -/
def ZInst.operandsAreInts (inst : ZInst) : Prop :=
  isInt inst.v1 ∧ isInt inst.v2 ∧ isInt inst.v3 ∧ isInt inst.v4

instance (inst : ZInst) : Decidable inst.operandsAreInts :=
  inferInstanceAs (Decidable (_ ∧ _ ∧ _ ∧ _))

/-! ## Simple initialization expressions (`CPPCompile::IsSimpleInitExpr`) -/

/-- The tags of expressions that `IsSimpleInitExpr` names, from the enumeration
`BroExprTag` (Expr.h, not among the sources); `EXPR_OTHER n` stands for the
n-th of the remaining tags. -/
inductive BroExprTag where
  | EXPR_CONST
  | EXPR_NAME
  | EXPR_RECORD_COERCE
  | EXPR_RECORD_CONSTRUCTOR
  | EXPR_OTHER (n : Nat)
deriving DecidableEq, Repr

/-- An expression of the front-end, by class: a constant (with the address of
its value), a name, a record coercion with its operand `GetOp1()`, a record
constructor with the expressions `Op()->AsListExpr()->Exprs()` of its list
operand, and every other expression with its tag and its operands. -/
inductive Expr where
  | ConstExpr (v : Nat)
  | NameExpr (id : String)
  | RecordCoerceExpr (op : Expr)
  | RecordConstructorExpr (exprs : List Expr)
  | OtherExpr (n : Nat) (ops : List Expr)

/-- The accessor `Expr::Tag()`. -/
def Expr.Tag : Expr → BroExprTag
  | .ConstExpr _ => .EXPR_CONST
  | .NameExpr _ => .EXPR_NAME
  | .RecordCoerceExpr _ => .EXPR_RECORD_COERCE
  | .RecordConstructorExpr _ => .EXPR_RECORD_CONSTRUCTOR
  | .OtherExpr n _ => .EXPR_OTHER n

/-- `CPPCompile::IsSimpleInitExpr` (Inits.cc, lines 73-97): the switch on
`e->Tag()`, and for a record coercion the test of the tag of the operand and of
the number of expressions of the constructor. -/
def IsSimpleInitExpr : Expr → Bool
  | .ConstExpr _ => true
  | .NameExpr _ => true
  | .RecordCoerceExpr op =>
    match op with
    | .RecordConstructorExpr exprs => exprs.length == 0
    | _ => false
  | _ => false

/-! ## Enum constants (`EnumConstInfo`, GlobalInfo.h, lines 148-161) -/

/-- The function `std::to_string(int)`: the decimal digits of the number, after
a minus sign when it is negative. -/
def to_string (n : Int) : String := toString n

/-- The members of `EnumConstInfo`: the offset of the type of the constant and
its value, both of type `int`. -/
structure EnumConstInfo where
  e_type : Int
  e_val : Int
deriving DecidableEq, Repr

/-- `EnumConstInfo::Initializer` (GlobalInfo.h, lines 153-156). -/
def EnumConstInfo.Initializer (ec : EnumConstInfo) : String :=
  "CPP_EnumConst(" ++ to_string ec.e_type ++ ", " ++ to_string ec.e_val ++ ")"

/-- The number a list of decimal digits denotes, most significant digit first;
a device of the proofs about `to_string`. -/
def decodeDigits (l : List Char) : Nat := l.foldl (fun acc c => acc * 10 + (c.toNat - 48)) 0

/-! ## Activation of standalone code (`CPPCompile::GenStandaloneActivation`) -/

/-- A `FuncInfo` of the front-end, by what `GenStandaloneActivation` reads: the
address of the function `Func()` returns and the address of the body. -/
structure FuncInfo where
  func : Nat
  body : Nat
deriving DecidableEq, Repr

/-- The accessor `FuncInfo::Func()`. -/
def FuncInfo.Func (fi : FuncInfo) : Nat := fi.func

/-- The entries of the map `func_bodies` of `GenStandaloneActivation`, from
functions to the hashes of their bodies, one entry for each key. -/
abbrev FuncBodies := List (Nat × List Nat)

/-- What `GenStandaloneActivation` takes from code that is not among the
sources: `BodyName` and `Canonicalize` (declared in CPPCompile.h, lines 199 and
110), `Fmt` of a hash, `Func::Name()` and `Func::GetType()` (the address of the
type), `extract_var_name`, `extract_module_name`, `lookup_ID` (which gives
`IsExport()` of the identifier it finds and nothing when it finds none),
`GenTypeName`, and the order in which the loop of line 219 meets the entries
of the `std::unordered_map` `func_bodies`, which the language leaves to the
library. -/
structure ActivationEnv where
  BodyName : FuncInfo → String
  Canonicalize : String → String
  FmtHash : Nat → String
  Name : Nat → String
  GetType : Nat → Nat
  extract_var_name : String → String
  extract_module_name : String → String
  lookup_ID : String → String → Option Bool
  GenTypeName : Nat → String
  func_bodies_order : FuncBodies → FuncBodies

/-- The statement `func_bodies[f].push_back(h)`. -/
def pushBody (f h : Nat) : FuncBodies → FuncBodies
  | [] => [(f, [h])]
  | (k, hs) :: rest =>
    if k = f then (k, hs ++ [h]) :: rest else (k, hs) :: pushBody f h rest

/-- The body of the first loop of `GenStandaloneActivation` (Inits.cc, lines
207-216) on one element of `funcs`.  `compiled_funcs` is the set of the names
of the compiled bodies and `body_hashes` the map from names to hashes.  The
result is nothing when the `ASSERT` of line 215 fails, which ends the run;
where `ASSERT` is compiled away the run would go on with the hash 0 of a new
entry of `body_hashes`. -/
def collectStep (env : ActivationEnv) (compiled_funcs : List String)
    (body_hashes : List (String × Nat)) (func_bodies : FuncBodies) (func : FuncInfo) :
    Option FuncBodies :=
  let f := func.Func
  let fname := env.BodyName func
  let bname := env.Canonicalize fname ++ "_zf"
  if compiled_funcs.count bname = 0 then some func_bodies
  else
    match body_hashes.lookup bname with
    | none => none
    | some h => some (pushBody f h func_bodies)

/-- The first loop of `GenStandaloneActivation` (Inits.cc, lines 203-217), over
`funcs` in order, from the empty map. -/
def collectFuncBodies (env : ActivationEnv) (funcs : List FuncInfo)
    (compiled_funcs : List String) (body_hashes : List (String × Nat)) :
    Option FuncBodies :=
  funcs.foldlM (collectStep env compiled_funcs body_hashes) []

/-- The string `hashes` the second loop builds for one function (Inits.cc,
lines 221-230). -/
def hashesText (env : ActivationEnv) (hs : List Nat) : String :=
  let hashes := hs.foldl (fun hashes h =>
    (if hashes.length > 0 then hashes ++ ", " else hashes) ++ env.FmtHash h) ""
  "\x7b" ++ hashes ++ "\x7d"

/-- The body of the second loop of `GenStandaloneActivation` (Inits.cc, lines
221-247) on the entries of `func_bodies` in the order in which they are met:
the calls emitted and the new value of the set `module_names`, or nothing when
`lookup_ID` finds no identifier and `reporter->InternalError` ends the run. -/
def activateBodies (env : ActivationEnv) :
    FuncBodies → Finset String → Option (List OutCall × Finset String)
  | [], module_names => some ([], module_names)
  | fb :: rest, module_names =>
    let hashes := hashesText env fb.2
    let f := fb.1
    let fn := env.Name f
    let ft := env.GetType f
    let var := env.extract_var_name fn
    let mod := env.extract_module_name fn
    let module_names := insert mod module_names
    match env.lookup_ID var mod with
    | none => none
    | some is_export =>
      let exported := if is_export then "true" else "false"
      match activateBodies env rest module_names with
      | none => none
      | some (out, names) =>
        some (.Emit "activate_bodies__CPP(\"%s\", \"%s\", %s, %s, %s);"
          [var, mod, exported, env.GenTypeName ft, hashes] :: out, names)

/-- `CPPCompile::GenStandaloneActivation` (Inits.cc, lines 180-255): the output
and the new value of the set `module_names`, or nothing when the run ends in a
failed assertion or an internal error.  The block between `#if 0` and `#endif`
is not compiled. -/
def GenStandaloneActivation (env : ActivationEnv) (funcs : List FuncInfo)
    (compiled_funcs : List String) (body_hashes : List (String × Nat))
    (module_names : Finset String) : Option (List OutCall × Finset String) :=
  match collectFuncBodies env funcs compiled_funcs body_hashes with
  | none => none
  | some func_bodies =>
    match activateBodies env (env.func_bodies_order func_bodies) module_names with
    | none => none
    | some (calls, names) =>
      some ([.NL, .NL, .Emit "void standalone_init__CPP()" [], .StartBlock] ++ calls ++
        [.NL, .Emit "CPP_activation_funcs.push_back(standalone_activation__CPP);" [],
         .Emit "CPP_activation_hook = activate__CPPs;" [], .EndBlock false], names)

/-- The canonical name of the body of `func`, with the suffix `_zf`. -/
def canonicalBodyName (env : ActivationEnv) (func : FuncInfo) : String :=
  env.Canonicalize (env.BodyName func) ++ "_zf"

/-- The hashes kept in `body_hashes` for the entries of `funcs` that belong to
the function `f` and whose canonical body name is in `compiled_funcs`, in the
order of `funcs`. -/
def compiledHashes (env : ActivationEnv) (funcs : List FuncInfo)
    (compiled_funcs : List String) (body_hashes : List (String × Nat)) (f : Nat) :
    List Nat :=
  funcs.filterMap (fun func =>
    if func.Func = f ∧ compiled_funcs.count (canonicalBodyName env func) ≠ 0 then
      body_hashes.lookup (canonicalBodyName env func)
    else none)

/-- The call `activate_bodies__CPP` of the function `f` with the given text of
the list of hashes. -/
def activationCall (env : ActivationEnv) (f : Nat) (hashes : String) : OutCall :=
  let var := env.extract_var_name (env.Name f)
  let mod := env.extract_module_name (env.Name f)
  .Emit "activate_bodies__CPP(\"%s\", \"%s\", %s, %s, %s);"
    [var, mod, if env.lookup_ID var mod = some true then "true" else "false",
     env.GenTypeName (env.GetType f), hashes]

/-- The function `f` has an identifier: `lookup_ID` finds one for the variable
and module names of `f`. -/
def hasIdentifier (env : ActivationEnv) (f : Nat) : Prop :=
  (env.lookup_ID (env.extract_var_name (env.Name f))
    (env.extract_module_name (env.Name f))).isSome = true

instance (env : ActivationEnv) (f : Nat) : Decidable (hasIdentifier env f) :=
  inferInstanceAs (Decidable (_ = true))

/-- Stand-ins for the helpers: a body is named after its function and its
address, hashes are printed the way `Fmt` prints an unsigned 64-bit number,
every function is in the module `GLOBAL` and exported, and the map of
functions is traversed from the entry made last to the entry made first. -/
def exampleActivationEnv : ActivationEnv :=
  { BodyName := fun func => "f" ++ toString func.func ++ "_" ++ toString func.body,
    Canonicalize := fun s => s,
    FmtHash := fun h => toString h ++ "ULL",
    Name := fun f => "f" ++ toString f,
    GetType := fun f => f + 1000,
    extract_var_name := fun s => s,
    extract_module_name := fun _ => "GLOBAL",
    lookup_ID := fun _ _ => some true,
    GenTypeName := fun t => "type" ++ toString t,
    func_bodies_order := List.reverse }

/-- Two functions with four bodies; the second body of the first function is
the one that was not compiled. -/
def exampleFuncs : List FuncInfo :=
  [⟨1, 10⟩, ⟨2, 20⟩, ⟨1, 11⟩, ⟨1, 12⟩]

/-- The names of the compiled bodies of `exampleFuncs`. -/
def exampleCompiled : List String := ["f1_10_zf", "f2_20_zf", "f1_12_zf"]

/-- The hashes of the bodies of `exampleFuncs`. -/
def exampleBodyHashes : List (String × Nat) :=
  [("f1_10_zf", 7), ("f1_11_zf", 8), ("f1_12_zf", 9), ("f2_20_zf", 5)]

/-! # Properties -/

/-! ### Basic facts about the scheduler state -/

theorem lookupInits_appendInit_self (o : Obj) (s : String) (l : List (Obj × List String)) :
    lookupInits o (appendInit o s l) = lookupInits o l ++ [s] := by
  induction l with
  | nil => simp [appendInit, lookupInits]
  | cons e rest ih =>
    obtain ⟨k, v⟩ := e
    by_cases h : k = o
    · simp [appendInit, lookupInits, h]
    · simp [appendInit, lookupInits, h, ih]

theorem lookupInits_appendInit_other (o x : Obj) (s : String) (hx : x ≠ o)
    (l : List (Obj × List String)) :
    lookupInits x (appendInit o s l) = lookupInits x l := by
  induction l with
  | nil => simp [appendInit, lookupInits, Ne.symm hx]
  | cons e rest ih =>
    obtain ⟨k, v⟩ := e
    by_cases h : k = o
    · subst h
      simp [appendInit, lookupInits, Ne.symm hx]
    · by_cases hk : k = x
      · subst hk
        simp [appendInit, lookupInits, h]
      · simp [appendInit, lookupInits, h, hk, ih]

theorem lookupInits_of_not_mem (o : Obj) (l : List (Obj × List String))
    (h : o ∉ l.map Prod.fst) : lookupInits o l = [] := by
  induction l with
  | nil => rfl
  | cons e rest ih =>
    obtain ⟨k, v⟩ := e
    simp only [List.map_cons, List.mem_cons, not_or] at h
    simp [lookupInits, Ne.symm h.1, ih h.2]

theorem ensureNode_eq (o : Obj) (l : List (Obj × List String)) :
    ensureNode o l = if o ∈ l.map Prod.fst then l else l ++ [(o, [])] := by
  induction l with
  | nil => simp [ensureNode]
  | cons e rest ih =>
    obtain ⟨k, v⟩ := e
    by_cases h : k = o
    · simp [ensureNode, h]
    · have h2 : ¬ o = k := fun c => h c.symm
      by_cases hm : o ∈ rest.map Prod.fst
      · simp only [ensureNode, h, if_false, ih, hm, if_true, List.map_cons, List.mem_cons,
          or_true]
      · simp only [ensureNode, h, if_false, ih, hm, List.map_cons, List.mem_cons, h2,
          or_self, List.cons_append]

theorem map_fst_appendInit (o : Obj) (s : String) (l : List (Obj × List String)) :
    (appendInit o s l).map Prod.fst =
      if o ∈ l.map Prod.fst then l.map Prod.fst else l.map Prod.fst ++ [o] := by
  induction l with
  | nil => simp [appendInit]
  | cons e rest ih =>
    obtain ⟨k, v⟩ := e
    by_cases h : k = o
    · simp [appendInit, h]
    · have h2 : ¬ o = k := fun c => h c.symm
      by_cases hm : o ∈ rest.map Prod.fst
      · simp only [appendInit, h, if_false, List.map_cons, ih, hm, if_true, List.mem_cons,
          or_true]
      · simp only [appendInit, h, if_false, List.map_cons, ih, hm, List.mem_cons, h2,
          or_self, List.cons_append]

theorem lookupInits_ensureNode (o x : Obj) (l : List (Obj × List String)) :
    lookupInits x (ensureNode o l) = lookupInits x l := by
  induction l with
  | nil =>
    by_cases h : o = x
    · simp [ensureNode, lookupInits, h]
    · simp [ensureNode, lookupInits, h]
  | cons e rest ih =>
    obtain ⟨k, v⟩ := e
    by_cases h : k = o
    · simp [ensureNode, h]
    · by_cases hk : k = x
      · subst hk
        simp [ensureNode, lookupInits, h]
      · simp [ensureNode, lookupInits, h, hk, ih]

theorem dependsOn_iff (st : InitState) (a b : Obj) :
    DependsOn st a b ↔ ∃ ds, (a, ds) ∈ st.obj_deps ∧ b ∈ ds := by
  unfold DependsOn depsOf
  rw [List.mem_flatMap]
  constructor
  · rintro ⟨⟨k, ds⟩, hmem, hb⟩
    by_cases hk : k = a
    · subst hk
      simp only [if_true] at hb
      exact ⟨ds, hmem, hb⟩
    · simp [hk] at hb
  · rintro ⟨ds, hmem, hb⟩
    exact ⟨(a, ds), hmem, by simpa using hb⟩

theorem mem_insertDep (a b x y : Obj) (l : List (Obj × List Obj)) :
    (∃ ds, (x, ds) ∈ insertDep a b l ∧ y ∈ ds) ↔
      (x = a ∧ y = b) ∨ ∃ ds, (x, ds) ∈ l ∧ y ∈ ds := by
  induction l with
  | nil =>
    simp only [insertDep, List.mem_singleton, Prod.mk.injEq, List.not_mem_nil, false_and,
      exists_false, or_false]
    constructor
    · rintro ⟨ds, ⟨rfl, rfl⟩, hy⟩
      exact ⟨rfl, by simpa using hy⟩
    · rintro ⟨rfl, rfl⟩
      exact ⟨[y], ⟨rfl, rfl⟩, by simp⟩
  | cons e rest ih =>
    obtain ⟨k, ds0⟩ := e
    by_cases h : k = a
    · subst h
      by_cases hb : b ∈ ds0
      · simp only [insertDep, if_true, hb]
        constructor
        · intro hex
          exact Or.inr hex
        · rintro (⟨rfl, rfl⟩ | hex)
          · exact ⟨ds0, List.mem_cons_self _ _, hb⟩
          · exact hex
      · simp only [insertDep, if_true, hb, if_false]
        constructor
        · rintro ⟨ds, hmem, hy⟩
          rcases List.mem_cons.1 hmem with heq | hrest
          · obtain ⟨rfl, rfl⟩ := Prod.mk.inj heq
            rcases List.mem_append.1 hy with h1 | h1
            · exact Or.inr ⟨ds0, List.mem_cons_self _ _, h1⟩
            · exact Or.inl ⟨rfl, by simpa using h1⟩
          · exact Or.inr ⟨ds, List.mem_cons_of_mem _ hrest, hy⟩
        · rintro (⟨rfl, rfl⟩ | ⟨ds, hmem, hy⟩)
          · exact ⟨ds0 ++ [y], List.mem_cons_self _ _, by simp⟩
          · rcases List.mem_cons.1 hmem with heq | hrest
            · obtain ⟨rfl, rfl⟩ := Prod.mk.inj heq
              exact ⟨ds ++ [b], List.mem_cons_self _ _, List.mem_append_left _ hy⟩
            · exact ⟨ds, List.mem_cons_of_mem _ hrest, hy⟩
    · simp only [insertDep, h, if_false]
      constructor
      · rintro ⟨ds, hmem, hy⟩
        rcases List.mem_cons.1 hmem with heq | hrest
        · exact Or.inr ⟨ds, by rw [heq]; exact List.mem_cons_self _ _, hy⟩
        · rcases (ih.1 ⟨ds, hrest, hy⟩) with hl | ⟨ds2, hm2, hy2⟩
          · exact Or.inl hl
          · exact Or.inr ⟨ds2, List.mem_cons_of_mem _ hm2, hy2⟩
      · rintro (hl | ⟨ds, hmem, hy⟩)
        · obtain ⟨ds2, hm2, hy2⟩ := ih.2 (Or.inl hl)
          exact ⟨ds2, List.mem_cons_of_mem _ hm2, hy2⟩
        · rcases List.mem_cons.1 hmem with heq | hrest
          · exact ⟨ds, by rw [heq]; exact List.mem_cons_self _ _, hy⟩
          · obtain ⟨ds2, hm2, hy2⟩ := ih.2 (Or.inr ⟨ds, hrest, hy⟩)
            exact ⟨ds2, List.mem_cons_of_mem _ hm2, hy2⟩

theorem dependsOn_noteInitDependency (st : InitState) (a b x y : Obj) :
    DependsOn (NoteInitDependency a b st) x y ↔ (x = a ∧ y = b) ∨ DependsOn st x y := by
  rw [dependsOn_iff, dependsOn_iff]
  exact mem_insertDep a b x y st.obj_deps

theorem initsOf_apply (st : InitState) (c : InitCall) (o : Obj) :
    initsOf (c.apply st) o = initsOf st o ++ statementsFor o [c] := by
  cases c with
  | addInit o2 s =>
    by_cases h : o2 = o
    · subst h
      simp [InitCall.apply, AddInit, initsOf, statementsFor, lookupInits_appendInit_self]
    · have h2 : o ≠ o2 := fun c => h c.symm
      simp [InitCall.apply, AddInit, initsOf, statementsFor, h,
        lookupInits_appendInit_other o2 o s h2]
  | addInitEmpty o2 =>
    simp [InitCall.apply, AddInitEmpty, initsOf, statementsFor, lookupInits_ensureNode]
  | noteInitDependency a b =>
    simp [InitCall.apply, NoteInitDependency, initsOf, statementsFor]

theorem initsOf_runCalls (calls : List InitCall) (st : InitState) (o : Obj) :
    initsOf (runCalls st calls) o = initsOf st o ++ statementsFor o calls := by
  induction calls generalizing st with
  | nil => simp [runCalls, statementsFor]
  | cons c rest ih =>
    have hstep : runCalls st (c :: rest) = runCalls (c.apply st) rest := rfl
    have hsplit : statementsFor o (c :: rest) = statementsFor o [c] ++ statementsFor o rest := by
      unfold statementsFor
      rw [← List.filterMap_append]
      rfl
    rw [hstep, ih, initsOf_apply, hsplit, List.append_assoc]

/-! ### The emission loop -/

theorem exists_ready_of_acyclic (st : InitState) (hacyc : Acyclic st) (todo : List Obj)
    (hne : todo ≠ []) : ∃ m ∈ todo, ∀ d, DependsOn st m d → d ∉ todo := by
  classical
  let S := {x : Obj // x ∈ todo}
  let r : S → S → Prop := fun a b => Relation.TransGen (DependsOn st) b.1 a.1
  haveI : Finite S := (List.finite_toSet todo).to_subtype
  haveI : IsTrans S r := ⟨fun a b c hab hbc => Relation.TransGen.trans hbc hab⟩
  haveI : IsIrrefl S r := ⟨fun a h => hacyc a.1 h⟩
  have wf : WellFounded r := Finite.wellFounded_of_trans_of_irrefl r
  obtain ⟨x, hx⟩ := List.exists_mem_of_ne_nil todo hne
  obtain ⟨m, -, hm⟩ := wf.has_min Set.univ ⟨⟨x, hx⟩, trivial⟩
  exact ⟨m.1, m.2, fun d hd hdt => hm ⟨d, hdt⟩ trivial (Relation.TransGen.single hd)⟩

theorem readyToInit_iff (st : InitState) (done : List Obj) (o : Obj) :
    readyToInit st done o = true ↔ ∀ d, DependsOn st o d → d ∈ done := by
  unfold readyToInit DependsOn
  rw [List.all_eq_true]
  constructor
  · intro h d hd
    simpa using h d hd
  · intro h d hd
    simpa using h d hd

theorem selectReady_some (st : InitState) (g : GenState) (o : Obj)
    (h : selectReady st g = some o) : o ∈ g.to_do ∧ ∀ d, DependsOn st o d → d ∈ g.done := by
  have hp := List.find?_some h
  simp only [Bool.and_eq_true, decide_eq_true_eq] at hp
  exact ⟨hp.1, (readyToInit_iff st g.done o).1 hp.2⟩

theorem selectReady_ne_none (st : InitState) (g : GenState) (o : Obj) (ho : o ∈ g.to_do)
    (hr : ∀ d, DependsOn st o d → d ∈ g.done) : selectReady st g ≠ none := by
  intro hnone
  have hall := List.find?_eq_none.1 hnone o (List.mem_append_right _ ho)
  apply hall
  simp only [Bool.and_eq_true, decide_eq_true_eq]
  exact ⟨ho, (readyToInit_iff st g.done o).2 hr⟩

theorem length_emitInits_lt (st : InitState) (g : GenState) (o : Obj) (ho : o ∈ g.to_do) :
    (emitInits st g o).to_do.length < g.to_do.length := by
  unfold emitInits
  apply List.length_filter_lt_length_iff_exists.2
  exact ⟨o, ho, by simp⟩

theorem genInv_start (st : InitState) (T0 : List Obj) :
    GenInv st T0 { to_do := T0, done := [], emitted := [] } where
  cover := by simp
  apart := by simp
  nodup := List.nodup_nil
  emitted_eq := by simp
  deps_first := by simp

theorem genInv_emitInits (st : InitState) (T0 : List Obj) (g : GenState) (o : Obj)
    (hinv : GenInv st T0 g) (ho : o ∈ g.to_do) (hr : ∀ d, DependsOn st o d → d ∈ g.done) :
    GenInv st T0 (emitInits st g o) where
  cover := by
    intro x
    rw [hinv.cover x]
    simp only [emitInits, List.mem_filter, bne_iff_ne, ne_eq, List.mem_append,
      List.mem_singleton]
    by_cases hx : x = o
    · subst hx
      simp [ho]
    · simp [hx]
  apart := by
    intro x hx
    simp only [emitInits, List.mem_append, List.mem_singleton] at hx
    simp only [emitInits, List.mem_filter, bne_iff_ne, ne_eq, not_and, not_not]
    rcases hx with hx | hx
    · intro hxt
      exact absurd hxt (hinv.apart x hx)
    · intro _
      exact hx
  nodup := by
    simp only [emitInits]
    rw [List.nodup_append]
    refine ⟨hinv.nodup, List.nodup_singleton o, ?_⟩
    intro x hx hxo
    rw [List.mem_singleton] at hxo
    subst hxo
    exact hinv.apart x hx ho
  emitted_eq := by
    simp only [emitInits]
    rw [hinv.emitted_eq, List.flatMap_append]
    simp
  deps_first := by
    intro a ha b hab
    simp only [emitInits, List.mem_append, List.mem_singleton] at ha
    rcases ha with ha | ha
    · obtain ⟨l1, l2, l3, hl⟩ := hinv.deps_first a ha b hab
      refine ⟨l1, l2, l3 ++ [o], ?_⟩
      simp only [emitInits]
      rw [hl]
      simp
    · subst ha
      obtain ⟨l1, l2, hl⟩ := List.append_of_mem (hr b hab)
      refine ⟨l1, l2, [], ?_⟩
      simp only [emitInits]
      rw [hl]
      simp

theorem genLoop_drains (st : InitState) (T0 : List Obj)
    (hclosed : ∀ a ∈ T0, ∀ b, DependsOn st a b → b ∈ T0) (hacyc : Acyclic st) :
    ∀ (n : Nat) (g : GenState), g.to_do.length ≤ n → GenInv st T0 g →
      ∃ g2, genLoop st n g = some g2 ∧ g2.to_do = [] ∧ GenInv st T0 g2 := by
  intro n
  induction n with
  | zero =>
    intro g hlen hinv
    have hnil : g.to_do = [] := List.length_eq_zero.1 (Nat.le_zero.1 hlen)
    exact ⟨g, by simp [genLoop, hnil], hnil, hinv⟩
  | succ n ih =>
    intro g hlen hinv
    by_cases hnil : g.to_do = []
    · exact ⟨g, by simp [genLoop, hnil], hnil, hinv⟩
    · obtain ⟨m, hm, hmin⟩ := exists_ready_of_acyclic st hacyc g.to_do hnil
      have hmT : m ∈ T0 := (hinv.cover m).2 (Or.inl hm)
      have hmr : ∀ d, DependsOn st m d → d ∈ g.done := by
        intro d hd
        rcases (hinv.cover d).1 (hclosed m hmT d hd) with h | h
        · exact absurd h (hmin d hd)
        · exact h
      cases hsel : selectReady st g with
      | none => exact absurd hsel (selectReady_ne_none st g m hm hmr)
      | some o =>
        obtain ⟨ho, hor⟩ := selectReady_some st g o hsel
        have hlt := length_emitInits_lt st g o ho
        obtain ⟨g2, hg2, hdone, hinv2⟩ :=
          ih (emitInits st g o) (by omega) (genInv_emitInits st T0 g o hinv ho hor)
        refine ⟨g2, ?_, hdone, hinv2⟩
        simp only [genLoop, hnil, if_false, hsel]
        exact hg2

theorem checkInitConsistency_eq_some_iff (st : InitState) (to_do : List Obj) :
    CheckInitConsistency st to_do = some (st, to_do) ↔
      ∀ a b, DependsOn st a b → a ∈ to_do ∧ b ∈ to_do := by
  unfold CheckInitConsistency
  have key : (st.obj_deps.all (fun e => e.2.all
      (fun d => decide (e.1 ∈ to_do) && decide (d ∈ to_do))) = true) ↔
      ∀ a b, DependsOn st a b → a ∈ to_do ∧ b ∈ to_do := by
    rw [List.all_eq_true]
    constructor
    · intro h a b hab
      obtain ⟨ds, hmem, hb⟩ := (dependsOn_iff st a b).1 hab
      have h1 := h (a, ds) hmem
      rw [List.all_eq_true] at h1
      simpa using h1 b hb
    · intro h e he
      rw [List.all_eq_true]
      intro d hd
      have := h e.1 d ((dependsOn_iff st e.1 d).2 ⟨e.2, he, hd⟩)
      simpa using this
  by_cases hc : st.obj_deps.all (fun e => e.2.all
      (fun d => decide (e.1 ∈ to_do) && decide (d ∈ to_do))) = true
  · simp only [hc, if_true, true_iff]
    exact key.1 hc
  · simp only [hc]
    constructor
    · intro h
      simp at h
    · intro h
      exact absurd (key.2 h) hc

theorem checkInitConsistency_isSome_iff (st : InitState) (to_do : List Obj) :
    (CheckInitConsistency st to_do).isSome = true ↔
      CheckInitConsistency st to_do = some (st, to_do) := by
  unfold CheckInitConsistency
  split <;> simp

theorem acyclic_of_acyclicOn (st : InitState) (to_do : List Obj)
    (hclosed : ∀ a b, DependsOn st a b → a ∈ to_do ∧ b ∈ to_do)
    (h : AcyclicOn st to_do) : Acyclic st := by
  intro o ho
  obtain ⟨b, hb, -⟩ := Relation.TransGen.head'_iff.1 ho
  exact h o (hclosed o b hb).1 ho

/-- A numbering of the objects that decreases along every recorded dependency
rules out cycles. -/
theorem acyclic_of_rank (st : InitState) (rank : Obj → Nat)
    (h : st.obj_deps.all (fun e => e.2.all (fun d => decide (rank d < rank e.1))) = true) :
    Acyclic st := by
  have hstep : ∀ a b, DependsOn st a b → rank b < rank a := by
    intro a b hab
    obtain ⟨ds, hmem, hb⟩ := (dependsOn_iff st a b).1 hab
    have h1 := List.all_eq_true.1 h (a, ds) hmem
    simpa using List.all_eq_true.1 h1 b hb
  have htrans : ∀ a b, Relation.TransGen (DependsOn st) a b → rank b < rank a := by
    intro a b hab
    induction hab with
    | single h1 => exact hstep _ _ h1
    | tail _ h2 ih => exact lt_trans (hstep _ _ h2) ih
  intro o ho
  exact lt_irrefl _ (htrans o o ho)

theorem genDependentInits_spec (st : InitState) (to_do : List Obj)
    (hcheck : (CheckInitConsistency st to_do).isSome = true)
    (hacyc : AcyclicOn st to_do) :
    ∃ g, GenDependentInits st to_do = some g ∧ g.to_do = [] ∧ GenInv st to_do g := by
  have hclosed := (checkInitConsistency_eq_some_iff st to_do).1
    ((checkInitConsistency_isSome_iff st to_do).1 hcheck)
  exact genLoop_drains st to_do (fun a _ b hab => (hclosed a b hab).2)
    (acyclic_of_acyclicOn st to_do hclosed hacyc) to_do.length _ (le_refl _)
    (genInv_start st to_do)

/-- C1: for every scheduler state built by a sequence of `AddInit` and
`NoteInitDependency` calls and every `to_do` that passes `CheckInitConsistency`
and whose dependency relation is acyclic, `GenDependentInits` succeeds, leaves
`to_do` empty, marks every object of `to_do` done exactly once, emits exactly
the statements of the objects in the order they were marked done, and marks
every object done after each object it depends on. -/
theorem genDependentInits_emits_in_dependency_order (calls : List InitCall)
    (to_do : List Obj)
    (hcheck : (CheckInitConsistency (buildState calls) to_do).isSome = true)
    (hacyc : AcyclicOn (buildState calls) to_do) :
    ∃ g, GenDependentInits (buildState calls) to_do = some g ∧ g.to_do = [] ∧
      g.done.Nodup ∧ (∀ o, o ∈ g.done ↔ o ∈ to_do) ∧
      g.emitted = g.done.flatMap (initsOf (buildState calls)) ∧
      ∀ a b, a ∈ to_do → DependsOn (buildState calls) a b → Precedes g.done b a := by
  obtain ⟨g, hg, hnil, hinv⟩ := genDependentInits_spec (buildState calls) to_do hcheck hacyc
  refine ⟨g, hg, hnil, hinv.nodup, ?_, hinv.emitted_eq, ?_⟩
  · intro o
    rw [hinv.cover o, hnil]
    simp
  · intro a b ha hab
    have hdone : a ∈ g.done := by
      have := (hinv.cover a).1 ha
      rw [hnil] at this
      simpa using this
    exact hinv.deps_first a hdone b hab

theorem exampleCalls_acyclic : Acyclic (buildState exampleCalls) :=
  acyclic_of_rank _ (fun o => 10 - o) (by decide)

/-- The table constant registered first is emitted after the record constant
it is built from. -/
theorem genDependentInits_emits_in_dependency_order_witness :
    ∃ g, GenDependentInits (buildState exampleCalls) [3, 1, 2] = some g ∧ g.to_do = [] ∧
      g.done.Nodup ∧ (∀ o, o ∈ g.done ↔ o ∈ [3, 1, 2]) ∧
      g.emitted = g.done.flatMap (initsOf (buildState exampleCalls)) ∧
      ∀ a b, a ∈ [3, 1, 2] → DependsOn (buildState exampleCalls) a b → Precedes g.done b a :=
  genDependentInits_emits_in_dependency_order exampleCalls [3, 1, 2] (by decide)
    (fun o _ => exampleCalls_acyclic o)

/-- C2: `CheckInitConsistency(to_do)` fails fatally exactly when some object
that is the source or the target of a recorded dependency is not a member of
`to_do`; when `to_do` contains all of them it succeeds and hands back the
scheduler state and `to_do` unchanged. -/
theorem checkInitConsistency_fails_iff_unregistered (st : InitState) (to_do : List Obj) :
    (CheckInitConsistency st to_do = none ↔ ∃ x, Referenced st x ∧ x ∉ to_do) ∧
    ((∀ x, Referenced st x → x ∈ to_do) →
      CheckInitConsistency st to_do = some (st, to_do)) := by
  have hpass : (∀ x, Referenced st x → x ∈ to_do) →
      CheckInitConsistency st to_do = some (st, to_do) := by
    intro h
    rw [checkInitConsistency_eq_some_iff]
    intro a b hab
    exact ⟨h a (Or.inl ⟨b, hab⟩), h b (Or.inr ⟨a, hab⟩)⟩
  refine ⟨⟨?_, ?_⟩, hpass⟩
  · intro hnone
    by_contra hex
    have hall : ∀ x, Referenced st x → x ∈ to_do := by
      intro x hx
      by_contra hxt
      exact hex ⟨x, hx, hxt⟩
    rw [hpass hall] at hnone
    exact Option.noConfusion hnone
  · rintro ⟨x, hx, hxt⟩
    cases hres : CheckInitConsistency st to_do with
    | none => rfl
    | some r =>
      exfalso
      have hsome : (CheckInitConsistency st to_do).isSome = true := by simp [hres]
      have hclosed := (checkInitConsistency_eq_some_iff st to_do).1
        ((checkInitConsistency_isSome_iff st to_do).1 hsome)
      rcases hx with ⟨b, hb⟩ | ⟨a, ha⟩
      · exact hxt (hclosed x b hb).1
      · exact hxt (hclosed a x ha).2

/-- With the record constant `2` and the object `3` it depends on, the check
passes on `[1, 2, 3]` and fails on `[1, 2]`, where `3` is missing. -/
theorem checkInitConsistency_fails_iff_unregistered_witness :
    CheckInitConsistency (buildState exampleCalls) [1, 2, 3] =
        some (buildState exampleCalls, [1, 2, 3]) ∧
    CheckInitConsistency (buildState exampleCalls) [1, 2] = none :=
  ⟨(checkInitConsistency_fails_iff_unregistered (buildState exampleCalls) [1, 2, 3]).2
      (by
        intro x hx
        have hclosed := (checkInitConsistency_eq_some_iff (buildState exampleCalls)
          [1, 2, 3]).1 (by decide)
        rcases hx with ⟨b, hb⟩ | ⟨a, ha⟩
        · exact (hclosed x b hb).1
        · exact (hclosed a x ha).2),
   (checkInitConsistency_fails_iff_unregistered (buildState exampleCalls) [1, 2]).1.2
      ⟨3, Or.inr ⟨2, by decide⟩, by decide⟩⟩

/-! ### Ties -/

theorem initNodes_addInit (st : InitState) (o : Obj) (s : String) :
    InitNodes (AddInit o s st) =
      if o ∈ InitNodes st then InitNodes st else InitNodes st ++ [o] := by
  simp only [InitNodes, AddInit]
  exact map_fst_appendInit o s st.obj_inits

theorem initNodes_addInitEmpty (st : InitState) (o : Obj) :
    InitNodes (AddInitEmpty o st) =
      if o ∈ InitNodes st then InitNodes st else InitNodes st ++ [o] := by
  simp only [InitNodes, AddInitEmpty]
  rw [ensureNode_eq]
  split <;> simp

theorem mem_initNodes_apply (st : InitState) (c : InitCall) (x : Obj)
    (hx : x ∈ InitNodes st) : x ∈ InitNodes (c.apply st) := by
  cases c with
  | addInit o s =>
    simp only [InitCall.apply, initNodes_addInit]
    split
    · exact hx
    · exact List.mem_append_left _ hx
  | addInitEmpty o =>
    simp only [InitCall.apply, initNodes_addInitEmpty]
    split
    · exact hx
    · exact List.mem_append_left _ hx
  | noteInitDependency a b => exact hx

theorem mem_initNodes_runCalls (calls : List InitCall) (st : InitState) (x : Obj)
    (hx : x ∈ InitNodes st) : x ∈ InitNodes (runCalls st calls) := by
  induction calls generalizing st with
  | nil => exact hx
  | cons c rest ih => exact ih (c.apply st) (mem_initNodes_apply st c x hx)

theorem mem_initNodes_of_addInitEmpty (calls : List InitCall) (st : InitState) (o : Obj)
    (h : InitCall.addInitEmpty o ∈ calls) : o ∈ InitNodes (runCalls st calls) := by
  induction calls generalizing st with
  | nil => simp at h
  | cons c rest ih =>
    rcases List.mem_cons.1 h with hc | hrest
    · subst hc
      apply mem_initNodes_runCalls rest
      simp only [InitCall.apply, initNodes_addInitEmpty]
      split
      · assumption
      · simp
    · exact ih (c.apply st) hrest

theorem statementsFor_eq_nil (o : Obj) (calls : List InitCall)
    (h : ∀ s, InitCall.addInit o s ∉ calls) : statementsFor o calls = [] := by
  unfold statementsFor
  rw [List.filterMap_eq_nil_iff]
  intro c hc
  cases c with
  | addInit o2 s =>
    by_cases ho : o2 = o
    · subst ho
      exact absurd hc (h s)
    · simp [ho]
  | addInitEmpty o2 => rfl
  | noteInitDependency a b => rfl

/-- C4: the statement list recorded for `o` after any sequence of calls is the
list of the statements passed by the calls `AddInit(o, s)`, in call order,
whatever calls on other objects are interleaved; the first call creates the
node of `o`, and a call on `o` leaves the statement list of every other object
as it was. -/
theorem addInit_records_statements_in_call_order (calls : List InitCall) (st : InitState)
    (o : Obj) :
    initsOf (buildState calls) o = statementsFor o calls ∧
    initsOf (runCalls st calls) o = initsOf st o ++ statementsFor o calls ∧
    (∀ s, o ∈ InitNodes (AddInit o s st)) ∧
    (∀ s, o ∉ InitNodes st → initsOf (AddInit o s st) o = [s]) ∧
    (∀ s x, x ≠ o → initsOf (AddInit o s st) x = initsOf st x) ∧
    (∀ s x, x ≠ o → (x ∈ InitNodes (AddInit o s st) ↔ x ∈ InitNodes st)) := by
  refine ⟨?_, initsOf_runCalls calls st o, ?_, ?_, ?_, ?_⟩
  · have := initsOf_runCalls calls InitState.empty o
    simpa [buildState, initsOf, InitState.empty, lookupInits] using this
  · intro s
    rw [initNodes_addInit]
    split
    · assumption
    · simp
  · intro s hnew
    have h1 : initsOf (AddInit o s st) o = initsOf st o ++ [s] :=
      lookupInits_appendInit_self o s st.obj_inits
    have h2 : initsOf st o = [] := lookupInits_of_not_mem o st.obj_inits hnew
    rw [h1, h2]
    rfl
  · intro s x hx
    exact lookupInits_appendInit_other o x s hx st.obj_inits
  · intro s x hx
    rw [initNodes_addInit]
    split
    · rfl
    · simp [hx]

/-- The two statements of the table constant `1` are recorded in call order
although calls on other objects come between them. -/
theorem addInit_records_statements_in_call_order_witness :
    initsOf (buildState exampleCalls) 1 = ["t = make_table(r);", "t->fill();"] ∧
    initsOf (AddInit 1 "late();" (buildState exampleCalls)) 2 = ["r = make_record();"] :=
  ⟨(addInit_records_statements_in_call_order exampleCalls InitState.empty 1).1.trans
      (by decide),
   ((addInit_records_statements_in_call_order [] (buildState exampleCalls) 1).2.2.2.2.1
      "late();" 2 (by decide)).trans (by decide)⟩

/-! ### `AddInit` without a statement -/

theorem genLoop_emitted (st : InitState) :
    ∀ (n : Nat) (g g2 : GenState), genLoop st n g = some g2 →
      g.emitted = g.done.flatMap (initsOf st) →
      g2.emitted = g2.done.flatMap (initsOf st) := by
  intro n
  induction n with
  | zero =>
    intro g g2 hrun hinv
    by_cases hnil : g.to_do = []
    · simp only [genLoop, hnil, if_true, Option.some.injEq] at hrun
      subst hrun
      exact hinv
    · simp [genLoop, hnil] at hrun
  | succ n ih =>
    intro g g2 hrun hinv
    by_cases hnil : g.to_do = []
    · simp only [genLoop, hnil, if_true, Option.some.injEq] at hrun
      subst hrun
      exact hinv
    · cases hsel : selectReady st g with
      | none => simp [genLoop, hnil, hsel] at hrun
      | some o =>
        simp only [genLoop, hnil, if_false, hsel] at hrun
        refine ih (emitInits st g o) g2 hrun ?_
        simp only [emitInits]
        rw [hinv, List.flatMap_append]
        simp

theorem flatMap_filter_of_nil {α β : Type} [DecidableEq α] (f : α → List β) (o : α)
    (ho : f o = []) (l : List α) :
    l.flatMap f = (l.filter (fun x => x != o)).flatMap f := by
  induction l with
  | nil => rfl
  | cons a rest ih =>
    by_cases ha : a = o
    · subst ha
      simp [List.flatMap_cons, ho, ih]
    · simp [List.flatMap_cons, ha, ih]

/-- C5: `AddInit(o)` without a statement leaves `o` with a node, whose
statement list is empty when the node is new; it changes no statement list and
no dependency.  An object registered only this way is a member of the set of
registered objects, so `CheckInitConsistency` passes on that set when the
other referenced objects are registered too, and `GenDependentInits` emits
nothing for it. -/
theorem addInit_without_statement_only_registers (st : InitState) (o : Obj) :
    o ∈ InitNodes (AddInitEmpty o st) ∧
    (o ∉ InitNodes st → initsOf (AddInitEmpty o st) o = []) ∧
    (∀ x, initsOf (AddInitEmpty o st) x = initsOf st x) ∧
    (AddInitEmpty o st).obj_inits =
      (if o ∈ InitNodes st then st.obj_inits else st.obj_inits ++ [(o, [])]) ∧
    (AddInitEmpty o st).obj_deps = st.obj_deps ∧
    (∀ calls, InitCall.addInitEmpty o ∈ calls → (∀ s, InitCall.addInit o s ∉ calls) →
      o ∈ InitNodes (buildState calls) ∧ initsOf (buildState calls) o = [] ∧
      ((∀ x, Referenced (buildState calls) x → x ≠ o → x ∈ InitNodes (buildState calls)) →
        CheckInitConsistency (buildState calls) (InitNodes (buildState calls)) =
          some (buildState calls, InitNodes (buildState calls))) ∧
      (∀ to_do g, GenDependentInits (buildState calls) to_do = some g →
        g.emitted = (g.done.filter (fun x => x != o)).flatMap (initsOf (buildState calls)))) := by
  have hsame : ∀ x, initsOf (AddInitEmpty o st) x = initsOf st x :=
    fun x => lookupInits_ensureNode o x st.obj_inits
  refine ⟨?_, ?_, hsame, ensureNode_eq o st.obj_inits, rfl, ?_⟩
  · rw [initNodes_addInitEmpty]
    split
    · assumption
    · simp
  · intro hnew
    rw [hsame o]
    exact lookupInits_of_not_mem o st.obj_inits hnew
  · intro calls hreg hnostmt
    have hnode : o ∈ InitNodes (buildState calls) :=
      mem_initNodes_of_addInitEmpty calls InitState.empty o hreg
    have hnil : initsOf (buildState calls) o = [] := by
      have h1 := initsOf_runCalls calls InitState.empty o
      rw [statementsFor_eq_nil o calls hnostmt] at h1
      simpa [buildState, initsOf, InitState.empty, lookupInits] using h1
    refine ⟨hnode, hnil, ?_, ?_⟩
    · intro hothers
      rw [checkInitConsistency_eq_some_iff]
      have hall : ∀ x, Referenced (buildState calls) x → x ∈ InitNodes (buildState calls) := by
        intro x hx
        by_cases hxo : x = o
        · rw [hxo]
          exact hnode
        · exact hothers x hx hxo
      intro a b hab
      exact ⟨hall a (Or.inl ⟨b, hab⟩), hall b (Or.inr ⟨a, hab⟩)⟩
    · intro to_do g hg
      have hem := genLoop_emitted (buildState calls) to_do.length _ g hg (by simp)
      rw [hem]
      exact flatMap_filter_of_nil (initsOf (buildState calls)) o hnil g.done

/-- The object `7`, registered by `AddInit(o)` only, passes the consistency
check although `8` depends on it, and only the statement of `8` is emitted. -/
theorem addInit_without_statement_only_registers_witness :
    7 ∈ InitNodes (buildState emptyNodeCalls) ∧ initsOf (buildState emptyNodeCalls) 7 = [] ∧
    CheckInitConsistency (buildState emptyNodeCalls) (InitNodes (buildState emptyNodeCalls)) =
      some (buildState emptyNodeCalls, InitNodes (buildState emptyNodeCalls)) ∧
    GenDependentInits (buildState emptyNodeCalls) (InitNodes (buildState emptyNodeCalls)) =
      some { to_do := [], done := [7, 8], emitted := ["eight(seven);"] } :=
  have h := (addInit_without_statement_only_registers InitState.empty 7).2.2.2.2.2
    emptyNodeCalls (by decide) (by
      intro s hs
      simp [emptyNodeCalls] at hs)
  ⟨h.1, h.2.1, h.2.2.1 (by
      intro x hx _
      have hclosed := (checkInitConsistency_eq_some_iff (buildState emptyNodeCalls)
          (InitNodes (buildState emptyNodeCalls))).1 (by decide)
      rcases hx with ⟨b, hb⟩ | ⟨a, ha⟩
      · exact (hclosed x b hb).1
      · exact (hclosed a x ha).2), by decide⟩

/-! ### Dependencies on types -/

/-- C6: for a non-null type `t` whose tag is not `TYPE_RECORD`,
`NoteNonRecordInitDependency(o, t)` has exactly the effect of
`NoteInitDependency(o, TypeRep(t))`, so the dependency it adds is the one on
the representative of `t`; for a record type it changes nothing. -/
theorem noteNonRecordInitDependency_on_representative (TypeRep : ZType → ZType) (o : Obj)
    (t : ZType) (st : InitState) :
    (t.Tag ≠ TypeTag.TYPE_RECORD →
      NoteNonRecordInitDependency TypeRep o (some t) st =
        NoteInitDependency o (TypeRep t).addr st ∧
      ∀ x y, DependsOn (NoteNonRecordInitDependency TypeRep o (some t) st) x y ↔
        (x = o ∧ y = (TypeRep t).addr) ∨ DependsOn st x y) ∧
    (t.Tag = TypeTag.TYPE_RECORD →
      NoteNonRecordInitDependency TypeRep o (some t) st = st) := by
  constructor
  · intro hne
    have heq : NoteNonRecordInitDependency TypeRep o (some t) st =
        NoteInitDependency o (TypeRep t).addr st := by
      simp [NoteNonRecordInitDependency, hne]
    refine ⟨heq, fun x y => ?_⟩
    rw [heq]
    exact dependsOn_noteInitDependency st o (TypeRep t).addr x y
  · intro hrec
    simp [NoteNonRecordInitDependency, hrec]

/-- A table type at address `5` makes object `1` depend on the representative
at address `100`, not on `5`; a record type adds nothing. -/
theorem noteNonRecordInitDependency_on_representative_witness :
    NoteNonRecordInitDependency exampleTypeRep 1 (some ⟨5, TypeTag.TYPE_OTHER 0⟩)
        InitState.empty = NoteInitDependency 1 100 InitState.empty ∧
    NoteNonRecordInitDependency exampleTypeRep 1 (some ⟨5, TypeTag.TYPE_RECORD⟩)
        InitState.empty = InitState.empty :=
  ⟨((noteNonRecordInitDependency_on_representative exampleTypeRep 1
      ⟨5, TypeTag.TYPE_OTHER 0⟩ InitState.empty).1 (by decide)).1,
   (noteNonRecordInitDependency_on_representative exampleTypeRep 1
      ⟨5, TypeTag.TYPE_RECORD⟩ InitState.empty).2 rfl⟩

/-! ### Groups of globals -/

theorem flatten_pushToBucket_perm (m : CPP_GlobalInfo) :
    ∀ (k : Nat) (L : List (List CPP_GlobalInfo)),
      (pushToBucket m k L).flatten.Perm (m :: L.flatten) := by
  intro k
  induction k with
  | zero =>
    intro L
    cases L with
    | nil => simp [pushToBucket]
    | cons b rest =>
      simp only [pushToBucket, List.flatten_cons, List.append_assoc, List.singleton_append]
      exact List.perm_middle
  | succ k ih =>
    intro L
    cases L with
    | nil =>
      simp only [pushToBucket, List.flatten_cons, List.nil_append]
      exact ih []
    | cons b rest =>
      simp only [pushToBucket, List.flatten_cons]
      exact ((ih rest).append_left b).trans List.perm_middle

theorem getD_pushToBucket (m : CPP_GlobalInfo) :
    ∀ (c : Nat) (L : List (List CPP_GlobalInfo)) (k : Nat),
      (pushToBucket m c L).getD k [] =
        if k = c then L.getD k [] ++ [m] else L.getD k [] := by
  intro c
  induction c with
  | zero =>
    intro L k
    cases L with
    | nil => cases k <;> simp [pushToBucket]
    | cons b rest => cases k <;> simp [pushToBucket]
  | succ c ih =>
    intro L k
    cases L with
    | nil =>
      cases k with
      | zero => simp [pushToBucket]
      | succ k =>
        have := ih [] k
        simp only [pushToBucket, List.getD_cons_succ, this]
        simp
    | cons b rest =>
      cases k with
      | zero => simp [pushToBucket]
      | succ k =>
        have := ih rest k
        simp only [pushToBucket, List.getD_cons_succ, this]
        simp

theorem length_pushToBucket (m : CPP_GlobalInfo) :
    ∀ (c : Nat) (L : List (List CPP_GlobalInfo)),
      (pushToBucket m c L).length = max L.length (c + 1) := by
  intro c
  induction c with
  | zero =>
    intro L
    cases L with
    | nil => simp [pushToBucket]
    | cons b rest => simp [pushToBucket]
  | succ c ih =>
    intro L
    cases L with
    | nil => simp [pushToBucket, ih]
    | cons b rest =>
      simp only [pushToBucket, List.length_cons, ih]
      omega

theorem flatten_eq_range_flatMap {α : Type} (L : List (List α)) :
    L.flatten = (List.range L.length).flatMap (fun k => L.getD k []) := by
  induction L with
  | nil => simp
  | cons b rest ih =>
    rw [List.length_cons, List.range_succ_eq_map, List.flatMap_cons, List.flatMap_map,
      List.flatten_cons, ih]
    simp

namespace CPP_GlobalsInfo

theorem addInstances_addr (ms : List CPP_GlobalInfo) (gls : CPP_GlobalsInfo) :
    (gls.addInstances ms).1.addr = gls.addr := by
  induction ms generalizing gls with
  | nil => rfl
  | cons g rest ih =>
    simp only [addInstances]
    rw [ih]
    rfl

theorem addInstances_size (ms : List CPP_GlobalInfo) (gls : CPP_GlobalsInfo) :
    (gls.addInstances ms).1.size = gls.size + ms.length := by
  induction ms generalizing gls with
  | nil => simp [addInstances]
  | cons g rest ih =>
    simp only [addInstances]
    rw [ih]
    simp only [AddInstance, List.length_cons, Nat.cast_add, Nat.cast_one]
    omega

theorem addInstances_length (ms : List CPP_GlobalInfo) (gls : CPP_GlobalsInfo) :
    (gls.addInstances ms).2.length = ms.length := by
  induction ms generalizing gls with
  | nil => rfl
  | cons g rest ih => simp [addInstances, ih]

theorem addInstances_getElem? (ms : List CPP_GlobalInfo) (gls : CPP_GlobalsInfo) (i : Nat)
    (m : CPP_GlobalInfo) (h : (gls.addInstances ms).2[i]? = some m) :
    ∃ m0, ms[i]? = some m0 ∧ m = m0.SetOffset (some gls.addr) (gls.size + i) := by
  induction ms generalizing gls i with
  | nil => simp [addInstances] at h
  | cons g rest ih =>
    cases i with
    | zero =>
      simp only [addInstances, List.getElem?_cons_zero, Option.some.injEq] at h
      refine ⟨g, by simp, ?_⟩
      rw [← h]
      simp [AddInstance]
    | succ i =>
      simp only [addInstances, List.getElem?_cons_succ] at h
      obtain ⟨m0, hm0, hm⟩ := ih (gls.AddInstance g).1 i h
      refine ⟨m0, by simpa using hm0, ?_⟩
      rw [hm]
      simp only [AddInstance, Nat.cast_add, Nat.cast_one]
      congr 1
      omega

theorem addInstances_bucket (ms : List CPP_GlobalInfo) (gls : CPP_GlobalsInfo) (k : Nat) :
    (gls.addInstances ms).1.instances.getD k [] =
      gls.instances.getD k [] ++
        (gls.addInstances ms).2.filter (fun m => decide (m.InitCohort = k)) := by
  induction ms generalizing gls with
  | nil => simp [addInstances]
  | cons g rest ih =>
    simp only [addInstances]
    rw [ih]
    simp only [AddInstance, getD_pushToBucket]
    by_cases hk : k = (g.SetOffset (some gls.addr) gls.size).InitCohort
    · have hk2 : (g.SetOffset (some gls.addr) gls.size).InitCohort = k := hk.symm
      simp [List.filter_cons, hk2]
    · have hk2 : ¬ (g.SetOffset (some gls.addr) gls.size).InitCohort = k :=
        fun c => hk c.symm
      simp [List.filter_cons, hk, hk2]

theorem addInstances_members_perm (ms : List CPP_GlobalInfo) (gls : CPP_GlobalsInfo) :
    (gls.addInstances ms).1.members.Perm (gls.members ++ (gls.addInstances ms).2) := by
  induction ms generalizing gls with
  | nil => simp [addInstances]
  | cons g rest ih =>
    simp only [addInstances]
    refine (ih (gls.AddInstance g).1).trans ?_
    have h1 : (gls.AddInstance g).1.members.Perm ((gls.AddInstance g).2 :: gls.members) :=
      flatten_pushToBucket_perm _ _ _
    exact (h1.append_right _).trans (by simpa using List.perm_middle.symm)

theorem addInstances_offsets (ms : List CPP_GlobalInfo) (gls : CPP_GlobalsInfo) :
    (gls.addInstances ms).2.Pairwise (fun a b => a.Offset < b.Offset) ∧
    ∀ m ∈ (gls.addInstances ms).2, gls.size ≤ m.Offset := by
  induction ms generalizing gls with
  | nil => simp [addInstances]
  | cons g rest ih =>
    obtain ⟨hpw, hge⟩ := ih (gls.AddInstance g).1
    have hsize : (gls.AddInstance g).1.size = gls.size + 1 := rfl
    have hoff : (gls.AddInstance g).2.Offset = gls.size := rfl
    simp only [addInstances]
    refine ⟨List.pairwise_cons.2 ⟨?_, hpw⟩, ?_⟩
    · intro b hb
      have := hge b hb
      rw [hsize] at this
      rw [hoff]
      omega
    · intro m hm
      rcases List.mem_cons.1 hm with h | h
      · rw [h, hoff]
      · have := hge m h
        rw [hsize] at this
        omega

theorem addInstances_buckets_length (ms : List CPP_GlobalInfo) (gls : CPP_GlobalsInfo) :
    gls.instances.length ≤ (gls.addInstances ms).1.instances.length ∧
    (∀ m ∈ ms, m.InitCohort < (gls.addInstances ms).1.instances.length) ∧
    ((gls.addInstances ms).1.instances.length = gls.instances.length ∨
      ∃ m ∈ ms, (gls.addInstances ms).1.instances.length = m.InitCohort + 1) := by
  induction ms generalizing gls with
  | nil => simp [addInstances]
  | cons g rest ih =>
    obtain ⟨hle, hall, hatt⟩ := ih (gls.AddInstance g).1
    have hlen : (gls.AddInstance g).1.instances.length =
        max gls.instances.length (g.InitCohort + 1) := length_pushToBucket _ _ _
    simp only [addInstances]
    refine ⟨by omega, ?_, ?_⟩
    · intro m hm
      rcases List.mem_cons.1 hm with h | h
      · rw [h]
        omega
      · exact hall m h
    · rcases hatt with h | ⟨m, hm, h⟩
      · rw [h, hlen]
        by_cases hc : g.InitCohort + 1 ≤ gls.instances.length
        · left
          omega
        · right
          exact ⟨g, List.mem_cons_self _ _, by omega⟩
      · right
        exact ⟨m, List.mem_cons_of_mem _ hm, h⟩

theorem addInstances_map_initializer (ms : List CPP_GlobalInfo) (gls : CPP_GlobalsInfo) :
    (gls.addInstances ms).2.map CPP_GlobalInfo.Initializer =
      ms.map CPP_GlobalInfo.Initializer := by
  induction ms generalizing gls with
  | nil => rfl
  | cons g rest ih =>
    simp only [addInstances, List.map_cons, ih]
    rfl

theorem generateInitializers_eq_map (gls : CPP_GlobalsInfo) :
    gls.GenerateInitializers = gls.members.map CPP_GlobalInfo.Initializer := by
  unfold GenerateInitializers members
  induction gls.instances with
  | nil => rfl
  | cons b rest ih => simp [List.flatMap_cons, ih]

theorem members_create_addInstances (addr : GlobalsPtr) (tag type : String)
    (ms : List CPP_GlobalInfo) :
    ((create addr tag type).addInstances ms).1.members =
      (List.range ((create addr tag type).addInstances ms).1.instances.length).flatMap
        (fun k => ((create addr tag type).addInstances ms).2.filter
          (fun m => decide (m.InitCohort = k))) := by
  unfold members
  rw [flatten_eq_range_flatMap]
  congr 1
  funext k
  rw [addInstances_bucket]
  simp [create]

end CPP_GlobalsInfo

/-- C7: after any sequence of `AddInstance` calls on a fresh group,
`GenerateInitializers` emits the `Initializer()` of every member exactly once,
cohort after cohort from the lowest, and within a cohort in the order the
members were added: the emitted list is that of the members held by the group,
which are the added members reordered by (cohort, offset), the offset of a
member being its position in the sequence of calls. -/
theorem generateInitializers_by_cohort_then_registration (addr : GlobalsPtr)
    (tag type : String) (ms : List CPP_GlobalInfo) :
    ((CPP_GlobalsInfo.create addr tag type).addInstances ms).1.GenerateInitializers =
      ((CPP_GlobalsInfo.create addr tag type).addInstances ms).1.members.map
        CPP_GlobalInfo.Initializer ∧
    ((CPP_GlobalsInfo.create addr tag type).addInstances ms).1.members.Perm
      ((CPP_GlobalsInfo.create addr tag type).addInstances ms).2 ∧
    ((CPP_GlobalsInfo.create addr tag type).addInstances ms).1.GenerateInitializers.Perm
      (ms.map CPP_GlobalInfo.Initializer) ∧
    ((CPP_GlobalsInfo.create addr tag type).addInstances ms).1.members.Pairwise CohortOrder ∧
    (∀ (i : Nat) (m : CPP_GlobalInfo),
      ((CPP_GlobalsInfo.create addr tag type).addInstances ms).2[i]? = some m →
      m.Offset = i ∧ ∃ m0, ms[i]? = some m0 ∧ m.InitCohort = m0.InitCohort ∧
        m.Initializer = m0.Initializer) ∧
    ((CPP_GlobalsInfo.create addr tag type).addInstances ms).1.GenerateInitializers =
      (List.range
        ((CPP_GlobalsInfo.create addr tag type).addInstances ms).1.instances.length).flatMap
        (fun k => ((ms.filter (fun m => decide (m.InitCohort = k))).map
          CPP_GlobalInfo.Initializer)) := by
  have hperm := CPP_GlobalsInfo.addInstances_members_perm ms
    (CPP_GlobalsInfo.create addr tag type)
  have hperm2 : ((CPP_GlobalsInfo.create addr tag type).addInstances ms).1.members.Perm
      ((CPP_GlobalsInfo.create addr tag type).addInstances ms).2 := by
    simpa [CPP_GlobalsInfo.members, CPP_GlobalsInfo.create] using hperm
  have hgen := CPP_GlobalsInfo.generateInitializers_eq_map
    ((CPP_GlobalsInfo.create addr tag type).addInstances ms).1
  have hclosed := CPP_GlobalsInfo.members_create_addInstances addr tag type ms
  have hfilter : ∀ (l : List CPP_GlobalInfo) (g : CPP_GlobalsInfo) (k : Nat),
      ((g.addInstances l).2.filter (fun m => decide (m.InitCohort = k))).map
          CPP_GlobalInfo.Initializer =
        (l.filter (fun m => decide (m.InitCohort = k))).map CPP_GlobalInfo.Initializer := by
    intro l
    induction l with
    | nil => intro g k; rfl
    | cons a rest ih =>
      intro g k
      have hc : (g.AddInstance a).2.InitCohort = a.InitCohort := rfl
      have hi : (g.AddInstance a).2.Initializer = a.Initializer := rfl
      simp only [CPP_GlobalsInfo.addInstances, List.filter_cons, hc]
      by_cases hk : a.InitCohort = k
      · simp [hk, hi, ih]
      · simp [hk, ih]
  refine ⟨hgen, hperm2, ?_, ?_, ?_, ?_⟩
  · rw [hgen, ← CPP_GlobalsInfo.addInstances_map_initializer ms
      (CPP_GlobalsInfo.create addr tag type)]
    exact hperm2.map _
  · rw [hclosed, List.pairwise_flatMap]
    constructor
    · intro k _
      have hoff := (CPP_GlobalsInfo.addInstances_offsets ms
        (CPP_GlobalsInfo.create addr tag type)).1
      refine List.Pairwise.imp_of_mem ?_ (hoff.filter _)
      intro a b ha hb hab
      simp only [List.mem_filter, decide_eq_true_eq] at ha hb
      exact Or.inr ⟨ha.2.trans hb.2.symm, hab⟩
    · refine List.Pairwise.imp ?_ (List.pairwise_lt_range _)
      intro k1 k2 hlt x hx y hy
      simp only [List.mem_filter, decide_eq_true_eq] at hx hy
      left
      rw [hx.2, hy.2]
      exact hlt
  · intro i m hm
    obtain ⟨m0, hm0, hmeq⟩ := CPP_GlobalsInfo.addInstances_getElem? ms
      (CPP_GlobalsInfo.create addr tag type) i m hm
    refine ⟨?_, m0, hm0, ?_, ?_⟩
    · rw [hmeq]
      simp [CPP_GlobalInfo.SetOffset, CPP_GlobalInfo.Offset, CPP_GlobalsInfo.create]
    · rw [hmeq]; rfl
    · rw [hmeq]; rfl
  · rw [hgen, hclosed, List.map_flatMap]
    congr 1
    funext k
    exact hfilter ms _ k

/-- Members of cohorts 1, 0, 2, 0 are emitted as the two of cohort 0 in the
order they were added, then the one of cohort 1, then the one of cohort 2. -/
theorem generateInitializers_by_cohort_then_registration_witness :
    (exampleGroup.addInstances exampleMembers).1.GenerateInitializers =
      ["int", "str", "vec", "tbl"] ∧
    (exampleGroup.addInstances exampleMembers).1.members.Pairwise CohortOrder :=
  ⟨by decide,
   (generateInitializers_by_cohort_then_registration 9 "types" "Type" exampleMembers).2.2.2.1⟩

/-- C8: a group assigns sequential offsets starting at 0.  After `AddInstance`
was called on `n` members of a fresh group, `Size()` is `n`, the member added
by the call number `i` (from 0) has `Offset() == i` and the group as its
owner, whatever its cohort, and the offsets of the members the group holds are
pairwise distinct. -/
theorem addInstance_assigns_sequential_offsets (addr : GlobalsPtr) (tag type : String)
    (ms : List CPP_GlobalInfo) :
    ((CPP_GlobalsInfo.create addr tag type).addInstances ms).1.Size = ms.length ∧
    ((CPP_GlobalsInfo.create addr tag type).addInstances ms).2.length = ms.length ∧
    (∀ (i : Nat) (m : CPP_GlobalInfo),
      ((CPP_GlobalsInfo.create addr tag type).addInstances ms).2[i]? = some m →
      m.Offset = i ∧
      m.gls = some ((CPP_GlobalsInfo.create addr tag type).addInstances ms).1.addr ∧
      ∃ m0, ms[i]? = some m0 ∧ m = m0.SetOffset (some addr) i) ∧
    ((CPP_GlobalsInfo.create addr tag type).addInstances ms).1.members.Perm
      ((CPP_GlobalsInfo.create addr tag type).addInstances ms).2 ∧
    (((CPP_GlobalsInfo.create addr tag type).addInstances ms).1.members.map
      CPP_GlobalInfo.Offset).Nodup := by
  have hperm := CPP_GlobalsInfo.addInstances_members_perm ms
    (CPP_GlobalsInfo.create addr tag type)
  have hperm2 : ((CPP_GlobalsInfo.create addr tag type).addInstances ms).1.members.Perm
      ((CPP_GlobalsInfo.create addr tag type).addInstances ms).2 := by
    simpa [CPP_GlobalsInfo.members, CPP_GlobalsInfo.create] using hperm
  refine ⟨?_, CPP_GlobalsInfo.addInstances_length ms _, ?_, hperm2, ?_⟩
  · have := CPP_GlobalsInfo.addInstances_size ms (CPP_GlobalsInfo.create addr tag type)
    simpa [CPP_GlobalsInfo.Size, CPP_GlobalsInfo.create] using this
  · intro i m hm
    obtain ⟨m0, hm0, hmeq⟩ := CPP_GlobalsInfo.addInstances_getElem? ms
      (CPP_GlobalsInfo.create addr tag type) i m hm
    have hmeq2 : m = m0.SetOffset (some addr) i := by
      rw [hmeq]
      simp [CPP_GlobalsInfo.create]
    refine ⟨?_, ?_, m0, hm0, hmeq2⟩
    · rw [hmeq2]; rfl
    · rw [CPP_GlobalsInfo.addInstances_addr, hmeq2]
      rfl
  · rw [(hperm2.map CPP_GlobalInfo.Offset).nodup_iff]
    have hoff := (CPP_GlobalsInfo.addInstances_offsets ms
      (CPP_GlobalsInfo.create addr tag type)).1
    unfold List.Nodup
    rw [List.pairwise_map]
    exact hoff.imp (fun h => ne_of_lt h)

/-- The four members get the offsets 0, 1, 2, 3 in the order they were added,
although their cohorts are 1, 0, 2, 0, and the group has size 4. -/
theorem addInstance_assigns_sequential_offsets_witness :
    (exampleGroup.addInstances exampleMembers).1.Size = 4 ∧
    (exampleGroup.addInstances exampleMembers).2.map
        (fun m => (m.Offset, m.gls, m.InitCohort)) =
      [(0, some 9, 1), (1, some 9, 0), (2, some 9, 2), (3, some 9, 0)] :=
  ⟨(addInstance_assigns_sequential_offsets 9 "types" "Type" exampleMembers).1, by decide⟩

/-- C9: `AddInstance` appends the member to the bucket with the index of its
`InitCohort()` and leaves the other buckets as they were; for a group to which
at least one member was added, `MaxCohort()` is the largest `InitCohort()`
among the members added. -/
theorem addInstance_bucket_and_maxCohort (gls : CPP_GlobalsInfo) (g : CPP_GlobalInfo)
    (addr : GlobalsPtr) (tag type : String) (ms : List CPP_GlobalInfo) :
    (∀ k, (gls.AddInstance g).1.instances.getD k [] =
      if k = g.InitCohort then gls.instances.getD k [] ++ [(gls.AddInstance g).2]
      else gls.instances.getD k []) ∧
    (∀ m ∈ ((CPP_GlobalsInfo.create addr tag type).addInstances ms).2,
      m ∈ ((CPP_GlobalsInfo.create addr tag type).addInstances ms).1.instances.getD
        m.InitCohort []) ∧
    (ms ≠ [] →
      (∀ m ∈ ms, (m.InitCohort : Int) ≤
        ((CPP_GlobalsInfo.create addr tag type).addInstances ms).1.MaxCohort) ∧
      ∃ m ∈ ms, (m.InitCohort : Int) =
        ((CPP_GlobalsInfo.create addr tag type).addInstances ms).1.MaxCohort) := by
  refine ⟨?_, ?_, ?_⟩
  · intro k
    exact getD_pushToBucket _ _ _ k
  · intro m hm
    rw [CPP_GlobalsInfo.addInstances_bucket]
    apply List.mem_append_right
    simp [List.mem_filter, hm]
  · intro hne
    obtain ⟨_, hall, hatt⟩ := CPP_GlobalsInfo.addInstances_buckets_length ms
      (CPP_GlobalsInfo.create addr tag type)
    constructor
    · intro m hm
      have := hall m hm
      unfold CPP_GlobalsInfo.MaxCohort
      omega
    · rcases hatt with h | ⟨m, hm, h⟩
      · exfalso
        obtain ⟨m, hm⟩ := List.exists_mem_of_ne_nil ms hne
        have := hall m hm
        rw [h] at this
        simp [CPP_GlobalsInfo.create] at this
      · refine ⟨m, hm, ?_⟩
        unfold CPP_GlobalsInfo.MaxCohort
        omega

/-- With members of cohorts 1, 0, 2, 0 the group has the buckets 0, 1, 2 and
`MaxCohort()` is 2. -/
theorem addInstance_bucket_and_maxCohort_witness :
    (exampleGroup.addInstances exampleMembers).1.MaxCohort = 2 ∧
    (exampleGroup.addInstances exampleMembers).1.instances.map
        (fun b => b.map CPP_GlobalInfo.Initializer) = [["int", "str"], ["vec"], ["tbl"]] ∧
    ∃ m ∈ exampleMembers, (m.InitCohort : Int) =
      (exampleGroup.addInstances exampleMembers).1.MaxCohort :=
  ⟨by decide, by decide,
   ((addInstance_bucket_and_maxCohort exampleGroup (CPP_GlobalInfo.grouped 0 "int") 9
      "types" "Type" exampleMembers).2.2 (by decide)).2⟩

/-- C10: the name of a global follows its group membership.  After
`SetOffset(g, k)` with a non-null group `g`, `Name()` is `g->Name(k)` whatever
the `name` member holds; a stand-alone global, built by the two-argument
constructor and never given a group, has the name passed to the constructor
and `Offset()` -1. -/
theorem name_follows_group_membership (GlobalsName : GlobalsPtr → Int → String)
    (m : CPP_GlobalInfo) (g : GlobalsPtr) (k : Int) (_name _type init : String) :
    (m.SetOffset (some g) k).Name GlobalsName = GlobalsName g k ∧
    (m.SetOffset (some g) k).Offset = k ∧
    (CPP_GlobalInfo.standAlone _name _type init).Name GlobalsName = _name ∧
    (CPP_GlobalInfo.standAlone _name _type init).Offset = -1 :=
  ⟨rfl, rfl, rfl, rfl⟩

/-- A member named "stale" that is given offset 3 of the group at address 9 is
named after the group, and a stand-alone global keeps its own name. -/
theorem name_follows_group_membership_witness :
    ((CPP_GlobalInfo.standAlone "stale" "T" "init").SetOffset (some 9) 3).Name
        exampleGlobalsName = "9[3]" ∧
    (CPP_GlobalInfo.standAlone "gl1" "T" "init").Name exampleGlobalsName = "gl1" :=
  ⟨((name_follows_group_membership exampleGlobalsName
      (CPP_GlobalInfo.standAlone "stale" "T" "init") 9 3 "gl1" "T" "init").1).trans
      (by decide),
   (name_follows_group_membership exampleGlobalsName
      (CPP_GlobalInfo.standAlone "stale" "T" "init") 9 3 "gl1" "T" "init").2.2.1⟩

/-! ### Cohorts -/

/-- C11: a global built by either constructor of `CPP_GlobalInfo` reports
`InitCohort() == 0`, and `SetOffset` never changes `InitCohort()`; only the
constructor of a derived class raises the cohort. -/
theorem initCohort_zero_unless_raised (_name _type initializer : String)
    (m : CPP_GlobalInfo) (g : Option GlobalsPtr) (k : Int) (cohort : Nat) :
    (CPP_GlobalInfo.standAlone _name _type initializer).InitCohort = 0 ∧
    (CPP_GlobalInfo.inGroup initializer).InitCohort = 0 ∧
    (m.SetOffset g k).InitCohort = m.InitCohort ∧
    (CPP_GlobalInfo.grouped cohort initializer).InitCohort = cohort ∧
    CPP_GlobalInfo.grouped 0 initializer = CPP_GlobalInfo.inGroup initializer :=
  ⟨rfl, rfl, rfl, rfl, rfl⟩

theorem le_foldl_compoundCohort (l : List (Option CPP_GlobalInfo)) (c : Nat) :
    c ≤ l.foldl
      (fun c e =>
        match e with
        | some gi => max c (gi.InitCohort + 1)
        | none => c) c := by
  induction l generalizing c with
  | nil => exact le_refl _
  | cons e rest ih =>
    cases e with
    | none => exact ih c
    | some gi => exact le_trans (le_max_left _ _) (ih _)

theorem compoundCohort_gt (l : List (Option CPP_GlobalInfo)) (gi : CPP_GlobalInfo)
    (h : some gi ∈ l) : gi.InitCohort + 1 ≤ compoundCohort l := by
  unfold compoundCohort
  generalize 0 = c
  induction l generalizing c with
  | nil => simp at h
  | cons e rest ih =>
    rcases List.mem_cons.1 h with he | hrest
    · subst he
      exact le_trans (le_max_right _ _) (le_foldl_compoundCohort rest _)
    · exact ih hrest _

/-- C12, as the claim states it, fails: a record type whose field has the type
of the record itself embeds a type, itself, whose cohort is not smaller than
its own. -/
theorem compound_cohort_above_embedded_fails : ¬ CohortsAboveEmbedded selfRecordGroup := by
  intro h
  have := h (selfRecordInfo, [selfRecordInfo]) (List.mem_singleton.2 rfl) selfRecordInfo
    (List.mem_singleton.2 rfl)
  simp only at this
  omega

/-- C12, amended: the init cohort of a compound type info (type-of-type,
vector, list, table, func, record) is at least one greater than the init
cohort of every embedded type that has an info when the compound info is
built, so it is in a later cohort than each of them. -/
theorem compound_cohort_above_available_embedded (gi : CPP_GlobalInfo)
    (embedded : List (Option CPP_GlobalInfo)) (one : Option CPP_GlobalInfo)
    (initializer : String) :
    (one = some gi → gi.InitCohort + 1 ≤ (TypeTypeInfo one initializer).InitCohort ∧
      gi.InitCohort + 1 ≤ (VectorTypeInfo one initializer).InitCohort) ∧
    (some gi ∈ embedded → gi.InitCohort + 1 ≤ (ListTypeInfo embedded initializer).InitCohort ∧
      gi.InitCohort + 1 ≤ (RecordTypeInfo embedded initializer).InitCohort) ∧
    (some gi ∈ one :: embedded →
      gi.InitCohort + 1 ≤ (TableTypeInfo one embedded initializer).InitCohort ∧
      gi.InitCohort + 1 ≤ (FuncTypeInfo one embedded initializer).InitCohort) := by
  refine ⟨?_, ?_, ?_⟩
  · intro h
    have hm : some gi ∈ [one] := by simp [h]
    exact ⟨compoundCohort_gt _ gi hm, compoundCohort_gt _ gi hm⟩
  · intro h
    exact ⟨compoundCohort_gt _ gi h, compoundCohort_gt _ gi h⟩
  · intro h
    exact ⟨compoundCohort_gt _ gi h, compoundCohort_gt _ gi h⟩

/-- A vector of a base type is in cohort 1, and a table indexed by that vector
and yielding the base type is in cohort 2. -/
theorem compound_cohort_above_available_embedded_witness :
    exampleBaseInfo.InitCohort + 1 ≤ (VectorTypeInfo (some exampleBaseInfo) "vec").InitCohort ∧
    (VectorTypeInfo (some exampleBaseInfo) "vec").InitCohort + 1 ≤
      (TableTypeInfo (some (VectorTypeInfo (some exampleBaseInfo) "vec"))
        [some exampleBaseInfo] "tbl").InitCohort :=
  ⟨((compound_cohort_above_available_embedded exampleBaseInfo [] (some exampleBaseInfo)
      "vec").1 rfl).2,
   ((compound_cohort_above_available_embedded (VectorTypeInfo (some exampleBaseInfo) "vec")
      [some exampleBaseInfo] (some (VectorTypeInfo (some exampleBaseInfo) "vec")) "tbl").2.2
      (by simp)).1⟩

/-- C19: `NextName()` is `Name(Size())`, and for every group `NextName()`
before `AddInstance(m)` is the `Name()` of `m` after it. -/
theorem nextName_is_name_of_next_member (GlobalsName : GlobalsPtr → Int → String)
    (gls : CPP_GlobalsInfo) (m : CPP_GlobalInfo) :
    gls.NextName GlobalsName = gls.Name GlobalsName gls.Size ∧
    (gls.AddInstance m).2.Name GlobalsName = gls.NextName GlobalsName ∧
    (gls.AddInstance m).1.NextName GlobalsName = gls.Name GlobalsName (gls.Size + 1) :=
  ⟨rfl, rfl, rfl⟩

/-- In the example group the name announced before each call is the name the
added member has afterwards. -/
theorem nextName_is_name_of_next_member_witness :
    exampleGroup.NextName exampleGlobalsName = "9[0]" ∧
    (exampleGroup.AddInstance (CPP_GlobalInfo.grouped 1 "vec")).2.Name exampleGlobalsName =
      "9[0]" :=
  ⟨by decide,
   ((nextName_is_name_of_next_member exampleGlobalsName exampleGroup
      (CPP_GlobalInfo.grouped 1 "vec")).2.1).trans (by decide)⟩

/-! ### The init hook and the load hash -/

theorem genLoad_total_hash {Time : Type} (env : InitsEnv Time) (t : Time) (total_hash : Nat)
    (module_names : List String) :
    (GenLoad env t total_hash module_names).2 =
      env.merge_p_hashes total_hash (env.hash_double t) := rfl

theorem genLoad_eq_concat {Time : Type} (env : InitsEnv Time) (t : Time) (total_hash : Nat)
    (module_names : List String) :
    (GenLoad env t total_hash module_names).1 =
      ([.Emit "register_scripts__CPP(%s, standalone_init__CPP);"
          [env.FmtHash (env.merge_p_hashes total_hash (env.hash_double t))]] ++
        (module_names.filter (fun m => m != "GLOBAL")).map
          (fun m => OutCall.printf "module %s;\n" [.str m]) ++
        (if module_names.length > 0 then [OutCall.printf "module GLOBAL;\n\n" []] else [])) ++
      [.printf "global init_CPP_%llu = load_CPP(%llu);\n"
        [.llu (env.merge_p_hashes total_hash (env.hash_double t)),
         .llu (env.merge_p_hashes total_hash (env.hash_double t))]] := rfl

theorem genLoad_getLast? {Time : Type} (env : InitsEnv Time) (t : Time) (total_hash : Nat)
    (module_names : List String) :
    (GenLoad env t total_hash module_names).1.getLast? =
      some (.printf "global init_CPP_%llu = load_CPP(%llu);\n"
        [.llu (env.merge_p_hashes total_hash (env.hash_double t)),
         .llu (env.merge_p_hashes total_hash (env.hash_double t))]) := by
  rw [genLoad_eq_concat, List.getLast?_concat]

theorem register_mem_genLoad {Time : Type} (env : InitsEnv Time) (t : Time) (total_hash : Nat)
    (module_names : List String) :
    OutCall.Emit "register_scripts__CPP(%s, standalone_init__CPP);"
        [env.FmtHash (env.merge_p_hashes total_hash (env.hash_double t))] ∈
      (GenLoad env t total_hash module_names).1 := by
  simp [GenLoad]

/-- C20: the generated `hook_in_init` always pushes `init__CPP` onto
`CPP_init_funcs` first and ends with `return 0;`; between the two it holds the
output of `GenLoad`, with the `register_scripts__CPP(..., standalone_init__CPP)`
call, exactly when the compilation is standalone. -/
theorem genInitHook_registers_initializer {Time : Type} (env : InitsEnv Time)
    (standalone : Bool) (t : Time) (total_hash : Nat) (module_names : List String) :
    (GenInitHook env standalone t total_hash module_names).1 =
      [.NL, .Emit "int hook_in_init()" [], .StartBlock,
       .Emit "CPP_init_funcs.push_back(init__CPP);" []] ++
      (if standalone then (GenLoad env t total_hash module_names).1 else []) ++
      [.Emit "return 0;" [], .EndBlock false, .NL,
       .Emit "static int dummy = hook_in_init();\n" []] ∧
    OutCall.Emit "CPP_init_funcs.push_back(init__CPP);" [] ∈
      (GenInitHook env standalone t total_hash module_names).1 ∧
    OutCall.Emit "return 0;" [] ∈ (GenInitHook env standalone t total_hash module_names).1 ∧
    ((∃ args, OutCall.Emit "register_scripts__CPP(%s, standalone_init__CPP);" args ∈
        (GenInitHook env standalone t total_hash module_names).1) ↔ standalone = true) := by
  cases standalone with
  | false =>
    refine ⟨rfl, by simp [GenInitHook], by simp [GenInitHook], ?_⟩
    simp [GenInitHook]
  | true =>
    refine ⟨rfl, by simp [GenInitHook], by simp [GenInitHook], ?_⟩
    simp only [iff_true]
    refine ⟨[env.FmtHash (env.merge_p_hashes total_hash (env.hash_double t))], ?_⟩
    simp only [GenInitHook, if_true, List.mem_append]
    exact Or.inl (Or.inr (register_mem_genLoad env t total_hash module_names))

/-- A standalone hook holds the call of `register_scripts__CPP`, the hook of a
compilation that is not standalone does not. -/
theorem genInitHook_registers_initializer_witness :
    (∃ args, OutCall.Emit "register_scripts__CPP(%s, standalone_init__CPP);" args ∈
      (GenInitHook exampleInitsEnv true 1700000000 12345 ["GLOBAL", "Foo"]).1) ∧
    ¬ (∃ args, OutCall.Emit "register_scripts__CPP(%s, standalone_init__CPP);" args ∈
      (GenInitHook exampleInitsEnv false 1700000000 12345 ["GLOBAL", "Foo"]).1) :=
  ⟨(genInitHook_registers_initializer exampleInitsEnv true 1700000000 12345
      ["GLOBAL", "Foo"]).2.2.2.2 rfl,
   fun h => Bool.noConfusion ((genInitHook_registers_initializer exampleInitsEnv false
      1700000000 12345 ["GLOBAL", "Foo"]).2.2.2.1 h)⟩

/-- C16, as the claim states it, fails: two standalone compilations of the same
input, with the same `total_hash` and module names, that read the clock one
second apart pass different hashes to `register_scripts__CPP` and print
different placeholder scripts. -/
theorem genLoad_hash_differs_between_runs :
    (GenInitHook exampleInitsEnv true 1700000000 12345 ["GLOBAL", "Foo"]).1 ≠
      (GenInitHook exampleInitsEnv true 1700000001 12345 ["GLOBAL", "Foo"]).1 ∧
    (GenLoad exampleInitsEnv 1700000000 12345 ["GLOBAL", "Foo"]).2 = 4355241278 ∧
    (GenLoad exampleInitsEnv 1700000001 12345 ["GLOBAL", "Foo"]).2 = 4355241265 := by
  decide

/-- C16, amended: the output of `GenLoad` is a function of `total_hash`, of the
module names in the order in which they are met, and of the time it reads.
Within one run the hash passed to `register_scripts__CPP`, the hash printed
twice in the placeholder script and the new `total_hash` are the same value,
`total_hash` merged with a hash of the time; two runs of `GenLoad` with the
same `total_hash` and the same module names in the same order give the same
output exactly when these merged hashes are equal; and the hook of a
compilation that is not standalone does not depend on the time. -/
theorem genLoad_hash_unique_to_compilation {Time : Type} (env : InitsEnv Time)
    (t1 t2 : Time) (total_hash : Nat) (module_names : List String) :
    (GenLoad env t1 total_hash module_names).2 =
      env.merge_p_hashes total_hash (env.hash_double t1) ∧
    OutCall.Emit "register_scripts__CPP(%s, standalone_init__CPP);"
        [env.FmtHash (GenLoad env t1 total_hash module_names).2] ∈
      (GenLoad env t1 total_hash module_names).1 ∧
    OutCall.printf "global init_CPP_%llu = load_CPP(%llu);\n"
        [.llu (GenLoad env t1 total_hash module_names).2,
         .llu (GenLoad env t1 total_hash module_names).2] ∈
      (GenLoad env t1 total_hash module_names).1 ∧
    ((GenLoad env t1 total_hash module_names).1 = (GenLoad env t2 total_hash module_names).1 ↔
      env.merge_p_hashes total_hash (env.hash_double t1) =
        env.merge_p_hashes total_hash (env.hash_double t2)) ∧
    GenInitHook env false t1 total_hash module_names =
      GenInitHook env false t2 total_hash module_names := by
  refine ⟨rfl, register_mem_genLoad env t1 total_hash module_names, ?_, ?_, rfl⟩
  · rw [genLoad_total_hash, genLoad_eq_concat]
    exact List.mem_append_right _ (List.mem_singleton.2 rfl)
  · constructor
    · intro heq
      have h1 := genLoad_getLast? env t1 total_hash module_names
      have h2 := genLoad_getLast? env t2 total_hash module_names
      rw [heq, h2] at h1
      simp only [Option.some.injEq, OutCall.printf.injEq, List.cons.injEq,
        PrintfArg.llu.injEq, and_true, true_and, and_self] at h1
      exact h1.symm
    · intro heq
      simp only [GenLoad, heq]

/-! ### Mapping slots -/

theorem lookupInner_append_self (i : Int) (s : Nat) (inner : List (Int × Nat))
    (h : lookupInner i inner = none) : lookupInner i (inner ++ [(i, s)]) = some s := by
  induction inner with
  | nil => simp [lookupInner]
  | cons e rest ih =>
    obtain ⟨k, s0⟩ := e
    by_cases hk : k = i
    · simp [lookupInner, hk] at h
    · simp only [lookupInner, hk, if_false] at h
      simp [lookupInner, hk, ih h]

theorem lookupInner_append_other (i i2 : Int) (s : Nat) (inner : List (Int × Nat))
    (h : i2 ≠ i) : lookupInner i2 (inner ++ [(i, s)]) = lookupInner i2 inner := by
  induction inner with
  | nil => simp [lookupInner, Ne.symm h]
  | cons e rest ih =>
    obtain ⟨k, s0⟩ := e
    by_cases hk : k = i2
    · simp [lookupInner, hk]
    · simp [lookupInner, hk, ih]

theorem lookupSlot_insertSlot_self (t : Nat) (i : Int) (s : Nat) (m : SlotMap)
    (h : lookupSlot t i m = none) : lookupSlot t i (insertSlot t i s m) = some s := by
  induction m with
  | nil => simp [insertSlot, lookupSlot, lookupInner]
  | cons e rest ih =>
    obtain ⟨k, inner⟩ := e
    by_cases hk : k = t
    · simp only [lookupSlot, hk, if_true] at h
      simp [insertSlot, lookupSlot, hk, lookupInner_append_self i s inner h]
    · simp only [lookupSlot, hk, if_false] at h
      simp [insertSlot, lookupSlot, hk, ih h]

theorem lookupSlot_insertSlot_other (t t2 : Nat) (i i2 : Int) (s : Nat) (m : SlotMap)
    (h : ¬ (t2 = t ∧ i2 = i)) :
    lookupSlot t2 i2 (insertSlot t i s m) = lookupSlot t2 i2 m := by
  induction m with
  | nil =>
    by_cases ht : t = t2
    · subst ht
      have hi : ¬ i = i2 := fun c => h ⟨rfl, c.symm⟩
      simp [insertSlot, lookupSlot, lookupInner, hi]
    · simp [insertSlot, lookupSlot, ht]
  | cons e rest ih =>
    obtain ⟨k, inner⟩ := e
    by_cases hk : k = t
    · subst hk
      by_cases hk2 : k = t2
      · subst hk2
        have hi : i2 ≠ i := fun c => h ⟨rfl, c⟩
        simp [insertSlot, lookupSlot, lookupInner_append_other i i2 s inner hi]
      · simp [insertSlot, lookupSlot, hk2]
    · by_cases hk2 : k = t2
      · subst hk2
        simp [insertSlot, lookupSlot, hk]
      · simp [insertSlot, lookupSlot, hk, hk2, ih]

theorem countEntries_insertSlot (t : Nat) (i : Int) (s : Nat) (m : SlotMap) :
    countEntries (insertSlot t i s m) = countEntries m + 1 := by
  induction m with
  | nil => simp [insertSlot, countEntries]
  | cons e rest ih =>
    obtain ⟨k, inner⟩ := e
    by_cases hk : k = t
    · simp only [insertSlot, hk, if_true, countEntries, List.map_cons, List.sum_cons,
        List.length_append, List.length_singleton]
      omega
    · simp only [countEntries] at ih
      simp only [insertSlot, hk, if_false, countEntries, List.map_cons, List.sum_cons, ih]
      omega

namespace SlotTable

theorem assign_of_some {δ : Type} (tb : SlotTable δ) (t : Nat) (i : Int) (d : δ) (s : Nat)
    (h : lookupSlot t i tb.mappings = some s) : tb.assign t i d = (s, tb) := by
  simp [assign, h]

theorem assign_of_none {δ : Type} (tb : SlotTable δ) (t : Nat) (i : Int) (d : δ)
    (h : lookupSlot t i tb.mappings = none) :
    tb.assign t i d =
      (tb.num_mappings,
       { mappings := insertSlot t i tb.num_mappings tb.mappings,
         num_mappings := tb.num_mappings + 1,
         decls := tb.decls ++ [(t, d)] }) := by
  simp [assign, h]

theorem assign_result {δ : Type} (tb : SlotTable δ) (t : Nat) (i : Int) (d : δ) :
    lookupSlot t i (tb.assign t i d).2.mappings = some (tb.assign t i d).1 := by
  cases h : lookupSlot t i tb.mappings with
  | some s => rw [assign_of_some tb t i d s h]; exact h
  | none =>
    rw [assign_of_none tb t i d h]
    exact lookupSlot_insertSlot_self t i _ _ h

theorem assign_persist {δ : Type} (tb : SlotTable δ) (t : Nat) (i : Int) (d : δ)
    (t2 : Nat) (i2 : Int) (s : Nat) (h2 : lookupSlot t2 i2 tb.mappings = some s) :
    lookupSlot t2 i2 (tb.assign t i d).2.mappings = some s := by
  cases h : lookupSlot t i tb.mappings with
  | some s0 => rw [assign_of_some tb t i d s0 h]; exact h2
  | none =>
    rw [assign_of_none tb t i d h]
    have hne : ¬ (t2 = t ∧ i2 = i) := by
      rintro ⟨rfl, rfl⟩
      rw [h] at h2
      exact Option.noConfusion h2
    simp only
    rw [lookupSlot_insertSlot_other t t2 i i2 _ _ hne]
    exact h2

theorem num_mappings_le_assign {δ : Type} (tb : SlotTable δ) (t : Nat) (i : Int) (d : δ) :
    tb.num_mappings ≤ (tb.assign t i d).2.num_mappings := by
  cases h : lookupSlot t i tb.mappings with
  | some s0 => rw [assign_of_some tb t i d s0 h]
  | none => rw [assign_of_none tb t i d h]; exact Nat.le_succ _

theorem wf_empty {δ : Type} (declOf : Nat → Int → δ) :
    WF declOf ({ mappings := [], num_mappings := 0, decls := [] } : SlotTable δ) where
  bound := by intro t i s h; simp [lookupSlot] at h
  inj := by intro t i t2 i2 s h; simp [lookupSlot] at h
  surj := by intro s h; simp at h
  count := rfl
  len := rfl
  decl_at := by intro t i s h; simp [lookupSlot] at h

theorem wf_assign {δ : Type} (declOf : Nat → Int → δ) (tb : SlotTable δ) (t : Nat) (i : Int)
    (hwf : WF declOf tb) : WF declOf (tb.assign t i (declOf t i)).2 := by
  cases h : lookupSlot t i tb.mappings with
  | some s0 => rw [assign_of_some tb t i _ s0 h]; exact hwf
  | none =>
    rw [assign_of_none tb t i _ h]
    have hlook : ∀ t2 i2 s, lookupSlot t2 i2 (insertSlot t i tb.num_mappings tb.mappings) =
        some s → (t2 = t ∧ i2 = i ∧ s = tb.num_mappings) ∨
          (¬ (t2 = t ∧ i2 = i) ∧ lookupSlot t2 i2 tb.mappings = some s) := by
      intro t2 i2 s hs
      by_cases hp : t2 = t ∧ i2 = i
      · obtain ⟨rfl, rfl⟩ := hp
        rw [lookupSlot_insertSlot_self _ _ _ _ h] at hs
        exact Or.inl ⟨rfl, rfl, (Option.some.inj hs).symm⟩
      · rw [lookupSlot_insertSlot_other t t2 i i2 _ _ hp] at hs
        exact Or.inr ⟨hp, hs⟩
    constructor
    · intro t2 i2 s hs
      rcases hlook t2 i2 s hs with ⟨-, -, rfl⟩ | ⟨-, hold⟩
      · exact Nat.lt_succ_self _
      · exact Nat.lt_succ_of_lt (hwf.bound t2 i2 s hold)
    · intro t2 i2 t3 i3 s h2 h3
      rcases hlook t2 i2 s h2 with ⟨rfl, rfl, rfl⟩ | ⟨-, hold2⟩
      · rcases hlook t3 i3 _ h3 with ⟨rfl, rfl, -⟩ | ⟨-, hold3⟩
        · exact ⟨rfl, rfl⟩
        · exact absurd (hwf.bound t3 i3 _ hold3) (lt_irrefl _)
      · rcases hlook t3 i3 s h3 with ⟨rfl, rfl, rfl⟩ | ⟨-, hold3⟩
        · exact absurd (hwf.bound t2 i2 _ hold2) (lt_irrefl _)
        · exact hwf.inj t2 i2 t3 i3 s hold2 hold3
    · intro s hs
      by_cases hnew : s = tb.num_mappings
      · exact ⟨t, i, by rw [hnew]; exact lookupSlot_insertSlot_self _ _ _ _ h⟩
      · have hlt : s < tb.num_mappings := by
          simp only at hs
          omega
        obtain ⟨t2, i2, h2⟩ := hwf.surj s hlt
        refine ⟨t2, i2, ?_⟩
        have hp : ¬ (t2 = t ∧ i2 = i) := by
          rintro ⟨rfl, rfl⟩
          rw [h] at h2
          exact Option.noConfusion h2
        simp only
        rw [lookupSlot_insertSlot_other t t2 i i2 _ _ hp]
        exact h2
    · simp only
      rw [countEntries_insertSlot, hwf.count]
    · simp [hwf.len]
    · intro t2 i2 s hs
      rcases hlook t2 i2 s hs with ⟨rfl, rfl, rfl⟩ | ⟨-, hold⟩
      · simp only
        rw [← hwf.len]
        simp
      · have hlt := hwf.bound t2 i2 s hold
        have := hwf.decl_at t2 i2 s hold
        simp only
        rw [List.getElem?_append_left (by rw [hwf.len]; exact hlt)]
        exact this

end SlotTable

theorem genField_fields (env : LayoutEnv) (rt : Nat) (f : Int) (st : LayoutMaps) :
    (GenField env rt f st).2.fields =
      if env.fieldExtended rt f then (st.fields.assign rt f (env.FieldDecl rt f)).2
      else st.fields := by
  unfold GenField
  split <;> rfl

theorem genField_enums (env : LayoutEnv) (rt : Nat) (f : Int) (st : LayoutMaps) :
    (GenField env rt f st).2.enums = st.enums := by
  unfold GenField
  split <;> rfl

theorem genEnum_enums (env : LayoutEnv) (et : Nat) (v : Int) (st : LayoutMaps) :
    (GenEnum env et v st).2.enums =
      if env.enumExtended et then (st.enums.assign et v (env.EnumName et v)).2
      else st.enums := by
  unfold GenEnum
  split <;> rfl

theorem genEnum_fields (env : LayoutEnv) (et : Nat) (v : Int) (st : LayoutMaps) :
    (GenEnum env et v st).2.fields = st.fields := by
  unfold GenEnum
  split <;> rfl

theorem genField_access (env : LayoutEnv) (rt : Nat) (f : Int) (st : LayoutMaps) :
    (GenField env rt f st).1 =
      if env.fieldExtended rt f then
        .mapped (st.fields.assign rt f (env.FieldDecl rt f)).1
      else .direct f := by
  unfold GenField
  split <;> rfl

theorem genEnum_access (env : LayoutEnv) (et : Nat) (v : Int) (st : LayoutMaps) :
    (GenEnum env et v st).1 =
      if env.enumExtended et then
        .mapped (st.enums.assign et v (env.EnumName et v)).1
      else .direct v := by
  unfold GenEnum
  split <;> rfl

theorem serve_fields (env : LayoutEnv) (st : LayoutMaps) (r : LayoutRequest) :
    (r.serve env st).2.fields = st.fields ∨
      ∃ rt f, r = .field rt f ∧
        (r.serve env st).2.fields = (st.fields.assign rt f (env.FieldDecl rt f)).2 := by
  cases r with
  | field rt f =>
    simp only [LayoutRequest.serve, genField_fields]
    split
    · exact Or.inr ⟨rt, f, rfl, rfl⟩
    · exact Or.inl rfl
  | enumVal et v => exact Or.inl (genEnum_fields env et v st)

theorem serve_enums (env : LayoutEnv) (st : LayoutMaps) (r : LayoutRequest) :
    (r.serve env st).2.enums = st.enums ∨
      ∃ et v, r = .enumVal et v ∧
        (r.serve env st).2.enums = (st.enums.assign et v (env.EnumName et v)).2 := by
  cases r with
  | field rt f => exact Or.inl (genField_enums env rt f st)
  | enumVal et v =>
    simp only [LayoutRequest.serve, genEnum_enums]
    split
    · exact Or.inr ⟨et, v, rfl, rfl⟩
    · exact Or.inl rfl

theorem serve_wf (env : LayoutEnv) (st : LayoutMaps) (r : LayoutRequest)
    (hwf : st.WF env) : (r.serve env st).2.WF env := by
  constructor
  · rcases serve_fields env st r with h | ⟨rt, f, -, h⟩
    · rw [h]; exact hwf.1
    · rw [h]; exact SlotTable.wf_assign _ _ _ _ hwf.1
  · rcases serve_enums env st r with h | ⟨et, v, -, h⟩
    · rw [h]; exact hwf.2
    · rw [h]; exact SlotTable.wf_assign _ _ _ _ hwf.2

theorem serveAll_wf (env : LayoutEnv) (reqs : List LayoutRequest) (st : LayoutMaps)
    (hwf : st.WF env) : (serveAll env st reqs).2.WF env := by
  induction reqs generalizing st with
  | nil => exact hwf
  | cons r rest ih => exact ih _ (serve_wf env st r hwf)

theorem wf_layoutMaps_empty (env : LayoutEnv) : LayoutMaps.empty.WF env :=
  ⟨SlotTable.wf_empty _, SlotTable.wf_empty _⟩

theorem serve_fields_persist (env : LayoutEnv) (st : LayoutMaps) (r : LayoutRequest)
    (rt : Nat) (f : Int) (s : Nat) (h : lookupSlot rt f st.fields.mappings = some s) :
    lookupSlot rt f (r.serve env st).2.fields.mappings = some s := by
  rcases serve_fields env st r with h2 | ⟨rt2, f2, -, h2⟩
  · rw [h2]; exact h
  · rw [h2]; exact SlotTable.assign_persist _ _ _ _ _ _ _ h

theorem serve_enums_persist (env : LayoutEnv) (st : LayoutMaps) (r : LayoutRequest)
    (et : Nat) (v : Int) (s : Nat) (h : lookupSlot et v st.enums.mappings = some s) :
    lookupSlot et v (r.serve env st).2.enums.mappings = some s := by
  rcases serve_enums env st r with h2 | ⟨et2, v2, -, h2⟩
  · rw [h2]; exact h
  · rw [h2]; exact SlotTable.assign_persist _ _ _ _ _ _ _ h

theorem serveAll_fields_persist (env : LayoutEnv) (reqs : List LayoutRequest)
    (st : LayoutMaps) (rt : Nat) (f : Int) (s : Nat)
    (h : lookupSlot rt f st.fields.mappings = some s) :
    lookupSlot rt f (serveAll env st reqs).2.fields.mappings = some s := by
  induction reqs generalizing st with
  | nil => exact h
  | cons r rest ih => exact ih _ (serve_fields_persist env st r rt f s h)

theorem serveAll_enums_persist (env : LayoutEnv) (reqs : List LayoutRequest)
    (st : LayoutMaps) (et : Nat) (v : Int) (s : Nat)
    (h : lookupSlot et v st.enums.mappings = some s) :
    lookupSlot et v (serveAll env st reqs).2.enums.mappings = some s := by
  induction reqs generalizing st with
  | nil => exact h
  | cons r rest ih => exact ih _ (serve_enums_persist env st r et v s h)

theorem serveAll_append (env : LayoutEnv) (pre post : List LayoutRequest) (st : LayoutMaps) :
    (serveAll env st (pre ++ post)).2 = (serveAll env (serveAll env st pre).2 post).2 := by
  induction pre generalizing st with
  | nil => rfl
  | cons r rest ih => exact ih _

theorem serve_field_lookup (env : LayoutEnv) (st : LayoutMaps) (rt : Nat) (f : Int) (s : Nat)
    (h : ((LayoutRequest.field rt f).serve env st).1 = .mapped s) :
    lookupSlot rt f ((LayoutRequest.field rt f).serve env st).2.fields.mappings = some s := by
  simp only [LayoutRequest.serve, genField_access, genField_fields] at h ⊢
  by_cases hext : env.fieldExtended rt f = true
  · simp only [hext, if_true, Access.mapped.injEq] at h ⊢
    rw [← h]
    exact SlotTable.assign_result _ _ _ _
  · simp [hext] at h

theorem serve_enum_lookup (env : LayoutEnv) (st : LayoutMaps) (et : Nat) (v : Int) (s : Nat)
    (h : ((LayoutRequest.enumVal et v).serve env st).1 = .mapped s) :
    lookupSlot et v ((LayoutRequest.enumVal et v).serve env st).2.enums.mappings = some s := by
  simp only [LayoutRequest.serve, genEnum_access, genEnum_enums] at h ⊢
  by_cases hext : env.enumExtended et = true
  · simp only [hext, if_true, Access.mapped.injEq] at h ⊢
    rw [← h]
    exact SlotTable.assign_result _ _ _ _
  · simp [hext] at h

theorem serveAll_field_lookup (env : LayoutEnv) (reqs : List LayoutRequest) (st : LayoutMaps)
    (k : Nat) (rt : Nat) (f : Int) (s : Nat) (hreq : reqs[k]? = some (.field rt f))
    (hres : (serveAll env st reqs).1[k]? = some (.mapped s)) :
    lookupSlot rt f (serveAll env st reqs).2.fields.mappings = some s := by
  induction reqs generalizing st k with
  | nil => simp at hreq
  | cons r rest ih =>
    cases k with
    | zero =>
      simp only [List.getElem?_cons_zero, Option.some.injEq] at hreq
      subst hreq
      simp only [serveAll, List.getElem?_cons_zero, Option.some.injEq] at hres
      exact serveAll_fields_persist env rest _ rt f s (serve_field_lookup env st rt f s hres)
    | succ k =>
      simp only [List.getElem?_cons_succ] at hreq
      simp only [serveAll, List.getElem?_cons_succ] at hres
      exact ih _ k hreq hres

theorem serveAll_enum_lookup (env : LayoutEnv) (reqs : List LayoutRequest) (st : LayoutMaps)
    (k : Nat) (et : Nat) (v : Int) (s : Nat) (hreq : reqs[k]? = some (.enumVal et v))
    (hres : (serveAll env st reqs).1[k]? = some (.mapped s)) :
    lookupSlot et v (serveAll env st reqs).2.enums.mappings = some s := by
  induction reqs generalizing st k with
  | nil => simp at hreq
  | cons r rest ih =>
    cases k with
    | zero =>
      simp only [List.getElem?_cons_zero, Option.some.injEq] at hreq
      subst hreq
      simp only [serveAll, List.getElem?_cons_zero, Option.some.injEq] at hres
      exact serveAll_enums_persist env rest _ et v s (serve_enum_lookup env st et v s hres)
    | succ k =>
      simp only [List.getElem?_cons_succ] at hreq
      simp only [serveAll, List.getElem?_cons_succ] at hres
      exact ih _ k hreq hres

theorem serve_num_le (env : LayoutEnv) (st : LayoutMaps) (r : LayoutRequest) :
    st.fields.num_mappings ≤ (r.serve env st).2.fields.num_mappings ∧
    st.enums.num_mappings ≤ (r.serve env st).2.enums.num_mappings := by
  constructor
  · rcases serve_fields env st r with h | ⟨rt, f, -, h⟩
    · rw [h]
    · rw [h]; exact SlotTable.num_mappings_le_assign _ _ _ _
  · rcases serve_enums env st r with h | ⟨et, v, -, h⟩
    · rw [h]
    · rw [h]; exact SlotTable.num_mappings_le_assign _ _ _ _

theorem serveAll_num_le (env : LayoutEnv) (reqs : List LayoutRequest) (st : LayoutMaps) :
    st.fields.num_mappings ≤ (serveAll env st reqs).2.fields.num_mappings ∧
    st.enums.num_mappings ≤ (serveAll env st reqs).2.enums.num_mappings := by
  induction reqs generalizing st with
  | nil => exact ⟨le_refl _, le_refl _⟩
  | cons r rest ih =>
    have h1 := serve_num_le env st r
    have h2 := ih (r.serve env st).2
    exact ⟨le_trans h1.1 h2.1, le_trans h1.2 h2.2⟩

/-- C14: in every sequence of field and enum accesses, two mapped field
accesses get the same slot if and only if they name the same (record type,
field index) pair, two mapped enum accesses if and only if they name the same
(enum type, value) pair, and the slot a pair has is the slot it has after any
later requests. -/
theorem mapping_slots_injective_and_stable (env : LayoutEnv) (reqs later : List LayoutRequest) :
    (∀ (j k rt rt2 : Nat) (f f2 : Int) (s s2 : Nat),
      reqs[j]? = some (.field rt f) → reqs[k]? = some (.field rt2 f2) →
      (accessesOf env reqs)[j]? = some (.mapped s) →
      (accessesOf env reqs)[k]? = some (.mapped s2) →
      (s = s2 ↔ rt = rt2 ∧ f = f2)) ∧
    (∀ (j k et et2 : Nat) (v v2 : Int) (s s2 : Nat),
      reqs[j]? = some (.enumVal et v) → reqs[k]? = some (.enumVal et2 v2) →
      (accessesOf env reqs)[j]? = some (.mapped s) →
      (accessesOf env reqs)[k]? = some (.mapped s2) →
      (s = s2 ↔ et = et2 ∧ v = v2)) ∧
    (∀ (rt : Nat) (f : Int) (s : Nat),
      lookupSlot rt f (mapsAfter env reqs).record_field_mappings = some s →
      lookupSlot rt f (mapsAfter env (reqs ++ later)).record_field_mappings = some s) ∧
    (∀ (et : Nat) (v : Int) (s : Nat),
      lookupSlot et v (mapsAfter env reqs).enum_val_mappings = some s →
      lookupSlot et v (mapsAfter env (reqs ++ later)).enum_val_mappings = some s) := by
  have hwf := serveAll_wf env reqs LayoutMaps.empty (wf_layoutMaps_empty env)
  refine ⟨?_, ?_, ?_, ?_⟩
  · intro j k rt rt2 f f2 s s2 hj hk hsj hsk
    have h1 := serveAll_field_lookup env reqs LayoutMaps.empty j rt f s hj hsj
    have h2 := serveAll_field_lookup env reqs LayoutMaps.empty k rt2 f2 s2 hk hsk
    constructor
    · intro heq
      subst heq
      exact hwf.1.inj rt f rt2 f2 s h1 h2
    · rintro ⟨rfl, rfl⟩
      rw [h1] at h2
      exact Option.some.inj h2
  · intro j k et et2 v v2 s s2 hj hk hsj hsk
    have h1 := serveAll_enum_lookup env reqs LayoutMaps.empty j et v s hj hsj
    have h2 := serveAll_enum_lookup env reqs LayoutMaps.empty k et2 v2 s2 hk hsk
    constructor
    · intro heq
      subst heq
      exact hwf.2.inj et v et2 v2 s h1 h2
    · rintro ⟨rfl, rfl⟩
      rw [h1] at h2
      exact Option.some.inj h2
  · intro rt f s h
    unfold mapsAfter
    rw [serveAll_append]
    exact serveAll_fields_persist env later _ rt f s h
  · intro et v s h
    unfold mapsAfter
    rw [serveAll_append]
    exact serveAll_enums_persist env later _ et v s h

/-- Fields 2 and 3 of record 7 and field 2 of record 8 get the slots 0, 1, 2,
the second access to field 2 of record 7 gets slot 0 again, and the enum
values have slots of their own. -/
theorem mapping_slots_injective_and_stable_witness :
    accessesOf exampleLayoutEnv exampleRequests =
      [.mapped 0, .mapped 1, .mapped 0, .mapped 2, .direct 0, .mapped 0, .mapped 1,
       .mapped 0] ∧
    ((0 : Nat) = 0 ↔ (7 : Nat) = 7 ∧ (2 : Int) = 2) ∧
    ¬ ((0 : Nat) = 2) :=
  ⟨by decide,
   (mapping_slots_injective_and_stable exampleLayoutEnv exampleRequests []).1 0 5 7 7 2 2 0 0
      (by decide) (by decide) (by decide) (by decide),
   fun h => absurd
      (((mapping_slots_injective_and_stable exampleLayoutEnv exampleRequests []).1 0 3 7 8 2 2
        0 2 (by decide) (by decide) (by decide) (by decide)).1 h).1 (by decide)⟩

/-- C18: after any sequence of requests, `num_rf_mappings` is the total number
of entries in the inner maps of `record_field_mappings` and the size of
`field_decls`, the slots in use are exactly those below `num_rf_mappings`, a
pair seen for the first time gets the slot `num_rf_mappings`, which is then
incremented, and the counter never decreases; the same holds of
`num_ev_mappings`, `enum_val_mappings` and `enum_names`. -/
theorem mapping_counters_in_step (env : LayoutEnv) (reqs later : List LayoutRequest) :
    ((mapsAfter env reqs).num_rf_mappings =
        countEntries (mapsAfter env reqs).record_field_mappings ∧
      (mapsAfter env reqs).num_rf_mappings = (mapsAfter env reqs).field_decls.length ∧
      (∀ s, s < (mapsAfter env reqs).num_rf_mappings ↔
        ∃ rt f, lookupSlot rt f (mapsAfter env reqs).record_field_mappings = some s) ∧
      (∀ rt f, env.fieldExtended rt f = true →
        lookupSlot rt f (mapsAfter env reqs).record_field_mappings = none →
        (GenField env rt f (mapsAfter env reqs)).1 =
          .mapped (mapsAfter env reqs).num_rf_mappings ∧
        (GenField env rt f (mapsAfter env reqs)).2.num_rf_mappings =
          (mapsAfter env reqs).num_rf_mappings + 1) ∧
      (mapsAfter env reqs).num_rf_mappings ≤ (mapsAfter env (reqs ++ later)).num_rf_mappings) ∧
    ((mapsAfter env reqs).num_ev_mappings =
        countEntries (mapsAfter env reqs).enum_val_mappings ∧
      (mapsAfter env reqs).num_ev_mappings = (mapsAfter env reqs).enum_names.length ∧
      (∀ s, s < (mapsAfter env reqs).num_ev_mappings ↔
        ∃ et v, lookupSlot et v (mapsAfter env reqs).enum_val_mappings = some s) ∧
      (∀ et v, env.enumExtended et = true →
        lookupSlot et v (mapsAfter env reqs).enum_val_mappings = none →
        (GenEnum env et v (mapsAfter env reqs)).1 =
          .mapped (mapsAfter env reqs).num_ev_mappings ∧
        (GenEnum env et v (mapsAfter env reqs)).2.num_ev_mappings =
          (mapsAfter env reqs).num_ev_mappings + 1) ∧
      (mapsAfter env reqs).num_ev_mappings ≤ (mapsAfter env (reqs ++ later)).num_ev_mappings) := by
  have hwf := serveAll_wf env reqs LayoutMaps.empty (wf_layoutMaps_empty env)
  have hmono : (mapsAfter env reqs).fields.num_mappings ≤
        (mapsAfter env (reqs ++ later)).fields.num_mappings ∧
      (mapsAfter env reqs).enums.num_mappings ≤
        (mapsAfter env (reqs ++ later)).enums.num_mappings := by
    unfold mapsAfter
    rw [serveAll_append]
    exact serveAll_num_le env later _
  refine ⟨⟨hwf.1.count.symm, hwf.1.len.symm, ?_, ?_, hmono.1⟩,
    ⟨hwf.2.count.symm, hwf.2.len.symm, ?_, ?_, hmono.2⟩⟩
  · intro s
    constructor
    · exact hwf.1.surj s
    · rintro ⟨rt, f, h⟩
      exact hwf.1.bound rt f s h
  · intro rt f hext hnone
    have hnone2 : lookupSlot rt f (mapsAfter env reqs).fields.mappings = none := hnone
    constructor
    · rw [genField_access]
      simp only [hext, if_true, SlotTable.assign_of_none _ _ _ _ hnone2]
      rfl
    · show (GenField env rt f (mapsAfter env reqs)).2.fields.num_mappings = _
      rw [genField_fields]
      simp only [hext, if_true, SlotTable.assign_of_none _ _ _ _ hnone2]
      rfl
  · intro s
    constructor
    · exact hwf.2.surj s
    · rintro ⟨et, v, h⟩
      exact hwf.2.bound et v s h
  · intro et v hext hnone
    have hnone2 : lookupSlot et v (mapsAfter env reqs).enums.mappings = none := hnone
    constructor
    · rw [genEnum_access]
      simp only [hext, if_true, SlotTable.assign_of_none _ _ _ _ hnone2]
      rfl
    · show (GenEnum env et v (mapsAfter env reqs)).2.enums.num_mappings = _
      rw [genEnum_enums]
      simp only [hext, if_true, SlotTable.assign_of_none _ _ _ _ hnone2]
      rfl

/-- After the example requests three field pairs and two enum values are
mapped; field 3 of record 8, not seen before, gets slot 3. -/
theorem mapping_counters_in_step_witness :
    (mapsAfter exampleLayoutEnv exampleRequests).num_rf_mappings = 3 ∧
    (mapsAfter exampleLayoutEnv exampleRequests).num_ev_mappings = 2 ∧
    (GenField exampleLayoutEnv 8 3 (mapsAfter exampleLayoutEnv exampleRequests)).1 =
      .mapped (mapsAfter exampleLayoutEnv exampleRequests).num_rf_mappings :=
  ⟨by decide, by decide,
   ((mapping_counters_in_step exampleLayoutEnv exampleRequests []).1.2.2.2.1 8 3
      (by decide) (by decide)).1⟩

/-! ### The mapping tables in the generated code -/

theorem initializeFieldMappings_getElem? {Time : Type} (ienv : InitsEnv Time)
    (field_decls : List (Nat × TypeDecl)) (k : Nat) (d : Nat × TypeDecl)
    (h : field_decls[k]? = some d) :
    (InitializeFieldMappings ienv field_decls)[k + 2]? = some (fieldMappingEntry ienv d) := by
  have hk : k < (field_decls.map (fieldMappingEntry ienv)).length := by
    rw [List.length_map]
    exact (List.getElem?_eq_some_iff.1 h).1
  have hshape : InitializeFieldMappings ienv field_decls =
      OutCall.Emit "std::vector<CPP_FieldMapping> CPP__field_mappings__ = " [] ::
        OutCall.StartBlock ::
          (field_decls.map (fieldMappingEntry ienv) ++ [OutCall.EndBlock true]) := rfl
  rw [hshape, List.getElem?_cons_succ, List.getElem?_cons_succ,
    List.getElem?_append_left hk, List.getElem?_map, h]
  rfl

theorem initializeEnumMappings_getElem? {Time : Type} (ienv : InitsEnv Time)
    (enum_names : List (Nat × String)) (k : Nat) (d : Nat × String)
    (h : enum_names[k]? = some d) :
    (InitializeEnumMappings ienv enum_names)[k + 2]? = some (enumMappingEntry ienv d) := by
  have hk : k < (enum_names.map (enumMappingEntry ienv)).length := by
    rw [List.length_map]
    exact (List.getElem?_eq_some_iff.1 h).1
  have hshape : InitializeEnumMappings ienv enum_names =
      OutCall.Emit "std::vector<CPP_EnumMapping> CPP__enum_mappings__ = " [] ::
        OutCall.StartBlock ::
          (enum_names.map (enumMappingEntry ienv) ++ [OutCall.EndBlock true]) := rfl
  rw [hshape, List.getElem?_cons_succ, List.getElem?_cons_succ,
    List.getElem?_append_left hk, List.getElem?_map, h]
  rfl

/-- C17: `InitializeFieldMappings` emits the opening of the table, one
`CPP_FieldMapping` entry per element of `field_decls`, in the order of
`field_decls`, and the closing; the entry at position `k` carries the record
type, the field id, the type offset and the attributes offset of the element
`k`, which is the one of the pair that was given slot `k`.  Likewise
`InitializeEnumMappings` emits one `CPP_EnumMapping` entry per element of
`enum_names`, in order. -/
theorem mapping_tables_in_slot_order {Time : Type} (ienv : InitsEnv Time) (lenv : LayoutEnv)
    (field_decls : List (Nat × TypeDecl)) (enum_names : List (Nat × String))
    (reqs : List LayoutRequest) :
    (InitializeFieldMappings ienv field_decls =
        [.Emit "std::vector<CPP_FieldMapping> CPP__field_mappings__ = " [], .StartBlock] ++
          field_decls.map (fun d => OutCall.Emit "CPP_FieldMapping(%s, \"%s\", %s, %s),"
            [ienv.FmtRT d.1, d.2.id, ienv.FmtInt (ienv.TypeOffset d.2.type),
             ienv.FmtInt (ienv.AttributesOffset d.2.attrs)]) ++ [.EndBlock true]) ∧
    (InitializeEnumMappings ienv enum_names =
        [.Emit "std::vector<CPP_EnumMapping> CPP__enum_mappings__ = " [], .StartBlock] ++
          enum_names.map (fun d => OutCall.Emit "CPP_EnumMapping(%s, \"%s\"),"
            [ienv.FmtRT d.1, d.2]) ++ [.EndBlock true]) ∧
    (∀ (k : Nat) (d : Nat × TypeDecl), field_decls[k]? = some d →
      (InitializeFieldMappings ienv field_decls)[k + 2]? =
        some (.Emit "CPP_FieldMapping(%s, \"%s\", %s, %s),"
          [ienv.FmtRT d.1, d.2.id, ienv.FmtInt (ienv.TypeOffset d.2.type),
           ienv.FmtInt (ienv.AttributesOffset d.2.attrs)])) ∧
    (∀ (k : Nat) (d : Nat × String), enum_names[k]? = some d →
      (InitializeEnumMappings ienv enum_names)[k + 2]? =
        some (.Emit "CPP_EnumMapping(%s, \"%s\")," [ienv.FmtRT d.1, d.2])) ∧
    (∀ (rt : Nat) (f : Int) (k : Nat),
      lookupSlot rt f (mapsAfter lenv reqs).record_field_mappings = some k →
      (InitializeFieldMappings ienv (mapsAfter lenv reqs).field_decls)[k + 2]? =
        some (.Emit "CPP_FieldMapping(%s, \"%s\", %s, %s),"
          [ienv.FmtRT rt, (lenv.FieldDecl rt f).id,
           ienv.FmtInt (ienv.TypeOffset (lenv.FieldDecl rt f).type),
           ienv.FmtInt (ienv.AttributesOffset (lenv.FieldDecl rt f).attrs)])) ∧
    (∀ (et : Nat) (v : Int) (k : Nat),
      lookupSlot et v (mapsAfter lenv reqs).enum_val_mappings = some k →
      (InitializeEnumMappings ienv (mapsAfter lenv reqs).enum_names)[k + 2]? =
        some (.Emit "CPP_EnumMapping(%s, \"%s\")," [ienv.FmtRT et, lenv.EnumName et v])) := by
  have hwf := serveAll_wf lenv reqs LayoutMaps.empty (wf_layoutMaps_empty lenv)
  refine ⟨rfl, rfl, ?_, ?_, ?_, ?_⟩
  · intro k d h
    exact initializeFieldMappings_getElem? ienv field_decls k d h
  · intro k d h
    exact initializeEnumMappings_getElem? ienv enum_names k d h
  · intro rt f k h
    have hd := hwf.1.decl_at rt f k h
    exact initializeFieldMappings_getElem? ienv _ k _ hd
  · intro et v k h
    have hd := hwf.2.decl_at et v k h
    exact initializeEnumMappings_getElem? ienv _ k _ hd

/-- For the example requests the table has the entries of fields 2 and 3 of
record 7 and of field 2 of record 8, in the order of their slots 0, 1, 2. -/
theorem mapping_tables_in_slot_order_witness :
    InitializeFieldMappings exampleInitsEnv
        (mapsAfter exampleLayoutEnv exampleRequests).field_decls =
      [.Emit "std::vector<CPP_FieldMapping> CPP__field_mappings__ = " [], .StartBlock,
       .Emit "CPP_FieldMapping(%s, \"%s\", %s, %s)," ["7", "f2", "17", "-28"],
       .Emit "CPP_FieldMapping(%s, \"%s\", %s, %s)," ["7", "f3", "17", "-28"],
       .Emit "CPP_FieldMapping(%s, \"%s\", %s, %s)," ["8", "f2", "18", "-29"],
       .EndBlock true] ∧
    (InitializeFieldMappings exampleInitsEnv
        (mapsAfter exampleLayoutEnv exampleRequests).field_decls)[2 + 2]? =
      some (.Emit "CPP_FieldMapping(%s, \"%s\", %s, %s),"
        [exampleInitsEnv.FmtRT 8, (exampleLayoutEnv.FieldDecl 8 2).id,
         exampleInitsEnv.FmtInt (exampleInitsEnv.TypeOffset (exampleLayoutEnv.FieldDecl 8 2).type),
         exampleInitsEnv.FmtInt
           (exampleInitsEnv.AttributesOffset (exampleLayoutEnv.FieldDecl 8 2).attrs)]) :=
  ⟨by decide,
   (mapping_tables_in_slot_order exampleInitsEnv exampleLayoutEnv [] [] exampleRequests).2.2.2.2.1
      8 2 2 (by decide)⟩

/-! ### Constants -/

theorem lookupKey_setKey_self {κ β : Type} [DecidableEq κ] (k : κ) (b : β)
    (l : List (κ × β)) : lookupKey k (setKey k b l) = some b := by
  induction l with
  | nil => simp [setKey, lookupKey]
  | cons e rest ih =>
    obtain ⟨k2, b2⟩ := e
    by_cases hk : k2 = k
    · simp [setKey, lookupKey, hk]
    · simp [setKey, lookupKey, hk, ih]

theorem lookupKey_append_of_some {κ β : Type} [DecidableEq κ] (k : κ) (b : β)
    (l l2 : List (κ × β)) (h : lookupKey k l = some b) : lookupKey k (l ++ l2) = some b := by
  induction l with
  | nil => simp [lookupKey] at h
  | cons e rest ih =>
    obtain ⟨k2, b2⟩ := e
    by_cases hk : k2 = k
    · simpa [lookupKey, hk] using h
    · simp only [lookupKey, hk, if_false] at h
      simp [lookupKey, hk, ih h]

theorem lookupKey_append_singleton_of_none {κ β : Type} [DecidableEq κ] (k k2 : κ) (b : β)
    (l : List (κ × β)) (h : lookupKey k l = none) :
    lookupKey k (l ++ [(k2, b)]) = if k2 = k then some b else none := by
  induction l with
  | nil => simp [lookupKey]
  | cons e rest ih =>
    obtain ⟨k3, b3⟩ := e
    by_cases hk : k3 = k
    · simp [lookupKey, hk] at h
    · simp only [lookupKey, hk, if_false] at h
      simp [lookupKey, hk, ih h]

theorem addConstant_native (constName : Nat → String) (v : Val) (st : ConstState)
    (h : v.native = true) : AddConstant constName v st = (false, st) := by
  simp [AddConstant, h]

theorem buildConstant_native (constName : Nat → String) (GenVal : Val → String) (p : Obj)
    (v : Val) (st : ConstState) (h : v.native = true) :
    BuildConstant constName GenVal p v st = (GenVal v, st) := by
  simp [BuildConstant, addConstant_native constName v st h]

theorem buildConstant_hit (constName : Nat → String) (GenVal : Val → String) (p : Obj)
    (v : Val) (st : ConstState) (name : String) (hn : v.native = false)
    (h : lookupKey v.desc st.constants = some name) :
    (BuildConstant constName GenVal p v st).1 = name ∧
    (BuildConstant constName GenVal p v st).2.constants = st.constants := by
  simp [BuildConstant, AddConstant, hn, h, lookupKey_setKey_self]

theorem buildConstant_miss (constName : Nat → String) (GenVal : Val → String) (p : Obj)
    (v : Val) (st : ConstState) (hn : v.native = false)
    (h : lookupKey v.desc st.constants = none) :
    (BuildConstant constName GenVal p v st).1 = constName st.constants.length ∧
    (BuildConstant constName GenVal p v st).2.constants =
      st.constants ++ [(v.desc, constName st.constants.length)] := by
  simp [BuildConstant, AddConstant, hn, h, lookupKey_setKey_self]

theorem buildConstant_persist (constName : Nat → String) (GenVal : Val → String) (p : Obj)
    (v : Val) (st : ConstState) (d name : String)
    (h : lookupKey d st.constants = some name) :
    lookupKey d (BuildConstant constName GenVal p v st).2.constants = some name := by
  by_cases hn : v.native = true
  · rw [buildConstant_native constName GenVal p v st hn]; exact h
  · have hn2 : v.native = false := by simpa using hn
    cases hl : lookupKey v.desc st.constants with
    | some n2 => rw [(buildConstant_hit constName GenVal p v st n2 hn2 hl).2]; exact h
    | none =>
      rw [(buildConstant_miss constName GenVal p v st hn2 hl).2]
      exact lookupKey_append_of_some d name _ _ h

theorem buildConstant_result (constName : Nat → String) (GenVal : Val → String) (p : Obj)
    (v : Val) (st : ConstState) (hn : v.native = false) :
    lookupKey v.desc (BuildConstant constName GenVal p v st).2.constants =
      some (BuildConstant constName GenVal p v st).1 := by
  cases hl : lookupKey v.desc st.constants with
  | some n2 =>
    obtain ⟨h1, h2⟩ := buildConstant_hit constName GenVal p v st n2 hn hl
    rw [h1, h2]; exact hl
  | none =>
    obtain ⟨h1, h2⟩ := buildConstant_miss constName GenVal p v st hn hl
    rw [h1, h2, lookupKey_append_singleton_of_none v.desc v.desc _ _ hl]
    simp

theorem runConsts_persist (constName : Nat → String) (GenVal : Val → String)
    (calls : List (Obj × Val)) (st : ConstState) (d name : String)
    (h : lookupKey d st.constants = some name) :
    lookupKey d (runConsts constName GenVal st calls).constants = some name := by
  induction calls generalizing st with
  | nil => exact h
  | cons c rest ih =>
    exact ih _ (buildConstant_persist constName GenVal c.1 c.2 st d name h)

theorem runConsts_append (constName : Nat → String) (GenVal : Val → String)
    (st : ConstState) (l1 l2 : List (Obj × Val)) :
    runConsts constName GenVal st (l1 ++ l2) =
      runConsts constName GenVal (runConsts constName GenVal st l1) l2 := by
  simp [runConsts, List.foldl_append]

theorem runConsts_lookup_origin (constName : Nat → String) (GenVal : Val → String)
    (calls : List (Obj × Val)) (st : ConstState) (d name : String)
    (h : lookupKey d (runConsts constName GenVal st calls).constants = some name) :
    (∃ n, lookupKey d st.constants = some n) ∨
      ∃ c ∈ calls, c.2.native = false ∧ c.2.desc = d := by
  induction calls generalizing st with
  | nil => exact Or.inl ⟨name, h⟩
  | cons c rest ih =>
    rcases ih (BuildConstant constName GenVal c.1 c.2 st).2 h with ⟨n, hn⟩ | ⟨c2, hc2, hh⟩
    · by_cases hnat : c.2.native = true
      · rw [buildConstant_native constName GenVal c.1 c.2 st hnat] at hn
        exact Or.inl ⟨n, hn⟩
      · have hnat2 : c.2.native = false := by simpa using hnat
        cases hl : lookupKey c.2.desc st.constants with
        | some n2 =>
          rw [(buildConstant_hit constName GenVal c.1 c.2 st n2 hnat2 hl).2] at hn
          exact Or.inl ⟨n, hn⟩
        | none =>
          rw [(buildConstant_miss constName GenVal c.1 c.2 st hnat2 hl).2] at hn
          cases hd : lookupKey d st.constants with
          | some n3 => exact Or.inl ⟨n3, rfl⟩
          | none =>
            rw [lookupKey_append_singleton_of_none d c.2.desc _ _ hd] at hn
            by_cases hdd : c.2.desc = d
            · exact Or.inr ⟨c, List.mem_cons_self _ _, hnat2, hdd⟩
            · simp [hdd] at hn
    · exact Or.inr ⟨c2, List.mem_cons_of_mem _ hc2, hh⟩

/-- C13, as the claim states it, fails: the count constant `5`, of a native
type, is instantiated directly as a C++ constant; interning it twice allocates
no global at all, the first time as little as the second, and neither object
gets the name of a global. -/
theorem interning_native_five_allocates_no_global :
    (AddConstant exampleConstName { addr := 1, native := true, desc := "5 count" }
      ConstState.empty).1 = false ∧
    (constsAfter exampleConstName exampleGenVal fiveCalls).constants = [] ∧
    (constsAfter exampleConstName exampleGenVal fiveCalls).const_vals = [] := by
  decide

/-- C13, amended: within one compilation unit, two constants of a non-native
type whose string representations are equal get the same C++ global name, and
the later of the two allocates no global; the first constant with a
representation allocates exactly one global; a constant of a native type is
instantiated directly and allocates none. -/
theorem constants_interned_by_representation (constName : Nat → String)
    (GenVal : Val → String) (pre mid : List (Obj × Val)) (p1 p2 : Obj) (v1 v2 : Val) :
    (v1.native = false → v2.native = false → v1.desc = v2.desc →
      (BuildConstant constName GenVal p2 v2
          (constsAfter constName GenVal (pre ++ (p1, v1) :: mid))).1 =
        (BuildConstant constName GenVal p1 v1 (constsAfter constName GenVal pre)).1 ∧
      (BuildConstant constName GenVal p2 v2
          (constsAfter constName GenVal (pre ++ (p1, v1) :: mid))).2.constants =
        (constsAfter constName GenVal (pre ++ (p1, v1) :: mid)).constants) ∧
    (v1.native = false → (∀ c ∈ pre, c.2.native = false → c.2.desc ≠ v1.desc) →
      (BuildConstant constName GenVal p1 v1 (constsAfter constName GenVal pre)).1 =
        constName (constsAfter constName GenVal pre).constants.length ∧
      (BuildConstant constName GenVal p1 v1 (constsAfter constName GenVal pre)).2.constants =
        (constsAfter constName GenVal pre).constants ++
          [(v1.desc, constName (constsAfter constName GenVal pre).constants.length)]) ∧
    (v1.native = true →
      BuildConstant constName GenVal p1 v1 (constsAfter constName GenVal pre) =
        (GenVal v1, constsAfter constName GenVal pre) ∧
      (AddConstant constName v1 (constsAfter constName GenVal pre)).1 = false) := by
  refine ⟨?_, ?_, ?_⟩
  · intro hn1 hn2 hdesc
    have hres := buildConstant_result constName GenVal p1 v1 (constsAfter constName GenVal pre)
      hn1
    have hstate : constsAfter constName GenVal (pre ++ (p1, v1) :: mid) =
        runConsts constName GenVal
          (BuildConstant constName GenVal p1 v1 (constsAfter constName GenVal pre)).2 mid := by
      unfold constsAfter
      rw [runConsts_append]
      rfl
    have hlater : lookupKey v2.desc
        (constsAfter constName GenVal (pre ++ (p1, v1) :: mid)).constants =
        some (BuildConstant constName GenVal p1 v1 (constsAfter constName GenVal pre)).1 := by
      rw [hstate, ← hdesc]
      exact runConsts_persist constName GenVal mid _ _ _ hres
    exact buildConstant_hit constName GenVal p2 v2 _ _ hn2 hlater
  · intro hn1 hfirst
    have hnone : lookupKey v1.desc (constsAfter constName GenVal pre).constants = none := by
      cases hl : lookupKey v1.desc (constsAfter constName GenVal pre).constants with
      | none => rfl
      | some n =>
        exfalso
        rcases runConsts_lookup_origin constName GenVal pre ConstState.empty v1.desc n hl with
          ⟨n0, h0⟩ | ⟨c, hc, hcn, hcd⟩
        · simp [ConstState.empty, lookupKey] at h0
        · exact hfirst c hc hcn hcd
    exact buildConstant_miss constName GenVal p1 v1 _ hn1 hnone
  · intro hnat
    exact ⟨buildConstant_native constName GenVal p1 v1 _ hnat,
      by rw [addConstant_native constName v1 _ hnat]⟩

/-- The string constant "abc" met a second time, after a pattern constant,
gets the global of its first occurrence, and no global is added for it. -/
theorem constants_interned_by_representation_witness :
    (BuildConstant exampleConstName exampleGenVal 101
        { addr := 2, native := false, desc := "abcstring" }
        (constsAfter exampleConstName exampleGenVal
          ([] ++ (100, { addr := 1, native := false, desc := "abcstring" }) ::
            [(100, { addr := 3, native := false, desc := "/x/ pattern" })]))).1 =
      (BuildConstant exampleConstName exampleGenVal 100
        { addr := 1, native := false, desc := "abcstring" }
        (constsAfter exampleConstName exampleGenVal [])).1 ∧
    (constsAfter exampleConstName exampleGenVal abcCalls).constants =
      [("abcstring", "CPP__const__0"), ("/x/ pattern", "CPP__const__1")] :=
  ⟨((constants_interned_by_representation exampleConstName exampleGenVal []
      [(100, { addr := 3, native := false, desc := "/x/ pattern" })] 100 101
      { addr := 1, native := false, desc := "abcstring" }
      { addr := 2, native := false, desc := "abcstring" }).1 rfl rfl rfl).1,
   by decide⟩

/-! ### The hash cache -/

theorem lookupKey_append {κ β : Type} [DecidableEq κ] (k : κ) (l l2 : List (κ × β)) :
    lookupKey k (l ++ l2) =
      match lookupKey k l with
      | some b => some b
      | none => lookupKey k l2 := by
  induction l with
  | nil => simp [lookupKey]
  | cons e rest ih =>
    obtain ⟨k2, b2⟩ := e
    by_cases hk : k2 = k
    · simp [lookupKey, hk]
    · simp [lookupKey, hk, ih]

theorem compileItem_step (p_hash : String → Nat) (newIdentity : Nat → String) (st : CacheRun)
    (item : CompileItem) :
    (compileItem p_hash newIdentity st item).store = st.store ∧
    (∃ extra, (compileItem p_hash newIdentity st item).fresh = st.fresh ++ extra) ∧
    ∃ id, lookupKey (p_hash item.content)
        (st.store ++ (compileItem p_hash newIdentity st item).fresh) = some id ∧
      (compileItem p_hash newIdentity st item).identities = st.identities ++ [id] := by
  unfold compileItem HashLookup
  cases h1 : lookupKey (p_hash item.content) st.store with
  | some id =>
    refine ⟨rfl, ⟨[], by simp⟩, id, ?_, rfl⟩
    exact lookupKey_append_of_some _ _ _ _ h1
  | none =>
    cases h2 : lookupKey (p_hash item.content) st.fresh with
    | some id =>
      refine ⟨rfl, ⟨[], by simp⟩, id, ?_, rfl⟩
      simp only
      rw [lookupKey_append, h1]
      exact h2
    | none =>
      refine ⟨rfl, ⟨_, rfl⟩, newIdentity st.fresh.length, ?_, rfl⟩
      simp only
      rw [lookupKey_append, h1]
      simp only
      rw [lookupKey_append_singleton_of_none _ _ _ _ h2]
      simp

theorem compileItem_hit (p_hash : String → Nat) (newIdentity : Nat → String) (st : CacheRun)
    (item : CompileItem) (id : String)
    (h : HashLookup st.store (p_hash item.content) = some id) :
    compileItem p_hash newIdentity st item =
      { st with identities := st.identities ++ [id] } := by
  simp [compileItem, h]

theorem foldl_compileItem_store (p_hash : String → Nat) (newIdentity : Nat → String)
    (items : List CompileItem) (st : CacheRun) :
    (items.foldl (compileItem p_hash newIdentity) st).store = st.store ∧
    ∃ extra, (items.foldl (compileItem p_hash newIdentity) st).fresh = st.fresh ++ extra := by
  induction items generalizing st with
  | nil => exact ⟨rfl, [], by simp⟩
  | cons it rest ih =>
    obtain ⟨hs, e1, he1⟩ := ih (compileItem p_hash newIdentity st it)
    obtain ⟨hs2, ⟨e2, he2⟩, -⟩ := compileItem_step p_hash newIdentity st it
    refine ⟨by simpa [List.foldl_cons] using hs.trans hs2, e2 ++ e1, ?_⟩
    rw [List.foldl_cons, he1, he2, List.append_assoc]

theorem foldl_compileItem_identities (p_hash : String → Nat) (newIdentity : Nat → String)
    (items : List CompileItem) (st : CacheRun) :
    (items.foldl (compileItem p_hash newIdentity) st).identities =
      st.identities ++ items.map (fun it =>
        (lookupKey (p_hash it.content)
          (st.store ++ (items.foldl (compileItem p_hash newIdentity) st).fresh)).getD "") ∧
    ∀ it ∈ items, ∃ id, lookupKey (p_hash it.content)
      (st.store ++ (items.foldl (compileItem p_hash newIdentity) st).fresh) = some id := by
  induction items generalizing st with
  | nil => simp
  | cons it rest ih =>
    obtain ⟨hid, hall⟩ := ih (compileItem p_hash newIdentity st it)
    obtain ⟨hs, -, id, hlook, hids⟩ := compileItem_step p_hash newIdentity st it
    obtain ⟨-, extra, hextra⟩ :=
      foldl_compileItem_store p_hash newIdentity rest (compileItem p_hash newIdentity st it)
    have hlook2 : lookupKey (p_hash it.content)
        (st.store ++ (List.foldl (compileItem p_hash newIdentity) st (it :: rest)).fresh) =
        some id := by
      rw [List.foldl_cons, hextra, ← List.append_assoc]
      exact lookupKey_append_of_some _ _ _ _ hlook
    rw [hs] at hid hall
    constructor
    · rw [List.foldl_cons, hid, hids, List.map_cons, ← List.foldl_cons, hlook2]
      simp
    · intro it2 hit2
      rcases List.mem_cons.1 hit2 with h | h
      · rw [h]
        exact ⟨id, hlook2⟩
      · exact hall it2 h

theorem foldl_compileItem_all_hits (p_hash : String → Nat) (newIdentity : Nat → String)
    (items : List CompileItem) (st : CacheRun)
    (h : ∀ it ∈ items, ∃ id, lookupKey (p_hash it.content) st.store = some id) :
    items.foldl (compileItem p_hash newIdentity) st =
      { st with identities := st.identities ++ items.map (fun it =>
          (lookupKey (p_hash it.content) st.store).getD "") } := by
  induction items generalizing st with
  | nil => simp
  | cons it rest ih =>
    obtain ⟨id, hid⟩ := h it (List.mem_cons_self _ _)
    rw [List.foldl_cons, compileItem_hit p_hash newIdentity st it id hid, ih]
    · simp [hid]
    · intro it2 hit2
      exact h it2 (List.mem_cons_of_mem _ hit2)

/-- C15: compiling the same input a second time, with the store the first run
persisted, allocates no identity and emits no initializer, and every item gets
the identity the first run gave it; an item whose content hash is in the store
reuses the recorded identity as it is. -/
theorem second_run_is_all_cache_hits (p_hash : String → Nat)
    (newIdentity newIdentity2 : Nat → String) (store : HashStore)
    (items : List CompileItem) (st : CacheRun) (item : CompileItem) (id : String) :
    (compileRun p_hash newIdentity2
        (compileRun p_hash newIdentity store items).persisted items).fresh = [] ∧
    (compileRun p_hash newIdentity2
        (compileRun p_hash newIdentity store items).persisted items).emitted = [] ∧
    (compileRun p_hash newIdentity2
        (compileRun p_hash newIdentity store items).persisted items).identities =
      (compileRun p_hash newIdentity store items).identities ∧
    (compileRun p_hash newIdentity2
        (compileRun p_hash newIdentity store items).persisted items).persisted =
      (compileRun p_hash newIdentity store items).persisted ∧
    (HashLookup st.store (p_hash item.content) = some id →
      compileItem p_hash newIdentity st item =
        { st with identities := st.identities ++ [id] }) := by
  obtain ⟨hid, hall⟩ := foldl_compileItem_identities p_hash newIdentity items
    { store := store, fresh := [], identities := [], emitted := [] }
  obtain ⟨hstore, -⟩ := foldl_compileItem_store p_hash newIdentity items
    { store := store, fresh := [], identities := [], emitted := [] }
  have hpers : (compileRun p_hash newIdentity store items).persisted =
      store ++ (compileRun p_hash newIdentity store items).fresh := by
    unfold CacheRun.persisted compileRun
    rw [hstore]
  have hsecond := foldl_compileItem_all_hits p_hash newIdentity2 items
    { store := (compileRun p_hash newIdentity store items).persisted, fresh := [],
      identities := [], emitted := [] }
    (by
      intro it hit
      simp only
      rw [hpers]
      exact hall it hit)
  have hrun2 : compileRun p_hash newIdentity2
      (compileRun p_hash newIdentity store items).persisted items =
      { store := (compileRun p_hash newIdentity store items).persisted, fresh := [],
        identities := [] ++ items.map (fun it =>
          (lookupKey (p_hash it.content)
            (compileRun p_hash newIdentity store items).persisted).getD ""),
        emitted := [] } := hsecond
  refine ⟨by rw [hrun2], by rw [hrun2], ?_, ?_, compileItem_hit p_hash newIdentity st item id⟩
  · rw [hrun2]
    simp only [List.nil_append]
    rw [hpers]
    have := hid
    simp only [List.nil_append] at this
    exact this.symm
  · rw [hrun2]
    simp [CacheRun.persisted]

/-- The second run over the example items takes all four identities from the
store, allocates none and emits nothing. -/
theorem second_run_is_all_cache_hits_witness :
    compileRun exampleHash exampleIdentity
        (compileRun exampleHash exampleIdentity [] exampleItems).persisted exampleItems =
      { store := [(9, "id0"), (7, "id1"), (10, "id2")], fresh := [],
        identities := ["id0", "id1", "id0", "id2"], emitted := [] } ∧
    (compileRun exampleHash exampleIdentity
        (compileRun exampleHash exampleIdentity [] exampleItems).persisted
        exampleItems).emitted = [] :=
  ⟨by decide,
   (second_run_is_all_cache_hits exampleHash exampleIdentity exampleIdentity [] exampleItems
      (compileRun exampleHash exampleIdentity [] []) ⟨"body of f", []⟩ "id0").2.1⟩

/-! ## ZAM instructions -/

theorem slotAt_isInt (inst : ZInst) (h : inst.operandsAreInts) (n : Int) :
    isInt (inst.slotAt n) := by
  obtain ⟨h1, h2, h3, h4⟩ := h
  unfold ZInst.slotAt
  split_ifs <;> assumption

theorem toSizeT_of_nonneg (x : Int) (h0 : 0 ≤ x) (h : isInt x) : toSizeT x = x.toNat := by
  obtain ⟨_, h2⟩ := h
  unfold toSizeT
  have : x % 2 ^ 64 = x := Int.emod_eq_of_lt h0 (by omega)
  rw [this]

theorem toSizeT_of_neg (x : Int) (h0 : x < 0) (h : isInt x) :
    2 ^ 64 - 2 ^ 31 ≤ toSizeT x := by
  obtain ⟨h1, _⟩ := h
  unfold toSizeT
  omega

theorem vName_of_gt (inst : ZInst) (max_n n : Int) (frame_ids : frame_map) (h : n > max_n) :
    inst.VName max_n n frame_ids = .nullptr := by
  simp [ZInst.VName, h]

theorem vName_of_zero (inst : ZInst) (max_n n : Int) (frame_ids : frame_map) (h : n ≤ max_n)
    (h0 : inst.slotAt n = 0) : inst.VName max_n n frame_ids = .copy_string "<reg0>" := by
  have h1 : ¬ n > max_n := by omega
  simp [ZInst.VName, h1, h0]

theorem vName_of_ge (inst : ZInst) (max_n n : Int) (frame_ids : frame_map) (h : n ≤ max_n)
    (h0 : inst.slotAt n ≠ 0) (hge : toSizeT (inst.slotAt n) ≥ frame_ids.length) :
    inst.VName max_n n frame_ids =
      .copy_string ("extra-slot " ++ toString (inst.slotAt n)) := by
  have h1 : ¬ n > max_n := by omega
  simp [ZInst.VName, h1, h0, hge]

theorem vName_of_lt (inst : ZInst) (max_n n : Int) (frame_ids : frame_map) (h : n ≤ max_n)
    (h0 : inst.slotAt n ≠ 0) (hlt : toSizeT (inst.slotAt n) < frame_ids.length) :
    ∃ name, frame_ids[toSizeT (inst.slotAt n)]? = some name ∧
      inst.VName max_n n frame_ids =
        .copy_string (toString (inst.slotAt n) ++ " (" ++ name ++ ")") := by
  have h1 : ¬ n > max_n := by omega
  have h2 : ¬ toSizeT (inst.slotAt n) ≥ frame_ids.length := by omega
  refine ⟨frame_ids[toSizeT (inst.slotAt n)], List.getElem?_eq_getElem hlt, ?_⟩
  simp [ZInst.VName, h1, h0, List.getElem?_eq_getElem hlt, hlt]

theorem vName_ne_out_of_bounds (inst : ZInst) (max_n n : Int) (frame_ids : frame_map) :
    inst.VName max_n n frame_ids ≠ .out_of_bounds := by
  by_cases h : n ≤ max_n
  · by_cases h0 : inst.slotAt n = 0
    · rw [vName_of_zero inst max_n n frame_ids h h0]; simp
    · by_cases hge : toSizeT (inst.slotAt n) ≥ frame_ids.length
      · rw [vName_of_ge inst max_n n frame_ids h h0 hge]; simp
      · obtain ⟨name, _, hv⟩ := vName_of_lt inst max_n n frame_ids h h0 (by omega)
        rw [hv]; simp
  · rw [vName_of_gt inst max_n n frame_ids (by omega)]; simp

theorem vName_eq_nullptr_iff (inst : ZInst) (max_n n : Int) (frame_ids : frame_map) :
    inst.VName max_n n frame_ids = .nullptr ↔ n > max_n := by
  constructor
  · intro hnull
    by_contra hgt
    have h : n ≤ max_n := by omega
    by_cases h0 : inst.slotAt n = 0
    · rw [vName_of_zero inst max_n n frame_ids h h0] at hnull; simp at hnull
    · by_cases hge : toSizeT (inst.slotAt n) ≥ frame_ids.length
      · rw [vName_of_ge inst max_n n frame_ids h h0 hge] at hnull; simp at hnull
      · obtain ⟨name, _, hv⟩ := vName_of_lt inst max_n n frame_ids h h0 (by omega)
        rw [hv] at hnull; simp at hnull
  · exact vName_of_gt inst max_n n frame_ids

/-- C24, the counterexample: with a table of flavors in which the opcode reads
its first operand, an instruction of layout `OP_V_I1` with `v1 = 5` reports
slot 5 as used, while `NumFrameSlots` is 0, so that no operand `v_i` with
`1 <= i <= NumFrameSlots()` is the slot. -/
theorem usesSlot_reports_integer_operand :
    exampleIntInst.UsesSlot readingFlavors 5 = true ∧
    exampleIntInst.NumFrameSlots = 0 ∧
    ¬ ∃ i : Int, 1 ≤ i ∧ i ≤ exampleIntInst.NumFrameSlots ∧ 5 = exampleIntInst.slotAt i := by
  refine ⟨by decide, by decide, ?_⟩
  rintro ⟨i, h1, h2, _⟩
  have : exampleIntInst.NumFrameSlots = 0 := by decide
  omega

/-- C24, amended: for an instruction whose layout is not `OP_V_I1`, or whose
opcode has a first-operand flavor other than `OP1_READ` and `OP1_READ_WRITE`,
a slot `UsesSlot` reports is an operand `v_i` with `1 <= i <= NumFrameSlots()`. -/
theorem usesSlot_within_frame_slots (op1_flavor : Nat → ZAMOp1Flavor) (inst : ZInst) (s : Int)
    (hfl : inst.op_type = .OP_V_I1 →
      op1_flavor inst.op ≠ .OP1_READ ∧ op1_flavor inst.op ≠ .OP1_READ_WRITE)
    (h : inst.UsesSlot op1_flavor s = true) :
    ∃ i : Int, 1 ≤ i ∧ i ≤ inst.NumFrameSlots ∧ s = inst.slotAt i := by
  obtain ⟨op, ty, v1, v2, v3, v4⟩ := inst
  have e1 : ∀ a b c d : Int, (ZInst.mk op ty a b c d).slotAt 1 = a := fun _ _ _ _ => rfl
  have e2 : ∀ a b c d : Int, (ZInst.mk op ty a b c d).slotAt 2 = b := fun _ _ _ _ => rfl
  have e3 : ∀ a b c d : Int, (ZInst.mk op ty a b c d).slotAt 3 = c := fun _ _ _ _ => rfl
  have e4 : ∀ a b c d : Int, (ZInst.mk op ty a b c d).slotAt 4 = d := fun _ _ _ _ => rfl
  cases ty <;> simp [ZInst.UsesSlot, ZInst.NumFrameSlots] at h hfl ⊢
  all_goals (try casesm* _ ∨ _, _ ∧ _)
  all_goals
    first
    | contradiction
    | exact ⟨1, by omega, by omega, by rw [e1]; symm; assumption⟩
    | exact ⟨2, by omega, by omega, by rw [e2]; symm; assumption⟩
    | exact ⟨3, by omega, by omega, by rw [e3]; symm; assumption⟩
    | exact ⟨4, by omega, by omega, by rw [e4]; symm; assumption⟩

theorem usesSlot_within_frame_slots_witness :
    ∃ i : Int, 1 ≤ i ∧ i ≤ exampleInst.NumFrameSlots ∧ -2 = exampleInst.slotAt i :=
  usesSlot_within_frame_slots readingFlavors exampleInst (-2) (by decide) (by decide)

/-- C25: `Dump` never passes a null operand name to a `%s` format.  Every
operand name among the arguments of a `printf` call of `Dump` is
`VName(NumFrameSlots(), i, frame_ids)` for an `i` from 1 to 4 with
`i <= NumFrameSlots()`, and it is not the null pointer; and for every `i`,
`VName(NumFrameSlots(), i, frame_ids)` is non-null exactly when
`i <= NumFrameSlots()`. -/
theorem dump_passes_no_null_name (env : DumpEnv) (inst : ZInst) (frame_ids : frame_map) :
    (∀ call ∈ inst.Dump env frame_ids, ∀ id : VNameResult, DumpArg.name id ∈ call.args →
      id ≠ .nullptr ∧
      ∃ i : Int, 1 ≤ i ∧ i ≤ 4 ∧ i ≤ inst.NumFrameSlots ∧
        id = inst.VName inst.NumFrameSlots i frame_ids) ∧
    (∀ i : Int, inst.VName inst.NumFrameSlots i frame_ids ≠ .nullptr ↔
      i ≤ inst.NumFrameSlots) := by
  have hnull : ∀ i : Int, inst.VName inst.NumFrameSlots i frame_ids ≠ .nullptr ↔
      i ≤ inst.NumFrameSlots := by
    intro i
    rw [Ne, vName_eq_nullptr_iff]
    omega
  refine ⟨?_, hnull⟩
  have key : ∀ call ∈ inst.Dump env frame_ids, ∀ id : VNameResult,
      DumpArg.name id ∈ call.args →
      ∃ i : Int, 1 ≤ i ∧ i ≤ 4 ∧ i ≤ inst.NumFrameSlots ∧
        id = inst.VName inst.NumFrameSlots i frame_ids := by
    intro call hcall id hid
    obtain ⟨op, ty, v1, v2, v3, v4⟩ := inst
    cases ty <;> simp [ZInst.Dump] at hcall
    all_goals (try casesm* _ ∨ _)
    all_goals subst_vars
    all_goals simp at hid
    all_goals (try casesm* _ ∨ _)
    all_goals subst_vars
    all_goals
      first
      | exact ⟨1, by decide, by decide, by simp [ZInst.NumFrameSlots], rfl⟩
      | exact ⟨2, by decide, by decide, by simp [ZInst.NumFrameSlots], rfl⟩
      | exact ⟨3, by decide, by decide, by simp [ZInst.NumFrameSlots], rfl⟩
      | exact ⟨4, by decide, by decide, by simp [ZInst.NumFrameSlots], rfl⟩
  intro call hcall id hid
  obtain ⟨i, h1, h4, hn, hv⟩ := key call hcall id hid
  exact ⟨by rw [hv]; exact (hnull i).2 hn, i, h1, h4, hn, hv⟩

/-- C26: `VName(max_n, n, frame_ids)` is null exactly when `n > max_n`.  The
operand it selects is `v1`, `v2`, `v3` for `n` = 1, 2, 3 and `v4` for any other
`n`.  When `n <= max_n` it returns `"<reg0>"` if the operand is 0 and an
`extra-slot` label if the operand is not 0 and, converted to `size_t`, is at
least `frame_ids.size()`, which is so for every negative operand; otherwise the
operand is a position `p` with `0 < p < frame_ids.size()`, the only one at
which `frame_ids` is indexed, and the lookup succeeds.  In no case is the
lookup out of bounds.  The operands are values of the type `int` and the frame
has fewer than `2^61` slots, the most a vector of pointers can hold. -/
theorem vName_null_selection_and_bounds (inst : ZInst) (max_n n : Int)
    (frame_ids : frame_map) (hv : inst.operandsAreInts)
    (hsize : frame_ids.length < 2 ^ 61) :
    (inst.VName max_n n frame_ids = .nullptr ↔ n > max_n) ∧
    (inst.slotAt 1 = inst.v1 ∧ inst.slotAt 2 = inst.v2 ∧ inst.slotAt 3 = inst.v3 ∧
      (n ≠ 1 → n ≠ 2 → n ≠ 3 → inst.slotAt n = inst.v4)) ∧
    (n ≤ max_n → inst.slotAt n = 0 →
      inst.VName max_n n frame_ids = .copy_string "<reg0>") ∧
    (n ≤ max_n → inst.slotAt n ≠ 0 → toSizeT (inst.slotAt n) ≥ frame_ids.length →
      inst.VName max_n n frame_ids =
        .copy_string ("extra-slot " ++ toString (inst.slotAt n))) ∧
    (inst.slotAt n < 0 → toSizeT (inst.slotAt n) ≥ frame_ids.length) ∧
    (n ≤ max_n → inst.slotAt n ≠ 0 → toSizeT (inst.slotAt n) < frame_ids.length →
      0 < inst.slotAt n ∧ inst.slotAt n < frame_ids.length ∧
      toSizeT (inst.slotAt n) = (inst.slotAt n).toNat ∧
      ∃ name, frame_ids[(inst.slotAt n).toNat]? = some name ∧
        inst.VName max_n n frame_ids =
          .copy_string (toString (inst.slotAt n) ++ " (" ++ name ++ ")")) ∧
    inst.VName max_n n frame_ids ≠ .out_of_bounds := by
  have hint := slotAt_isInt inst hv n
  have hneg : inst.slotAt n < 0 → toSizeT (inst.slotAt n) ≥ frame_ids.length := by
    intro h0
    have := toSizeT_of_neg _ h0 hint
    omega
  refine ⟨vName_eq_nullptr_iff inst max_n n frame_ids, ⟨rfl, rfl, rfl, ?_⟩,
    vName_of_zero inst max_n n frame_ids, vName_of_ge inst max_n n frame_ids, hneg, ?_,
    vName_ne_out_of_bounds inst max_n n frame_ids⟩
  · intro h1 h2 h3
    simp [ZInst.slotAt, h1, h2, h3]
  · intro hle h0 hlt
    have hnn : 0 ≤ inst.slotAt n := by
      by_contra hc
      have := hneg (by omega)
      omega
    have hto := toSizeT_of_nonneg _ hnn hint
    obtain ⟨name, hname, hval⟩ := vName_of_lt inst max_n n frame_ids hle h0 hlt
    rw [hto] at hname hlt
    exact ⟨by omega, by omega, hto, name, hname, hval⟩

theorem vName_null_selection_and_bounds_witness :
    exampleInst.operandsAreInts ∧ exampleFrame.length < 2 ^ 61 ∧
    (exampleInst.VName 2 1 exampleFrame = .nullptr ↔ (1 : Int) > 2) ∧
    (exampleInst.slotAt 1 = exampleInst.v1 ∧ exampleInst.slotAt 2 = exampleInst.v2 ∧
      exampleInst.slotAt 3 = exampleInst.v3 ∧
      ((1 : Int) ≠ 1 → (1 : Int) ≠ 2 → (1 : Int) ≠ 3 →
        exampleInst.slotAt 1 = exampleInst.v4)) ∧
    ((1 : Int) ≤ 2 → exampleInst.slotAt 1 = 0 →
      exampleInst.VName 2 1 exampleFrame = .copy_string "<reg0>") ∧
    ((1 : Int) ≤ 2 → exampleInst.slotAt 1 ≠ 0 →
      toSizeT (exampleInst.slotAt 1) ≥ exampleFrame.length →
      exampleInst.VName 2 1 exampleFrame =
        .copy_string ("extra-slot " ++ toString (exampleInst.slotAt 1))) ∧
    (exampleInst.slotAt 1 < 0 → toSizeT (exampleInst.slotAt 1) ≥ exampleFrame.length) ∧
    ((1 : Int) ≤ 2 → exampleInst.slotAt 1 ≠ 0 →
      toSizeT (exampleInst.slotAt 1) < exampleFrame.length →
      0 < exampleInst.slotAt 1 ∧ exampleInst.slotAt 1 < exampleFrame.length ∧
      toSizeT (exampleInst.slotAt 1) = (exampleInst.slotAt 1).toNat ∧
      ∃ name, exampleFrame[(exampleInst.slotAt 1).toNat]? = some name ∧
        exampleInst.VName 2 1 exampleFrame =
          .copy_string (toString (exampleInst.slotAt 1) ++ " (" ++ name ++ ")")) ∧
    exampleInst.VName 2 1 exampleFrame ≠ .out_of_bounds :=
  ⟨by decide, by decide,
    vName_null_selection_and_bounds exampleInst 2 1 exampleFrame (by decide) (by decide)⟩

/-! ## Simple initialization expressions -/

/-- C22: `IsSimpleInitExpr(e)` is true exactly when `e` is a constant
expression, a name expression, or a record coercion whose operand is a record
constructor with zero field expressions; it is false for a record coercion of a
constructor with field expressions or of an operand of another tag, and for
every expression of another tag. -/
theorem isSimpleInitExpr_iff (e : Expr) :
    (IsSimpleInitExpr e = true ↔
      e.Tag = .EXPR_CONST ∨ e.Tag = .EXPR_NAME ∨
      ∃ op exprs, e = .RecordCoerceExpr op ∧ op = .RecordConstructorExpr exprs ∧
        exprs.length = 0) ∧
    (∀ op exprs, e = .RecordCoerceExpr op → op = .RecordConstructorExpr exprs →
      exprs.length ≠ 0 → IsSimpleInitExpr e = false) ∧
    (∀ op, e = .RecordCoerceExpr op → op.Tag ≠ .EXPR_RECORD_CONSTRUCTOR →
      IsSimpleInitExpr e = false) ∧
    (e.Tag ≠ .EXPR_CONST → e.Tag ≠ .EXPR_NAME → e.Tag ≠ .EXPR_RECORD_COERCE →
      IsSimpleInitExpr e = false) := by
  refine ⟨?_, ?_, ?_, ?_⟩
  · cases e with
    | ConstExpr v => simp [IsSimpleInitExpr, Expr.Tag]
    | NameExpr id => simp [IsSimpleInitExpr, Expr.Tag]
    | RecordCoerceExpr op => cases op <;> simp [IsSimpleInitExpr, Expr.Tag]
    | RecordConstructorExpr exprs => simp [IsSimpleInitExpr, Expr.Tag]
    | OtherExpr n ops => simp [IsSimpleInitExpr, Expr.Tag]
  · rintro op exprs rfl rfl hne
    simpa [IsSimpleInitExpr] using hne
  · rintro op rfl hne
    cases op <;> simp [IsSimpleInitExpr, Expr.Tag] at hne ⊢
  · intro h1 h2 h3
    cases e <;> simp [IsSimpleInitExpr, Expr.Tag] at h1 h2 h3 ⊢

/-! ## Conveniences of the scheduler -/

/-- C23: the three-argument `AddInit` leaves the scheduler in exactly the state
`AddInit(o, lhs + " = " + rhs + ";")` does, for every object, strings and
state; the statement it adds is the last of the statements of `o`. -/
theorem addInit3_eq_addInit (o : Obj) (lhs rhs : String) (st : InitState) :
    AddInit3 o lhs rhs st = AddInit o (lhs ++ " = " ++ rhs ++ ";") st ∧
    (initsOf (AddInit3 o lhs rhs st) o).getLast? = some (lhs ++ " = " ++ rhs ++ ";") ∧
    (AddInit3 o lhs rhs st).obj_deps = st.obj_deps := by
  refine ⟨rfl, ?_, rfl⟩
  show (lookupInits o (appendInit o (lhs ++ " = " ++ rhs ++ ";") st.obj_inits)).getLast? = _
  rw [lookupInits_appendInit_self]
  simp

/-- C28: `NoteNonRecordInitDependency(o, t)` with a null type `t` is a no-op:
whatever `TypeRep` is, the state is the one it was, and with it `obj_deps`;
the result does not depend on `TypeRep`, which is not evaluated. -/
theorem noteNonRecordInitDependency_null_is_noop (TypeRep : ZType → ZType) (o : Obj)
    (st : InitState) :
    NoteNonRecordInitDependency TypeRep o none st = st ∧
    (NoteNonRecordInitDependency TypeRep o none st).obj_deps = st.obj_deps ∧
    (∀ a b, DependsOn (NoteNonRecordInitDependency TypeRep o none st) a b ↔
      DependsOn st a b) ∧
    (∀ TypeRep2 : ZType → ZType,
      NoteNonRecordInitDependency TypeRep2 o none st =
        NoteNonRecordInitDependency TypeRep o none st) :=
  ⟨rfl, rfl, fun _ _ => Iff.rfl, fun _ => rfl⟩

/-! ## Decimal representations and the initializer of an enum constant -/

theorem digitChar_decode (d : Nat) (h : d < 10) :
    (Nat.digitChar d).toNat - 48 = d ∧ (Nat.digitChar d).isDigit = true := by
  interval_cases d <;> exact ⟨by decide, by decide⟩

theorem toDigitsCore_append (fuel : Nat) : ∀ (n : Nat) (ds : List Char),
    Nat.toDigitsCore 10 fuel n ds = Nat.toDigitsCore 10 fuel n [] ++ ds := by
  induction fuel with
  | zero => intro n ds; simp [Nat.toDigitsCore]
  | succ fuel ih =>
    intro n ds
    simp only [Nat.toDigitsCore]
    split_ifs with h
    · simp
    · rw [ih (n / 10) (Nat.digitChar (n % 10) :: ds), ih (n / 10) [Nat.digitChar (n % 10)]]
      simp

theorem decodeDigits_concat (l : List Char) (c : Char) :
    decodeDigits (l ++ [c]) = decodeDigits l * 10 + (c.toNat - 48) := by
  simp [decodeDigits, List.foldl_append]

theorem decodeDigits_toDigitsCore (fuel : Nat) : ∀ n : Nat, n < fuel →
    decodeDigits (Nat.toDigitsCore 10 fuel n []) = n := by
  induction fuel with
  | zero => intro n h; omega
  | succ fuel ih =>
    intro n hn
    simp only [Nat.toDigitsCore]
    have hd := (digitChar_decode (n % 10) (Nat.mod_lt _ (by decide))).1
    split_ifs with h
    · simp only [decodeDigits, List.foldl, hd]
      omega
    · rw [toDigitsCore_append, decodeDigits_concat, ih (n / 10) (by omega), hd]
      omega

theorem toDigitsCore_isDigit (fuel : Nat) : ∀ (n : Nat) (ds : List Char),
    (∀ c ∈ ds, c.isDigit = true) →
    ∀ c ∈ Nat.toDigitsCore 10 fuel n ds, c.isDigit = true := by
  induction fuel with
  | zero => intro n ds hds; simpa [Nat.toDigitsCore] using hds
  | succ fuel ih =>
    intro n ds hds
    have hd := (digitChar_decode (n % 10) (Nat.mod_lt _ (by decide))).2
    have hds2 : ∀ c ∈ Nat.digitChar (n % 10) :: ds, c.isDigit = true := by
      intro c hc
      rcases List.mem_cons.1 hc with rfl | hc
      · exact hd
      · exact hds c hc
    simp only [Nat.toDigitsCore]
    split_ifs with h
    · exact hds2
    · exact ih (n / 10) _ hds2

theorem nat_repr_data (n : Nat) : (toString n).data = Nat.toDigits 10 n := rfl

theorem nat_repr_isDigit (n : Nat) : ∀ c ∈ (toString n).data, c.isDigit = true := by
  rw [nat_repr_data]
  exact toDigitsCore_isDigit _ _ _ (by simp)

theorem nat_repr_injective (a b : Nat) (h : toString a = toString b) : a = b := by
  have h2 : (toString a).data = (toString b).data := by rw [h]
  rw [nat_repr_data, nat_repr_data] at h2
  have ha := decodeDigits_toDigitsCore (a + 1) a (by omega)
  have hb := decodeDigits_toDigitsCore (b + 1) b (by omega)
  unfold Nat.toDigits at h2
  rw [h2] at ha
  omega

theorem int_repr_data (n : Int) :
    (to_string n).data =
      if 0 ≤ n then (toString n.toNat).data else '-' :: (toString n.natAbs).data := by
  cases n with
  | ofNat m => simp [to_string]; rfl
  | negSucc m =>
    have : ¬ (0 : Int) ≤ Int.negSucc m := by
      have := Int.negSucc_lt_zero m
      omega
    rw [if_neg this]
    rfl

theorem to_string_injective (a b : Int) (h : to_string a = to_string b) : a = b := by
  have h2 : (to_string a).data = (to_string b).data := by rw [h]
  rw [int_repr_data, int_repr_data] at h2
  have hminus : ∀ n : Nat, ∀ l : List Char, (toString n).data ≠ '-' :: l := by
    intro n l hc
    have := nat_repr_isDigit n '-' (by rw [hc]; simp)
    exact absurd this (by decide)
  split_ifs at h2 with ha hb hb
  · have := nat_repr_injective _ _ (String.ext h2)
    omega
  · exact absurd h2 (hminus _ _)
  · exact absurd h2.symm (hminus _ _)
  · have := nat_repr_injective _ _ (String.ext (List.cons.inj h2).2)
    omega

theorem to_string_no_comma (a : Int) : ',' ∉ (to_string a).data := by
  intro hc
  rw [int_repr_data] at hc
  split_ifs at hc with ha
  · exact absurd (nat_repr_isDigit _ _ hc) (by decide)
  · rcases List.mem_cons.1 hc with h | h
    · exact absurd h (by decide)
    · exact absurd (nat_repr_isDigit _ _ h) (by decide)

theorem append_cons_split {α : Type} (c : α) : ∀ (l1 l2 r1 r2 : List α),
    c ∉ l1 → c ∉ l2 → l1 ++ c :: r1 = l2 ++ c :: r2 → l1 = l2 ∧ r1 = r2 := by
  intro l1
  induction l1 with
  | nil =>
    intro l2 r1 r2 _ h2 h
    cases l2 with
    | nil => simpa using h
    | cons x xs =>
      simp at h
      exact absurd (by simp [h.1]) h2
  | cons y ys ih =>
    intro l2 r1 r2 h1 h2 h
    cases l2 with
    | nil =>
      simp at h
      exact absurd (by simp [h.1]) h1
    | cons x xs =>
      simp at h
      obtain ⟨hxy, hrest⟩ := h
      have := ih xs r1 r2 (fun hm => h1 (List.mem_cons_of_mem _ hm))
        (fun hm => h2 (List.mem_cons_of_mem _ hm)) hrest
      exact ⟨by rw [hxy, this.1], this.2⟩

theorem initializer_data (ec : EnumConstInfo) :
    ec.Initializer.data =
      "CPP_EnumConst(".data ++ ((to_string ec.e_type).data ++
        ',' :: (' ' :: ((to_string ec.e_val).data ++ [')']))) := by
  simp [EnumConstInfo.Initializer, String.data_append]

/-- C27: `EnumConstInfo::Initializer` is injective in the content of the
constant: two enum constants have the same initializer string if and only if
they have the same type offset and the same value. -/
theorem enumConst_initializer_injective (ec1 ec2 : EnumConstInfo) :
    ec1.Initializer = ec2.Initializer ↔ ec1.e_type = ec2.e_type ∧ ec1.e_val = ec2.e_val := by
  constructor
  · intro h
    have h2 : ec1.Initializer.data = ec2.Initializer.data := by rw [h]
    rw [initializer_data, initializer_data] at h2
    have h3 := List.append_cancel_left h2
    obtain ⟨ht, hr⟩ := append_cons_split ',' _ _ _ _ (to_string_no_comma _)
      (to_string_no_comma _) h3
    have hv := List.append_cancel_right (List.cons.inj hr).2
    exact ⟨to_string_injective _ _ (String.ext ht), to_string_injective _ _ (String.ext hv)⟩
  · rintro ⟨h1, h2⟩
    simp [EnumConstInfo.Initializer, h1, h2]

/-! ## Activation of standalone code -/

theorem string_length_pos_of_ne (s : String) (h : s ≠ "") : 0 < s.length := by
  by_contra hc
  apply h
  apply String.ext
  have h0 : s.data.length = 0 := by
    have : s.length = s.data.length := rfl
    omega
  simpa using List.length_eq_zero.1 h0

theorem hashes_fold_eq_go (env : ActivationEnv) :
    ∀ (hs : List Nat) (acc : String), 0 < acc.length →
    hs.foldl (fun hashes h =>
      (if hashes.length > 0 then hashes ++ ", " else hashes) ++ env.FmtHash h) acc =
    String.intercalate.go acc ", " (hs.map env.FmtHash) := by
  intro hs
  induction hs with
  | nil => intro acc _; simp [String.intercalate.go]
  | cons h rest ih =>
    intro acc hacc
    simp only [List.foldl, List.map, String.intercalate.go]
    rw [if_pos hacc]
    apply ih
    rw [String.length_append, String.length_append]
    omega

theorem hashesText_eq_intercalate (env : ActivationEnv) (hFmt : ∀ h, env.FmtHash h ≠ "")
    (hs : List Nat) :
    hashesText env hs = "\x7b" ++ String.intercalate ", " (hs.map env.FmtHash) ++ "\x7d" := by
  unfold hashesText
  cases hs with
  | nil => simp [String.intercalate]
  | cons h rest =>
    simp only [List.foldl, List.map, String.intercalate]
    have h0 : ¬ ("" : String).length > 0 := by decide
    rw [if_neg h0]
    have he : ("" : String) ++ env.FmtHash h = env.FmtHash h := by simp
    rw [he, hashes_fold_eq_go env rest _ (string_length_pos_of_ne _ (hFmt h))]

theorem map_fst_pushBody (f h : Nat) (l : FuncBodies) :
    (pushBody f h l).map Prod.fst =
      if f ∈ l.map Prod.fst then l.map Prod.fst else l.map Prod.fst ++ [f] := by
  induction l with
  | nil => simp [pushBody]
  | cons e rest ih =>
    obtain ⟨k, hs⟩ := e
    by_cases hk : k = f
    · subst hk
      simp [pushBody]
    · have hk2 : ¬ f = k := fun hc => hk hc.symm
      by_cases hm : f ∈ rest.map Prod.fst
      · simp only [pushBody, if_neg hk, List.map_cons, ih, if_pos hm, List.mem_cons, hm,
          or_true, if_true]
      · simp only [pushBody, if_neg hk, List.map_cons, ih, if_neg hm, List.mem_cons, hm,
          or_false, hk2, if_false, List.cons_append]

theorem nodup_pushBody (f h : Nat) (l : FuncBodies) (hn : (l.map Prod.fst).Nodup) :
    ((pushBody f h l).map Prod.fst).Nodup := by
  rw [map_fst_pushBody]
  split_ifs with hm
  · exact hn
  · rw [List.nodup_append]
    refine ⟨hn, by simp, ?_⟩
    intro a ha hb
    simp at hb
    subst hb
    exact hm ha

theorem mem_keys_pushBody (f h g : Nat) (l : FuncBodies) :
    g ∈ (pushBody f h l).map Prod.fst ↔ g = f ∨ g ∈ l.map Prod.fst := by
  rw [map_fst_pushBody]
  split_ifs with hm
  · constructor
    · exact Or.inr
    · rintro (rfl | hg)
      · exact hm
      · exact hg
  · rw [List.mem_append]
    simp only [List.mem_singleton]
    tauto

theorem mem_pushBody (f h : Nat) : ∀ (l : FuncBodies), (l.map Prod.fst).Nodup →
    ∀ (k : Nat) (hs : List Nat), (k, hs) ∈ pushBody f h l →
    (k ≠ f ∧ (k, hs) ∈ l) ∨
    (k = f ∧ ((∃ hs0, (f, hs0) ∈ l ∧ hs = hs0 ++ [h]) ∨
      (f ∉ l.map Prod.fst ∧ hs = [h]))) := by
  intro l
  induction l with
  | nil =>
    intro _ k hs hmem
    simp [pushBody] at hmem
    right
    exact ⟨hmem.1, Or.inr ⟨by simp, hmem.2⟩⟩
  | cons e rest ih =>
    obtain ⟨k0, hs0⟩ := e
    intro hn k hs hmem
    rw [List.map_cons, List.nodup_cons] at hn
    by_cases hk : k0 = f
    · subst hk
      simp only [pushBody, if_true, List.mem_cons] at hmem
      rcases hmem with heq | hrest
      · right
        have h1 : k = k0 := (Prod.mk.inj heq).1
        have h2 : hs = hs0 ++ [h] := (Prod.mk.inj heq).2
        exact ⟨h1, Or.inl ⟨hs0, by simp, h2⟩⟩
      · left
        refine ⟨?_, List.mem_cons_of_mem _ hrest⟩
        intro hc
        subst hc
        exact hn.1 (List.mem_map.2 ⟨(_, hs), hrest, rfl⟩)
    · simp only [pushBody, if_neg hk, List.mem_cons] at hmem
      rcases hmem with heq | hrest
      · left
        have h1 : k = k0 := (Prod.mk.inj heq).1
        have h2 : hs = hs0 := (Prod.mk.inj heq).2
        subst h1 h2
        exact ⟨hk, by simp⟩
      · rcases ih hn.2 k hs hrest with ⟨h1, h2⟩ | ⟨h1, ⟨hs1, h2, h3⟩ | ⟨h2, h3⟩⟩
        · exact Or.inl ⟨h1, List.mem_cons_of_mem _ h2⟩
        · exact Or.inr ⟨h1, Or.inl ⟨hs1, List.mem_cons_of_mem _ h2, h3⟩⟩
        · refine Or.inr ⟨h1, Or.inr ⟨?_, h3⟩⟩
          simp only [List.map_cons, List.mem_cons, not_or]
          exact ⟨fun hc => hk hc.symm, h2⟩

theorem collectFuncBodies_concat (env : ActivationEnv) (funcs : List FuncInfo) (x : FuncInfo)
    (compiled_funcs : List String) (body_hashes : List (String × Nat)) :
    collectFuncBodies env (funcs ++ [x]) compiled_funcs body_hashes =
      match collectFuncBodies env funcs compiled_funcs body_hashes with
      | none => none
      | some func_bodies =>
        if compiled_funcs.count (canonicalBodyName env x) = 0 then some func_bodies
        else
          match body_hashes.lookup (canonicalBodyName env x) with
          | none => none
          | some h => some (pushBody x.Func h func_bodies) := by
  unfold collectFuncBodies
  rw [List.foldlM_append]
  cases List.foldlM (collectStep env compiled_funcs body_hashes) [] funcs with
  | none => rfl
  | some fb => simp [List.foldlM, collectStep, canonicalBodyName]

theorem compiledHashes_concat (env : ActivationEnv) (funcs : List FuncInfo) (x : FuncInfo)
    (compiled_funcs : List String) (body_hashes : List (String × Nat)) (f : Nat) :
    compiledHashes env (funcs ++ [x]) compiled_funcs body_hashes f =
      compiledHashes env funcs compiled_funcs body_hashes f ++
        (if x.Func = f ∧ compiled_funcs.count (canonicalBodyName env x) ≠ 0 then
          (body_hashes.lookup (canonicalBodyName env x)).toList else []) := by
  unfold compiledHashes
  rw [List.filterMap_append]
  congr 1
  by_cases h : x.Func = f ∧ compiled_funcs.count (canonicalBodyName env x) ≠ 0
  · rw [if_pos h]
    cases hl : body_hashes.lookup (canonicalBodyName env x) <;>
      simp [List.filterMap, h, hl]
  · rw [if_neg h]
    simp [List.filterMap, h]

theorem compiledHashes_eq_nil (env : ActivationEnv) (funcs : List FuncInfo)
    (compiled_funcs : List String) (body_hashes : List (String × Nat)) (f : Nat)
    (h : ¬ ∃ func ∈ funcs, func.Func = f ∧
      compiled_funcs.count (canonicalBodyName env func) ≠ 0) :
    compiledHashes env funcs compiled_funcs body_hashes f = [] := by
  unfold compiledHashes
  rw [List.filterMap_eq_nil_iff]
  intro func hfunc
  rw [if_neg (fun hc => h ⟨func, hfunc, hc⟩)]

theorem collectFuncBodies_spec (env : ActivationEnv) (funcs : List FuncInfo)
    (compiled_funcs : List String) (body_hashes : List (String × Nat))
    (hhash : ∀ func ∈ funcs, compiled_funcs.count (canonicalBodyName env func) ≠ 0 →
      (body_hashes.lookup (canonicalBodyName env func)).isSome = true) :
    ∃ l, collectFuncBodies env funcs compiled_funcs body_hashes = some l ∧
      (l.map Prod.fst).Nodup ∧
      (∀ f, f ∈ l.map Prod.fst ↔
        ∃ func ∈ funcs, func.Func = f ∧
          compiled_funcs.count (canonicalBodyName env func) ≠ 0) ∧
      (∀ k hs, (k, hs) ∈ l →
        hs = compiledHashes env funcs compiled_funcs body_hashes k) := by
  induction funcs using List.reverseRecOn with
  | nil => exact ⟨[], rfl, by simp, by simp, by simp⟩
  | append_singleton funcs x ih =>
    obtain ⟨l, hl, ih1, ih2, ih3⟩ := ih (fun func hf => hhash func (List.mem_append_left _ hf))
    rw [collectFuncBodies_concat, hl]
    by_cases hx : compiled_funcs.count (canonicalBodyName env x) = 0
    · simp only [if_pos hx]
      refine ⟨l, rfl, ih1, ?_, ?_⟩
      · intro f
        rw [ih2 f]
        constructor
        · rintro ⟨func, hf, h1, h2⟩
          exact ⟨func, List.mem_append_left _ hf, h1, h2⟩
        · rintro ⟨func, hf, h1, h2⟩
          rcases List.mem_append.1 hf with hf | hf
          · exact ⟨func, hf, h1, h2⟩
          · rw [List.mem_singleton] at hf
            subst hf
            exact absurd hx h2
      · intro k hs hmem
        rw [compiledHashes_concat, if_neg (fun hc => hc.2 hx), List.append_nil]
        exact ih3 k hs hmem
    · have hsome := hhash x (by simp) hx
      rw [Option.isSome_iff_exists] at hsome
      obtain ⟨h, hh⟩ := hsome
      simp only [if_neg hx, hh]
      refine ⟨pushBody x.Func h l, rfl, nodup_pushBody _ _ _ ih1, ?_, ?_⟩
      · intro f
        rw [mem_keys_pushBody, ih2 f]
        constructor
        · rintro (rfl | ⟨func, hf, h1, h2⟩)
          · exact ⟨x, by simp, rfl, hx⟩
          · exact ⟨func, List.mem_append_left _ hf, h1, h2⟩
        · rintro ⟨func, hf, h1, h2⟩
          rcases List.mem_append.1 hf with hf | hf
          · exact Or.inr ⟨func, hf, h1, h2⟩
          · rw [List.mem_singleton] at hf
            subst hf
            exact Or.inl h1.symm
      · intro k hs hmem
        rw [compiledHashes_concat]
        rcases mem_pushBody _ _ _ ih1 k hs hmem with ⟨h1, h2⟩ | ⟨h1, ⟨hs0, h2, h3⟩ | ⟨h2, h3⟩⟩
        · rw [if_neg (fun hc => h1 hc.1.symm), List.append_nil]
          exact ih3 k hs h2
        · subst h1
          rw [if_pos ⟨rfl, hx⟩, h3, ih3 _ hs0 h2, hh]
          rfl
        · subst h1
          rw [if_pos ⟨rfl, hx⟩, h3, hh]
          rw [compiledHashes_eq_nil env funcs compiled_funcs body_hashes _
            (fun hc => h2 ((ih2 _).2 hc))]
          rfl

theorem activateBodies_eq (env : ActivationEnv) : ∀ (l : FuncBodies) (names : Finset String),
    (∀ e ∈ l, hasIdentifier env e.1) →
    ∃ names2, activateBodies env l names =
      some (l.map (fun e => activationCall env e.1 (hashesText env e.2)), names2) := by
  intro l
  induction l with
  | nil => intro names _; exact ⟨names, rfl⟩
  | cons e rest ih =>
    intro names hid
    have he : hasIdentifier env e.1 := hid e (by simp)
    obtain ⟨names2, h2⟩ := ih
      (insert (env.extract_module_name (env.Name e.1)) names)
      (fun e2 h => hid e2 (List.mem_cons_of_mem _ h))
    refine ⟨names2, ?_⟩
    unfold hasIdentifier at he
    rw [Option.isSome_iff_exists] at he
    obtain ⟨b, hb⟩ := he
    simp only [activateBodies, hb, h2, List.map_cons, activationCall]
    cases b <;> simp

theorem exampleActivationEnv_fmtHash_ne (h : Nat) : exampleActivationEnv.FmtHash h ≠ "" := by
  intro hc
  have hl := congrArg String.length hc
  simp only [exampleActivationEnv, String.length_append] at hl
  have h3 : "ULL".length = 3 := by decide
  have h0 : "".length = 0 := by decide
  omega

/-- C21: in `GenStandaloneActivation` a body that was not compiled is skipped
without affecting the others.  Assume that `Fmt` gives no empty string, that
the loop over `func_bodies` meets the entries of the map in some order, each
once, that every compiled body has a hash in `body_hashes` (the `ASSERT` of
line 215 holds) and that every function with a compiled body has an
identifier.  Then the function returns, and its output is the opening lines,
one `activate_bodies__CPP` call for each function of a list `fs`, and the
closing lines, where `fs` holds, once each, exactly the functions with at
least one entry of `funcs` whose canonical body name (with the suffix `_zf`)
is in `compiled_funcs`; the last argument of the call of `f` is, between
braces and separated by `", "`, the formatted hashes that `body_hashes` keeps
for exactly the entries of `funcs` that belong to `f` and whose canonical body
name is in `compiled_funcs`, in the order of `funcs`.  A function none of
whose bodies was compiled is not in `fs` and gets no call. -/
theorem genStandaloneActivation_skips_uncompiled (env : ActivationEnv)
    (funcs : List FuncInfo) (compiled_funcs : List String)
    (body_hashes : List (String × Nat)) (module_names : Finset String)
    (hFmt : ∀ h, env.FmtHash h ≠ "")
    (hord : ∀ l, (env.func_bodies_order l).Perm l)
    (hhash : ∀ func ∈ funcs, compiled_funcs.count (canonicalBodyName env func) ≠ 0 →
      (body_hashes.lookup (canonicalBodyName env func)).isSome = true)
    (hid : ∀ func ∈ funcs, compiled_funcs.count (canonicalBodyName env func) ≠ 0 →
      hasIdentifier env func.Func) :
    ∃ (fs : List Nat) (names : Finset String),
      fs.Nodup ∧
      (∀ f, f ∈ fs ↔ ∃ func ∈ funcs, func.Func = f ∧
        compiled_funcs.count (canonicalBodyName env func) ≠ 0) ∧
      GenStandaloneActivation env funcs compiled_funcs body_hashes module_names =
        some ([.NL, .NL, .Emit "void standalone_init__CPP()" [], .StartBlock] ++
          fs.map (fun f => activationCall env f
            ("\x7b" ++ String.intercalate ", "
              ((funcs.filterMap (fun func =>
                if func.Func = f ∧
                    compiled_funcs.count (canonicalBodyName env func) ≠ 0 then
                  body_hashes.lookup (canonicalBodyName env func)
                else none)).map env.FmtHash) ++
              "\x7d")) ++
          [.NL, .Emit "CPP_activation_funcs.push_back(standalone_activation__CPP);" [],
           .Emit "CPP_activation_hook = activate__CPPs;" [], .EndBlock false], names) := by
  obtain ⟨l, hl, h1, h2, h3⟩ :=
    collectFuncBodies_spec env funcs compiled_funcs body_hashes hhash
  have hperm := hord l
  have hids : ∀ e ∈ env.func_bodies_order l, hasIdentifier env e.1 := by
    intro e he
    obtain ⟨func, hf, hfe, hc⟩ :=
      (h2 e.1).1 (List.mem_map_of_mem Prod.fst (hperm.mem_iff.1 he))
    rw [← hfe]
    exact hid func hf hc
  obtain ⟨names, hact⟩ := activateBodies_eq env _ module_names hids
  refine ⟨(env.func_bodies_order l).map Prod.fst, names,
    (hperm.map Prod.fst).nodup_iff.2 h1, ?_, ?_⟩
  · intro f
    rw [(hperm.map Prod.fst).mem_iff]
    exact h2 f
  · simp only [GenStandaloneActivation, hl, hact, List.map_map]
    congr 4
    apply List.map_congr_left
    intro e he
    obtain ⟨k, hs⟩ := e
    simp only [Function.comp]
    rw [hashesText_eq_intercalate env hFmt, h3 k hs (hperm.mem_iff.1 he)]
    rfl

/-- The functions 1 and 2 of `exampleFuncs` get one call each; the body 11 of
function 1, which was not compiled, leaves the hashes 7 and 9 of its other
bodies in place, and the hash 5 of function 2. -/
theorem genStandaloneActivation_skips_uncompiled_witness :
    (∃ (fs : List Nat) (names : Finset String),
      fs.Nodup ∧
      (∀ f, f ∈ fs ↔ ∃ func ∈ exampleFuncs, func.Func = f ∧
        exampleCompiled.count (canonicalBodyName exampleActivationEnv func) ≠ 0) ∧
      GenStandaloneActivation exampleActivationEnv exampleFuncs exampleCompiled
          exampleBodyHashes ∅ =
        some ([.NL, .NL, .Emit "void standalone_init__CPP()" [], .StartBlock] ++
          fs.map (fun f => activationCall exampleActivationEnv f
            ("\x7b" ++ String.intercalate ", "
              ((exampleFuncs.filterMap (fun func =>
                if func.Func = f ∧
                    exampleCompiled.count (canonicalBodyName exampleActivationEnv func) ≠ 0
                then exampleBodyHashes.lookup (canonicalBodyName exampleActivationEnv func)
                else none)).map exampleActivationEnv.FmtHash) ++
              "\x7d")) ++
          [.NL, .Emit "CPP_activation_funcs.push_back(standalone_activation__CPP);" [],
           .Emit "CPP_activation_hook = activate__CPPs;" [], .EndBlock false], names)) ∧
    (GenStandaloneActivation exampleActivationEnv exampleFuncs exampleCompiled
        exampleBodyHashes ∅).map Prod.fst =
      some [.NL, .NL, .Emit "void standalone_init__CPP()" [], .StartBlock,
        .Emit "activate_bodies__CPP(\"%s\", \"%s\", %s, %s, %s);"
          ["f2", "GLOBAL", "true", "type1002", "\x7b5ULL\x7d"],
        .Emit "activate_bodies__CPP(\"%s\", \"%s\", %s, %s, %s);"
          ["f1", "GLOBAL", "true", "type1001", "\x7b7ULL, 9ULL\x7d"],
        .NL, .Emit "CPP_activation_funcs.push_back(standalone_activation__CPP);" [],
        .Emit "CPP_activation_hook = activate__CPPs;" [], .EndBlock false] :=
  ⟨genStandaloneActivation_skips_uncompiled exampleActivationEnv exampleFuncs
      exampleCompiled exampleBodyHashes ∅ exampleActivationEnv_fmtHash_ne
      (fun l => List.reverse_perm l) (by decide) (by decide),
    by decide⟩

/-! ## Ties among ready objects -/

end Zeek
